import Mathlib

/-!
go2cpp: instruction translator and bit primitives

A shallow embedding of

* `instrsToCSharp` (ops.go): the pass that turns a decoded WebAssembly
  instruction list into a list of statements over numbered stack slots;
* the `Bits` class emitted by gowasm2cpp/bits.go (`LeadingZeros`,
  `TailingZeros`, `OnesCount`, `RotateLeft`, `Len` and their tables).

Go run-time panics and C++ undefined behaviour are explicit: the translator
returns `Except GoPanic _`, the bit primitives return `Option _`.
Unsigned machine integers are natural numbers reduced modulo `2 ^ w`;
`int32_t` results are integers.
-/

namespace Go2Cpp

/-! ## Instruction translator (ops.go) -/

/-- Value types of a function signature (wasm.ValueType). -/
inductive ValueType
  | I32 | I64 | F32 | F64
deriving DecidableEq, Repr

/-- The signature handed to the translator (wasm.FunctionSig). -/
structure FunctionSig where
  ParamTypes : List ValueType
  ReturnTypes : List ValueType
deriving DecidableEq, Repr

/-- Opcodes of the package `operators`.  Every constant named in the switch of
`instrsToCSharp` has a constructor of the same name; the named opcodes the
switch does not mention come next, and `other` stands for any remaining byte. -/
inductive Opcode
  | Unreachable | Nop | Block | Loop | If | Else | End
  | Drop | Select
  | GetLocal | SetLocal | TeeLocal | GetGlobal | SetGlobal
  | I32Load | I64Load | F32Load | F64Load
  | I32Load8s | I32Load8u | I32Load16s | I32Load16u
  | I64Load8s | I64Load8u | I64Load16s | I64Load16u | I64Load32s | I64Load32u
  | I32Store | I64Store | F32Store | F64Store
  | I32Store8 | I32Store16 | I64Store8 | I64Store16 | I64Store32
  | CurrentMemory | GrowMemory
  | I32Const | I64Const | F32Const | F64Const
  | I32Eqz | I32Eq | I32Ne | I32LtS | I32LtU | I32GtS | I32GtU
  | I32LeS | I32LeU | I32GeS | I32GeU
  | I64Eqz | I64Eq | I64Ne | I64LtS | I64LtU | I64GtS | I64GtU
  | I64LeS | I64LeU | I64GeS | I64GeU
  | F32Eq | F32Ne | F32Lt | F32Gt | F32Le | F32Ge
  | F64Eq | F64Ne | F64Lt | F64Gt | F64Le | F64Ge
  | I32Clz | I32Ctz | I32Popcnt
  | I32Add | I32Sub | I32Mul | I32DivS | I32DivU | I32RemS | I32RemU
  | I32And | I32Or | I32Xor | I32Shl | I32ShrS | I32ShrU | I32Rotl | I32Rotr
  | I64Clz | I64Ctz | I64Popcnt
  | I64Add | I64Sub | I64Mul | I64DivS | I64DivU | I64RemS | I64RemU
  | I64And | I64Or | I64Xor | I64Shl | I64ShrS | I64ShrU | I64Rotl | I64Rotr
  | F32Abs | F32Neg | F32Ceil | F32Floor | F32Trunc | F32Nearest | F32Sqrt
  | F32Add | F32Sub | F32Mul | F32Div | F32Min | F32Max | F32Copysign
  | F64Abs | F64Neg | F64Ceil | F64Floor | F64Trunc | F64Nearest | F64Sqrt
  | F64Add | F64Sub | F64Mul | F64Div | F64Min | F64Max | F64Copysign
  | Br | BrIf | BrTable | Return | Call | CallIndirect
  | I32WrapI64 | I32TruncSF32 | I32TruncUF32 | I32TruncSF64 | I32TruncUF64
  | I64ExtendSI32 | I64ExtendUI32
  | I64TruncSF32 | I64TruncUF32 | I64TruncSF64 | I64TruncUF64
  | F32ConvertSI32 | F32ConvertUI32 | F32ConvertSI64 | F32ConvertUI64 | F32DemoteF64
  | F64ConvertSI32 | F64ConvertUI32 | F64ConvertSI64 | F64ConvertUI64 | F64PromoteF32
  | I32ReinterpretF32 | I64ReinterpretF64 | F32ReinterpretI32 | F64ReinterpretI64
  | other (code : Nat)

/-- An operator (operators.Op): its opcode, and `text`, the string that
`fmt.Sprintf("%v", op)` prints for it.  The printing is done by the Go library
on a struct of the wagon package, so it is carried as data. -/
structure Operator where
  Code : Opcode
  text : String

/-- A decoded instruction (disasm.Instr): operator and immediates.  The
immediates the translator prints with `%d` are the integers the disassembler
stores (local and global indices, i32 and i64 constants). -/
structure Instr where
  Op : Operator
  Immediates : List Int

/-- Run-time panics of the Go code: a slice expression or an index expression
out of range. -/
inductive GoPanic
  | sliceBounds
  | indexRange
deriving DecidableEq, Repr

/-- The three variables of `instrsToCSharp`.  `idxStack` is kept in the order
of the Go slice: index 0 is the bottom, the last element is the top. -/
structure TransState where
  body : List String
  newIdx : Nat
  idxStack : List Nat
deriving DecidableEq, Repr

/-- The state `var body []string; var newIdx int; var idxStack []int`. -/
def TransState.init : TransState := ⟨[], 0, []⟩

/-- The `%d` verb of `fmt.Sprintf` on an integer. -/
def fmtD (n : Int) : String := toString n

/-- The slice expression `idxStack[:len(idxStack)-k]`: it panics when
`len(idxStack)-k` is negative. -/
def sliceOff (k : Nat) (s : List Nat) : Except GoPanic (List Nat) :=
  if k ≤ s.length then .ok (s.take (s.length - k)) else .error .sliceBounds

/-- The index expression `idxStack[len(idxStack)-1]`: it panics on an empty
slice. -/
def topOf (s : List Nat) : Except GoPanic Nat :=
  match s.getLast? with
  | some v => .ok v
  | none => .error .indexRange

/-- The index expression `instr.Immediates[0]`. -/
def imm0 (instr : Instr) : Except GoPanic Int :=
  match instr.Immediates with
  | v :: _ => .ok v
  | [] => .error .indexRange

/-- The closure `nextIdx`: returns the counter and increments it. -/
def nextIdx (st : TransState) : Nat × TransState :=
  (st.newIdx, { st with newIdx := st.newIdx + 1 })

/-- The statement `body = append(body, s)`. -/
def emit (st : TransState) (s : String) : TransState :=
  { st with body := st.body ++ [s] }

/-- The statement `idxStack = append(idxStack, idx)`. -/
def push (st : TransState) (idx : Nat) : TransState :=
  { st with idxStack := st.idxStack ++ [idx] }

/-- The statement `idxStack = idxStack[:len(idxStack)-k]`. -/
def popK (k : Nat) (st : TransState) : Except GoPanic TransState :=
  match sliceOff k st.idxStack with
  | .ok s => .ok { st with idxStack := s }
  | .error e => .error e

/-- The text emitted for `unreachable`. -/
def assertStmt : String := "Debug.Assert(false, \"not reached\");"

/-- The text emitted when one result is declared and no slot is live. -/
def throwStmt : String := "throw new Exception(\"not reached\");"

/-- The text `fmt.Sprintf("return stack%d;", idx)`. -/
def returnStmt (idx : Nat) : String := "return stack" ++ fmtD idx ++ ";"

/-- The distinct case bodies of the switch in `instrsToCSharp`.  Many case
labels have the same body (every store, every binary operator, ...); `caseOf`
sends a label to its body and `step` executes the body. -/
inductive Case
  | assertFalse
  | skip
  | pop (k : Nat)
  | getLocal
  | setLocal
  | teeLocal
  | getGlobal
  | setGlobal
  | currentMemory
  | intConst
  | floatConst
  | passthrough
deriving DecidableEq, Repr

/-- The case labels of `switch instr.Op.Code`, in source order:
`skip` is a case with no statement (a comment only), `pop k` is
`idxStack = idxStack[:len(idxStack)-k]`, `passthrough` is `default`. -/
def caseOf : Opcode → Case
  | .Unreachable => .assertFalse
  | .Nop | .Block | .Loop | .If | .Else | .End => .skip
  | .Drop => .pop 1
  | .Select => .pop 2
  | .GetLocal => .getLocal
  | .SetLocal => .setLocal
  | .TeeLocal => .teeLocal
  | .GetGlobal => .getGlobal
  | .SetGlobal => .setGlobal
  | .I32Load | .I64Load | .F32Load | .F64Load
  | .I32Load8s | .I32Load8u | .I32Load16s | .I32Load16u
  | .I64Load8s | .I64Load8u | .I64Load16s | .I64Load16u | .I64Load32s | .I64Load32u => .skip
  | .I32Store | .I64Store | .F32Store | .F64Store
  | .I32Store8 | .I32Store16 | .I64Store8 | .I64Store16 | .I64Store32 => .pop 2
  | .CurrentMemory => .currentMemory
  | .GrowMemory => .skip
  | .I32Const | .I64Const => .intConst
  | .F32Const | .F64Const => .floatConst
  | .I32Eqz => .skip
  | .I32Eq | .I32Ne | .I32LtS | .I32LtU | .I32GtS | .I32GtU
  | .I32LeS | .I32LeU | .I32GeS | .I32GeU => .pop 1
  | .I64Eqz => .skip
  | .I64Eq | .I64Ne | .I64LtS | .I64LtU | .I64GtS | .I64GtU
  | .I64LeS | .I64LeU | .I64GeS | .I64GeU => .pop 1
  | .F32Eq | .F32Ne | .F32Lt | .F32Gt | .F32Le | .F32Ge => .pop 1
  | .F64Eq | .F64Ne | .F64Lt | .F64Gt | .F64Le | .F64Ge => .pop 1
  | .I32Clz | .I32Ctz | .I32Popcnt => .skip
  | .I32Add | .I32Sub | .I32Mul | .I32DivS | .I32DivU | .I32RemS | .I32RemU
  | .I32And | .I32Or | .I32Xor | .I32Shl | .I32ShrS | .I32ShrU | .I32Rotl | .I32Rotr => .pop 1
  | .I64Clz | .I64Ctz | .I64Popcnt => .skip
  | .I64Add | .I64Sub | .I64Mul | .I64DivS | .I64DivU | .I64RemS | .I64RemU
  | .I64And | .I64Or | .I64Xor | .I64Shl | .I64ShrS | .I64ShrU | .I64Rotl | .I64Rotr => .pop 1
  | .F32Abs | .F32Neg | .F32Ceil | .F32Floor | .F32Trunc | .F32Nearest | .F32Sqrt => .skip
  | .F32Add | .F32Sub | .F32Mul | .F32Div | .F32Min | .F32Max | .F32Copysign => .pop 1
  | .F64Abs | .F64Neg | .F64Ceil | .F64Floor | .F64Trunc | .F64Nearest | .F64Sqrt => .skip
  | .F64Add | .F64Sub | .F64Mul | .F64Div | .F64Min | .F64Max | .F64Copysign => .pop 1
  | _ => .passthrough

/-- One iteration of the loop `for _, instr := range instrs`: the body of the
case selected by `instr.Op.Code`. -/
def step (st : TransState) (instr : Instr) : Except GoPanic TransState :=
  match caseOf instr.Op.Code with
  | .assertFalse => .ok (emit st assertStmt)
  | .skip => .ok st
  | .pop k => popK k st
  | .getLocal =>
    let (idx, st1) := nextIdx st
    match imm0 instr with
    | .ok v => .ok (push (emit st1 ("dynamic stack" ++ fmtD idx ++ " = local" ++ fmtD v ++ ";")) idx)
    | .error e => .error e
  | .setLocal =>
    match topOf st.idxStack, imm0 instr with
    | .ok idx, .ok v => popK 1 (emit st ("local" ++ fmtD v ++ " = stack" ++ fmtD idx ++ ";"))
    | .error e, _ => .error e
    | _, .error e => .error e
  | .teeLocal =>
    match topOf st.idxStack, imm0 instr with
    | .ok idx, .ok v => .ok (emit st ("local" ++ fmtD v ++ " = stack" ++ fmtD idx ++ ";"))
    | .error e, _ => .error e
    | _, .error e => .error e
  | .getGlobal =>
    let (idx, st1) := nextIdx st
    match imm0 instr with
    | .ok v => .ok (push (emit st1 ("dynamic stack" ++ fmtD idx ++ " = global" ++ fmtD v ++ ";")) idx)
    | .error e => .error e
  | .setGlobal =>
    match topOf st.idxStack, imm0 instr with
    | .ok idx, .ok v => popK 1 (emit st ("global" ++ fmtD v ++ " = stack" ++ fmtD idx ++ ";"))
    | .error e, _ => .error e
    | _, .error e => .error e
  | .currentMemory =>
    let (idx, st1) := nextIdx st
    .ok (push st1 idx)
  | .intConst =>
    let (idx, st1) := nextIdx st
    match imm0 instr with
    | .ok v => .ok (push (emit st1 ("dynamic stack" ++ fmtD idx ++ " = " ++ fmtD v ++ ";")) idx)
    | .error e => .error e
  | .floatConst =>
    let (idx, st1) := nextIdx st
    .ok (push (emit st1 ("dynamic stack" ++ fmtD idx ++ " = 0 /* TODO */;")) idx)
  | .passthrough => .ok (emit st ("// " ++ instr.Op.text))

/-- The loop `for _, instr := range instrs` from a given state. -/
def run : TransState → List Instr → Except GoPanic TransState
  | st, [] => .ok st
  | st, instr :: rest =>
    match step st instr with
    | .ok st1 => run st1 rest
    | .error e => .error e

/-- The trailing `switch len(sig.ReturnTypes)` and the final
`return body, nil`; the second component is the error value (`none` is
`nil`). -/
def finish (st : TransState) (sig : FunctionSig) : Except GoPanic (List String × Option String) :=
  match sig.ReturnTypes.length with
  | 0 => .ok (st.body, none)
  | 1 =>
    if st.idxStack.length = 0 then
      .ok (st.body ++ [throwStmt], none)
    else
      match st.idxStack with
      | idx :: _ => .ok (st.body ++ [returnStmt idx], none)
      | [] => .error .indexRange
  | _ => .ok (st.body, none)

/-- The function `instrsToCSharp(instrs, sig)`: `.error` is a Go run-time
panic, `.ok (body, err)` is the returned pair. -/
def instrsToCSharp (instrs : List Instr) (sig : FunctionSig) :
    Except GoPanic (List String × Option String) :=
  match run TransState.init instrs with
  | .ok st => finish st sig
  | .error e => .error e


/-- A statement is a return statement when its text starts with the keyword
`return`. -/
def isReturnStmt (s : String) : Bool := "return".data.isPrefixOf s.data

/-- Number of live slots the body of a case reads or removes. -/
def Case.need : Case → Nat
  | .pop k => k
  | .setLocal | .teeLocal | .setGlobal => 1
  | _ => 0

/-- Whether the body of a case evaluates `instr.Immediates[0]`. -/
def Case.readsImm : Case → Bool
  | .getLocal | .setLocal | .teeLocal | .getGlobal | .setGlobal | .intConst => true
  | _ => false

/-- Depth of the live stack after the body of a case, from depth `d`. -/
def Case.depthAfter (d : Nat) : Case → Nat
  | .pop k => d - k
  | .setLocal | .setGlobal => d - 1
  | .getLocal | .getGlobal | .currentMemory | .intConst | .floatConst => d + 1
  | _ => d

/-- The instruction list never reads or removes more slots than are live,
starting from depth `d`, and every instruction whose case reads an immediate
has one.  Only depths are tracked. -/
def fitsFrom : Nat → List Instr → Bool
  | _, [] => true
  | d, instr :: rest =>
    decide ((caseOf instr.Op.Code).need ≤ d)
      && ((caseOf instr.Op.Code).readsImm → instr.Immediates ≠ [])
      && fitsFrom ((caseOf instr.Op.Code).depthAfter d) rest

/-- Builds an instruction from its opcode, the printed form of its operator
and its immediates. -/
def mkInstr (c : Opcode) (text : String) (imms : List Int) : Instr := ⟨⟨c, text⟩, imms⟩

/-- The function body of the end-to-end scenario:
`get_local 0; get_local 1; i32.add; end`, with the printed forms of the four
operators as parameters. -/
def addBody (t0 t1 t2 t3 : String) : List Instr :=
  [mkInstr .GetLocal t0 [0], mkInstr .GetLocal t1 [1], mkInstr .I32Add t2 [], mkInstr .End t3 []]

/-- The signature `(i32, i32) -> i32`. -/
def sigAdd : FunctionSig := ⟨[.I32, .I32], [.I32]⟩

/-- A body that leaves two live slots: `get_local 0; if; end; get_local 1; end`
(the translator does not remove the condition of `if`). -/
def twoLiveBody : List Instr :=
  [mkInstr .GetLocal "get_local" [0], mkInstr .If "if" [64], mkInstr .End "end" [],
    mkInstr .GetLocal "get_local" [1], mkInstr .End "end" []]

/-! ## Undefined behaviour of the generated C++

Three operations of the bit primitives and of the linear memory have no result
defined by the language on some inputs and are compiled all the same to code
that returns a value there: an operation on a signed integer whose result does
not fit, a shift by the width of the operand or more, and an access through a
pointer that is not aligned for its type.  Each of the three is a parameter of
the model with two readings: the rule of the language (no result, `none`), and
what the compiled code does on the 64-bit platforms the sources are written
for.  A statement about such an operation is made for both readings.

Every other undefined operation of the model (a read outside an array or
outside the byte region, a null pointer, a conversion of a floating-point
number that the integer type cannot hold) has no result: `none`, or
`Res.undefined` in the host emulation. -/

/-- Policy for a signed integer operation whose result does not fit:
`Overflow.undefined` is the C++ rule (no defined result), `Overflow.wraps` is
the two's complement result that compilers produce. -/
inductive Overflow
  | undefined
  | wraps
deriving DecidableEq, Repr

/-- Policy for a shift of a `w`-bit operand by a count outside `0 .. w-1`:
`WideShift.undefined` is the C++ rule (no defined result), `WideShift.masks`
is the shift instruction of x86-64 and AArch64, which reads the count modulo
the width. -/
inductive WideShift
  | undefined
  | masks
deriving DecidableEq, Repr

/-- Policy for an access through `reinterpret_cast<T*>(p)` when `p` is not a
multiple of the size of `T`: `Misaligned.undefined` is the C++ rule (no
defined result), `Misaligned.permitted` is the access of x86-64, which reads
and writes the bytes at `p` whatever its alignment. -/
inductive Misaligned
  | undefined
  | permitted
deriving DecidableEq, Repr

/-- The value with the same low `w` bits in the signed `w`-bit range. -/
def wrapInt (w : Nat) (v : Int) : Int :=
  if v % 2 ^ w < 2 ^ (w - 1) then v % 2 ^ w else v % 2 ^ w - 2 ^ w

/-- The result of a signed `w`-bit operation whose exact result is `v`. -/
def signedResult (pol : Overflow) (w : Nat) (v : Int) : Option Int :=
  if -(2 ^ (w - 1)) ≤ v ∧ v < 2 ^ (w - 1) then some v
  else
    match pol with
    | .undefined => none
    | .wraps => some (wrapInt w v)


/-! ## Bit primitives (gowasm2cpp/bits.go, the text of bits.cpp)

`uint32_t` and `uint64_t` values are natural numbers below `2 ^ 32` and
`2 ^ 64`, `int32_t` and `int64_t` values are integers.  `unsigned long` is
taken to be 64 bits wide, as the literals `1ul<<32` of the source need.
A result `none` is undefined behaviour of the C++ text: an array read past the
end, and, in the reading `undefined` of the policies `WideShift` and
`Overflow`, a shift by the width of the operand or more and a signed negation
that overflows. -/

namespace Bits

/-- The table `pop8tab`: 256 bytes. -/
def pop8tab : List Nat :=
  [0x00, 0x01, 0x01, 0x02, 0x01, 0x02, 0x02, 0x03, 0x01, 0x02, 0x02, 0x03, 0x02, 0x03, 0x03, 0x04,
   0x01, 0x02, 0x02, 0x03, 0x02, 0x03, 0x03, 0x04, 0x02, 0x03, 0x03, 0x04, 0x03, 0x04, 0x04, 0x05,
   0x01, 0x02, 0x02, 0x03, 0x02, 0x03, 0x03, 0x04, 0x02, 0x03, 0x03, 0x04, 0x03, 0x04, 0x04, 0x05,
   0x02, 0x03, 0x03, 0x04, 0x03, 0x04, 0x04, 0x05, 0x03, 0x04, 0x04, 0x05, 0x04, 0x05, 0x05, 0x06,
   0x01, 0x02, 0x02, 0x03, 0x02, 0x03, 0x03, 0x04, 0x02, 0x03, 0x03, 0x04, 0x03, 0x04, 0x04, 0x05,
   0x02, 0x03, 0x03, 0x04, 0x03, 0x04, 0x04, 0x05, 0x03, 0x04, 0x04, 0x05, 0x04, 0x05, 0x05, 0x06,
   0x02, 0x03, 0x03, 0x04, 0x03, 0x04, 0x04, 0x05, 0x03, 0x04, 0x04, 0x05, 0x04, 0x05, 0x05, 0x06,
   0x03, 0x04, 0x04, 0x05, 0x04, 0x05, 0x05, 0x06, 0x04, 0x05, 0x05, 0x06, 0x05, 0x06, 0x06, 0x07,
   0x01, 0x02, 0x02, 0x03, 0x02, 0x03, 0x03, 0x04, 0x02, 0x03, 0x03, 0x04, 0x03, 0x04, 0x04, 0x05,
   0x02, 0x03, 0x03, 0x04, 0x03, 0x04, 0x04, 0x05, 0x03, 0x04, 0x04, 0x05, 0x04, 0x05, 0x05, 0x06,
   0x02, 0x03, 0x03, 0x04, 0x03, 0x04, 0x04, 0x05, 0x03, 0x04, 0x04, 0x05, 0x04, 0x05, 0x05, 0x06,
   0x03, 0x04, 0x04, 0x05, 0x04, 0x05, 0x05, 0x06, 0x04, 0x05, 0x05, 0x06, 0x05, 0x06, 0x06, 0x07,
   0x02, 0x03, 0x03, 0x04, 0x03, 0x04, 0x04, 0x05, 0x03, 0x04, 0x04, 0x05, 0x04, 0x05, 0x05, 0x06,
   0x03, 0x04, 0x04, 0x05, 0x04, 0x05, 0x05, 0x06, 0x04, 0x05, 0x05, 0x06, 0x05, 0x06, 0x06, 0x07,
   0x03, 0x04, 0x04, 0x05, 0x04, 0x05, 0x05, 0x06, 0x04, 0x05, 0x05, 0x06, 0x05, 0x06, 0x06, 0x07,
   0x04, 0x05, 0x05, 0x06, 0x05, 0x06, 0x06, 0x07, 0x05, 0x06, 0x06, 0x07, 0x06, 0x07, 0x07, 0x08]

/-- The table `len8tab`: 256 bytes. -/
def len8tab : List Nat :=
  [0x00, 0x01, 0x02, 0x02, 0x03, 0x03, 0x03, 0x03, 0x04, 0x04, 0x04, 0x04, 0x04, 0x04, 0x04, 0x04,
   0x05, 0x05, 0x05, 0x05, 0x05, 0x05, 0x05, 0x05, 0x05, 0x05, 0x05, 0x05, 0x05, 0x05, 0x05, 0x05,
   0x06, 0x06, 0x06, 0x06, 0x06, 0x06, 0x06, 0x06, 0x06, 0x06, 0x06, 0x06, 0x06, 0x06, 0x06, 0x06,
   0x06, 0x06, 0x06, 0x06, 0x06, 0x06, 0x06, 0x06, 0x06, 0x06, 0x06, 0x06, 0x06, 0x06, 0x06, 0x06,
   0x07, 0x07, 0x07, 0x07, 0x07, 0x07, 0x07, 0x07, 0x07, 0x07, 0x07, 0x07, 0x07, 0x07, 0x07, 0x07,
   0x07, 0x07, 0x07, 0x07, 0x07, 0x07, 0x07, 0x07, 0x07, 0x07, 0x07, 0x07, 0x07, 0x07, 0x07, 0x07,
   0x07, 0x07, 0x07, 0x07, 0x07, 0x07, 0x07, 0x07, 0x07, 0x07, 0x07, 0x07, 0x07, 0x07, 0x07, 0x07,
   0x07, 0x07, 0x07, 0x07, 0x07, 0x07, 0x07, 0x07, 0x07, 0x07, 0x07, 0x07, 0x07, 0x07, 0x07, 0x07,
   0x08, 0x08, 0x08, 0x08, 0x08, 0x08, 0x08, 0x08, 0x08, 0x08, 0x08, 0x08, 0x08, 0x08, 0x08, 0x08,
   0x08, 0x08, 0x08, 0x08, 0x08, 0x08, 0x08, 0x08, 0x08, 0x08, 0x08, 0x08, 0x08, 0x08, 0x08, 0x08,
   0x08, 0x08, 0x08, 0x08, 0x08, 0x08, 0x08, 0x08, 0x08, 0x08, 0x08, 0x08, 0x08, 0x08, 0x08, 0x08,
   0x08, 0x08, 0x08, 0x08, 0x08, 0x08, 0x08, 0x08, 0x08, 0x08, 0x08, 0x08, 0x08, 0x08, 0x08, 0x08,
   0x08, 0x08, 0x08, 0x08, 0x08, 0x08, 0x08, 0x08, 0x08, 0x08, 0x08, 0x08, 0x08, 0x08, 0x08, 0x08,
   0x08, 0x08, 0x08, 0x08, 0x08, 0x08, 0x08, 0x08, 0x08, 0x08, 0x08, 0x08, 0x08, 0x08, 0x08, 0x08,
   0x08, 0x08, 0x08, 0x08, 0x08, 0x08, 0x08, 0x08, 0x08, 0x08, 0x08, 0x08, 0x08, 0x08, 0x08, 0x08,
   0x08, 0x08, 0x08, 0x08, 0x08, 0x08, 0x08, 0x08, 0x08, 0x08, 0x08, 0x08, 0x08, 0x08, 0x08, 0x08]

/-- The table `deBruijn32tab`: 32 bytes. -/
def deBruijn32tab : List Nat :=
  [0, 1, 28, 2, 29, 14, 24, 3, 30, 22, 20, 15, 25, 17, 4, 8,
   31, 27, 13, 23, 21, 19, 16, 7, 26, 12, 18, 6, 11, 5, 10, 9]

/-- The table `deBruijn64tab`: 64 bytes. -/
def deBruijn64tab : List Nat :=
  [0, 1, 56, 2, 57, 49, 28, 3, 61, 58, 42, 50, 38, 29, 17, 4,
   62, 47, 59, 36, 45, 43, 51, 22, 53, 39, 33, 30, 24, 18, 12, 5,
   63, 55, 48, 27, 60, 41, 37, 16, 46, 35, 44, 21, 52, 32, 23, 11,
   54, 26, 40, 15, 34, 20, 31, 10, 25, 14, 19, 9, 13, 8, 7, 6]

/-- The constant `deBruijn32`. -/
def deBruijn32 : Nat := 0x077CB531

/-- The constant `deBruijn64`. -/
def deBruijn64 : Nat := 0x03f79d71b4ca8b09

/-- The array read `tab[i]`. -/
def tabAt (tab : List Nat) (i : Nat) : Option Nat := tab[i]?

/-- Two's complement bit pattern of an `int32_t`. -/
def bits32 (v : Int) : Nat := (v % 2 ^ 32).toNat

/-- The `int32_t` with a given bit pattern: the conversion `(int32_t)x`. -/
def toInt32 (n : Nat) : Int :=
  if n % 2 ^ 32 < 2 ^ 31 then ((n % 2 ^ 32 : Nat) : Int) else ((n % 2 ^ 32 : Nat) : Int) - 2 ^ 32

/-- The operator `&` on two `int32_t` values. -/
def andInt32 (a b : Int) : Int := toInt32 (bits32 a &&& bits32 b)

/-- The conversion `(int64_t)x` of a `uint64_t`. -/
def toInt64 (n : Nat) : Int :=
  if n % 2 ^ 64 < 2 ^ 63 then ((n % 2 ^ 64 : Nat) : Int) else ((n % 2 ^ 64 : Nat) : Int) - 2 ^ 64

/-- The conversion `(uint64_t)v` of an `int64_t`. -/
def toUint64 (v : Int) : Nat := (v % 2 ^ 64).toNat

/-- Unary minus on an `int64_t`, a signed 64-bit operation: the negation of
the least value does not fit. -/
def negInt64 (pol : Overflow) (v : Int) : Option Int := signedResult pol 64 (-v)

/-- The operator `<<` on an unsigned `w`-bit value with an `int32_t` count;
a negative count or a count of `w` or more is left to the policy. -/
def shlU (pol : WideShift) (w x : Nat) (s : Int) : Option Nat :=
  if 0 ≤ s ∧ s < w then some ((x <<< s.toNat) % 2 ^ w)
  else
    match pol with
    | .undefined => none
    | .masks => some ((x <<< (s % w).toNat) % 2 ^ w)

/-- The operator `>>` on an unsigned `w`-bit value with an `int32_t` count;
a negative count or a count of `w` or more is left to the policy. -/
def shrU (pol : WideShift) (w x : Nat) (s : Int) : Option Nat :=
  if 0 ≤ s ∧ s < w then some (x >>> s.toNat)
  else
    match pol with
    | .undefined => none
    | .masks => some (x >>> (s % w).toNat)

/-- The values of `x` and `n` when `Len(uint32_t)` reaches its return
statement. -/
def lenScan32 (x : Nat) : Nat × Int :=
  let n : Int := 0
  let x1 := if x ≥ 1 <<< 16 then x >>> 16 else x
  let n1 : Int := if x ≥ 1 <<< 16 then 16 else n
  let x2 := if x1 ≥ 1 <<< 8 then x1 >>> 8 else x1
  let n2 : Int := if x1 ≥ 1 <<< 8 then n1 + 8 else n1
  (x2, n2)

/-- The function `Bits::Len(uint32_t x)`: `return n + (int32_t)len8tab[x]`. -/
def Len32 (x : Nat) : Option Int :=
  (tabAt len8tab (lenScan32 x).1).map fun l => (lenScan32 x).2 + (l : Int)

/-- The values of `x` and `n` when `Len(uint64_t)` reaches its return
statement. -/
def lenScan64 (x : Nat) : Nat × Int :=
  let n : Int := 0
  let x1 := if x ≥ 1 <<< 32 then x >>> 32 else x
  let n1 : Int := if x ≥ 1 <<< 32 then 32 else n
  let x2 := if x1 ≥ 1 <<< 16 then x1 >>> 16 else x1
  let n2 : Int := if x1 ≥ 1 <<< 16 then n1 + 16 else n1
  let x3 := if x2 ≥ 1 <<< 8 then x2 >>> 8 else x2
  let n3 : Int := if x2 ≥ 1 <<< 8 then n2 + 8 else n2
  (x3, n3)

/-- The function `Bits::Len(uint64_t x)`. -/
def Len64 (x : Nat) : Option Int :=
  (tabAt len8tab (lenScan64 x).1).map fun l => (lenScan64 x).2 + (l : Int)

/-- The function `Bits::LeadingZeros(uint32_t x)`: `return 32 - Len(x)`. -/
def LeadingZeros32 (x : Nat) : Option Int := (Len32 x).map fun l => 32 - l

/-- The function `Bits::LeadingZeros(uint64_t x)`: `return 64 - Len(x)`. -/
def LeadingZeros64 (x : Nat) : Option Int := (Len64 x).map fun l => 64 - l

/-- The index `(x&-x)*deBruijn32>>(32-5)` of `TailingZeros(uint32_t)`; the
negation and the product are unsigned, modulo `2 ^ 32`. -/
def tzIndex32 (x : Nat) : Nat :=
  (((x &&& ((2 ^ 32 - x) % 2 ^ 32)) * deBruijn32) % 2 ^ 32) >>> (32 - 5)

/-- The function `Bits::TailingZeros(uint32_t x)`. -/
def TailingZeros32 (x : Nat) : Option Int :=
  if x = 0 then some 32
  else (tabAt deBruijn32tab (tzIndex32 x)).map fun t => (t : Int)

/-- The index `(x&(uint64_t)(-(int64_t)x))*deBruijn64>>(64-6)` of
`TailingZeros(uint64_t)`: the negation is a signed one, the product is
unsigned, modulo `2 ^ 64`. -/
def tzIndex64 (pol : Overflow) (x : Nat) : Option Nat :=
  (negInt64 pol (toInt64 x)).map fun m =>
    (((x &&& toUint64 m) * deBruijn64) % 2 ^ 64) >>> (64 - 6)

/-- The function `Bits::TailingZeros(uint64_t x)`. -/
def TailingZeros64 (pol : Overflow) (x : Nat) : Option Int :=
  if x = 0 then some 64
  else (tzIndex64 pol x).bind fun i => (tabAt deBruijn64tab i).map fun t => (t : Int)

/-- The function `Bits::OnesCount(uint32_t x)`: the four table entries are
added as `int`. -/
def OnesCount32 (x : Nat) : Option Int :=
  (tabAt pop8tab (x >>> 24)).bind fun a =>
  (tabAt pop8tab ((x >>> 16) &&& 0xff)).bind fun b =>
  (tabAt pop8tab ((x >>> 8) &&& 0xff)).bind fun c =>
  (tabAt pop8tab (x &&& 0xff)).map fun d => ((a : Int) + b + c + d)

/-- The function `Bits::OnesCount(uint64_t x)`; every sum is a `uint64_t`
sum, modulo `2 ^ 64`. -/
def OnesCount64 (x : Nat) : Int :=
  let m0 := 0x5555555555555555
  let m1 := 0x3333333333333333
  let m2 := 0x0f0f0f0f0f0f0f0f
  let m := 0xffffffffffffffff
  let x1 := (((x >>> 1) &&& (m0 &&& m)) + (x &&& (m0 &&& m))) % 2 ^ 64
  let x2 := (((x1 >>> 2) &&& (m1 &&& m)) + (x1 &&& (m1 &&& m))) % 2 ^ 64
  let x3 := (((x2 >>> 4) + x2) % 2 ^ 64) &&& (m2 &&& m)
  let x4 := (x3 + (x3 >>> 8)) % 2 ^ 64
  let x5 := (x4 + (x4 >>> 16)) % 2 ^ 64
  let x6 := (x5 + (x5 >>> 32)) % 2 ^ 64
  andInt32 (toInt32 x6) ((1 <<< 7 : Nat) - 1 : Nat)

/-- The function `Bits::RotateLeft(uint32_t x, int32_t k)`. -/
def RotateLeft32 (pol : WideShift) (x : Nat) (k : Int) : Option Nat :=
  let n : Int := 32
  let s : Int := andInt32 k (n - 1)
  (shlU pol 32 x s).bind fun a => (shrU pol 32 x (n - s)).map fun b => a ||| b

/-- The function `Bits::RotateLeft(uint64_t x, int32_t k)`. -/
def RotateLeft64 (pol : WideShift) (x : Nat) (k : Int) : Option Nat :=
  let n : Int := 64
  let s : Int := andInt32 k (n - 1)
  (shlU pol 64 x s).bind fun a => (shrU pol 64 x (n - s)).map fun b => a ||| b

end Bits

/-! ## Reference definitions used in the statements -/

/-- Bit `i` of `x`, as 0 or 1. -/
def bitAt (x i : Nat) : Nat := (x / 2 ^ i) % 2

/-- Reference population count: the sum over `i` in `0 .. w-1` of bit `i` of
`x`, bit by bit. -/
def refOnesCount (w x : Nat) : Nat := ((List.range w).map (bitAt x)).sum

/-! ## Auxiliary definitions for the proof of the 64-bit population count -/

/-- The byte `c` repeated `n` times: `repByte 0x55 8 = 0x5555555555555555`. -/
def repByte (c : Nat) : Nat → Nat
  | 0 => 0
  | n + 1 => 256 * repByte c n + c

/-- First reduction of `OnesCount(uint64_t)` with mask `M`, without the
reduction modulo `2 ^ 64`. -/
def pairSum (M x : Nat) : Nat := ((x >>> 1) &&& M) + (x &&& M)

/-- Second reduction of `OnesCount(uint64_t)` with mask `M`. -/
def nibSum (M x : Nat) : Nat := ((x >>> 2) &&& M) + (x &&& M)

/-- Third reduction of `OnesCount(uint64_t)` with mask `M`. -/
def byteSum (M x : Nat) : Nat := ((x >>> 4) + x) &&& M

/-- The number whose `i`-th byte, for `i < n`, is the bit count of the `i`-th
byte of `x`. -/
def byteCounts : Nat → Nat → Nat
  | 0, _ => 0
  | n + 1, x => 256 * byteCounts n (x / 256) + refOnesCount 8 (x % 256)

/-- The number with the eight bytes `d0` (lowest) to `d7`, for bytes below
256. -/
def poly8 (d0 d1 d2 d3 d4 d5 d6 d7 : Nat) : Nat :=
  d0 + 256 * d1 + 65536 * d2 + 16777216 * d3 + 4294967296 * d4 + 1099511627776 * d5
    + 281474976710656 * d6 + 72057594037927936 * d7

/-! ## Linear memory (gowasm2cpp/mem.go: writeMem and the text of mem.h, mem.cpp)

`size_t` values are natural numbers below `2 ^ 64`, `int` and `int32_t` values
are integers.  The byte region `bytes_` is a function from addresses to bytes.
`std::calloc` returns a pointer aligned for every integer type, so
`bytes_ + addr` is aligned for an `n`-byte integer exactly when `addr` is a
multiple of `n`.  What a signed `int` operation does when its result does not
fit is the parameter `Overflow`; what an access through a misaligned pointer
does is the parameter `Misaligned`. -/

/-- The conversion `static_cast<size_t>(v)` of a signed integer. -/
def toSizeT (v : Int) : Nat := (v % 2 ^ 64).toNat

/-- The constant `Mem::kPageSize`, an `int32_t`: `pageSize = 64 * 1024` in
`writeMem`. -/
def kPageSize : Int := 64 * 1024

/-- The constant `kMaxMemorySize`, a `size_t`. -/
def kMaxMemorySize : Nat := 2 * 1024 * 1024 * 1024

/-- The fields of the class `Mem`: the byte region and the size in bytes. -/
structure Mem where
  bytes_ : Nat → Nat
  size_ : Nat

/-- The Go struct `wasmData`: a data segment of the module. -/
structure wasmData where
  Offset : Int
  Data : List Nat

/-- The C++ struct `WasmData`, an entry of `initial_data_info_`. -/
structure WasmData where
  offset : Int
  length : Int

/-- The loop of `writeMem` that builds `flatten`:
`for _, d := range data { flatten = append(flatten, d.Data...) }`. -/
def flattenData (data : List wasmData) : List Nat :=
  data.foldl (fun flatten d => flatten ++ d.Data) []

/-- The array `initial_data_info_` the template prints:
one `{ Offset, len Data }` per segment. -/
def initialDataInfo (data : List wasmData) : List WasmData :=
  data.map fun d => ⟨d.Offset, (d.Data.length : Int)⟩

/-- The call `std::memcpy(bytes_ + dst, initial_data_ + src, len)`: undefined
when the count is negative or a range leaves its array. -/
def memcpyInit (bytes : Nat → Nat) (initialData : List Nat) (dst src len : Int) :
    Option (Nat → Nat) :=
  if 0 ≤ len ∧ 0 ≤ dst ∧ dst + len ≤ kMaxMemorySize ∧ 0 ≤ src ∧ src + len ≤ initialData.length then
    some fun a =>
      if dst ≤ (a : Int) ∧ (a : Int) < dst + len then initialData.getD (a - dst.toNat + src.toNat) 0
      else bytes a
  else none

/-- The loop of the constructor over `initial_data_info_`, with the current
byte region and `src_offset`. -/
def copyLoop (pol : Overflow) (initialData : List Nat) :
    List WasmData → (Nat → Nat) → Int → Option ((Nat → Nat) × Int)
  | [], bytes, srcOffset => some (bytes, srcOffset)
  | info :: rest, bytes, srcOffset =>
    match memcpyInit bytes initialData info.offset srcOffset info.length with
    | none => none
    | some bytes1 =>
      match signedResult pol 32 (srcOffset + info.length) with
      | none => none
      | some srcOffset1 => copyLoop pol initialData rest bytes1 srcOffset1

/-- The constructor `Mem::Mem()` of the text generated for `InitPageNum` and
`data`: `size_(InitPageNum * kPageSize)`, a zeroed region of `kMaxMemorySize`
bytes, then the copy loop.  The literal `InitPageNum` is an `int` when it is
below `2 ^ 31` and a 64-bit `long` otherwise. -/
def Mem.new (pol : Overflow) (InitPageNum : Int) (data : List wasmData) : Option Mem :=
  match signedResult pol (if InitPageNum < 2 ^ 31 then 32 else 64) (InitPageNum * kPageSize) with
  | none => none
  | some sz =>
    match copyLoop pol (flattenData data) (initialDataInfo data) (fun _ => 0) 0 with
    | none => none
    | some (bytes, _) => some ⟨bytes, toSizeT sz⟩

/-- The function `Mem::GetSize()`: `return size_ / kPageSize`, an unsigned
division converted to `int32_t`. -/
def Mem.GetSize (m : Mem) : Int := Bits.toInt32 (m.size_ / toSizeT kPageSize)

/-- The function `Mem::Grow(int32_t delta)`: the sum and the product are `int`
operations; the product is converted to `size_t` before `std::min`.  The
result is the returned value and the memory afterwards. -/
def Mem.Grow (pol : Overflow) (m : Mem) (delta : Int) : Option (Int × Mem) :=
  let prev_page_num := m.GetSize
  match signedResult pol 32 (prev_page_num + delta) with
  | none => none
  | some sum =>
    match signedResult pol 32 (sum * kPageSize) with
    | none => none
    | some prod => some (prev_page_num, { m with size_ := min (toSizeT prod) kMaxMemorySize })

/-- The object representation of the low `8 * n` bits of `v`: `n` bytes, in
the byte order of the platform (`true`: least significant byte first). -/
def encodeBytes (littleEndian : Bool) (n : Nat) (v : Nat) : List Nat :=
  let le := (List.range n).map fun i => (v / 256 ^ i) % 256
  if littleEndian then le else le.reverse

/-- The unsigned value whose object representation is the given bytes. -/
def decodeBytes (littleEndian : Bool) (bs : List Nat) : Nat :=
  (if littleEndian then bs else bs.reverse).foldr (fun b acc => b % 256 + 256 * acc) 0

/-- The signed `8 * n`-bit value with the bit pattern `u`. -/
def toSigned (n : Nat) (u : Nat) : Int := wrapInt (8 * n) (u : Int)

/-- The bit pattern of a signed `8 * n`-bit value. -/
def toUnsigned (n : Nat) (v : Int) : Nat := (v % 2 ^ (8 * n)).toNat

/-- The `n` bytes at `bytes_ + addr` read as one unsigned value: undefined
outside the region. -/
def Mem.readBytes (littleEndian : Bool) (n : Nat) (m : Mem) (addr : Int) : Option Nat :=
  if 0 ≤ addr ∧ addr + n ≤ kMaxMemorySize then
    some (decodeBytes littleEndian ((List.range n).map fun i => m.bytes_ (addr.toNat + i)))
  else none

/-- The `n` bytes at `bytes_ + addr` overwritten with the object
representation of `u`: undefined outside the region. -/
def Mem.writeBytes (littleEndian : Bool) (n : Nat) (m : Mem) (addr : Int) (u : Nat) :
    Option Mem :=
  if 0 ≤ addr ∧ addr + n ≤ kMaxMemorySize then
    some { m with bytes_ := fun a =>
      if addr.toNat ≤ a ∧ a < addr.toNat + n then (encodeBytes littleEndian n u).getD (a - addr.toNat) 0
      else m.bytes_ a }
  else none

/-- The read `*(reinterpret_cast<const T*>(bytes_ + addr))` of an `n`-byte
integer type `T`: an access through a pointer to `T`, which has to be a
multiple of `n`. -/
def Mem.loadBits (al : Misaligned) (littleEndian : Bool) (n : Nat) (m : Mem) (addr : Int) :
    Option Nat :=
  if addr % n = 0 then m.readBytes littleEndian n addr
  else
    match al with
    | .undefined => none
    | .permitted => m.readBytes littleEndian n addr

/-- The write `*(reinterpret_cast<T*>(bytes_ + addr)) = val` of an `n`-byte
integer type `T`: an access through a pointer to `T`, which has to be a
multiple of `n`. -/
def Mem.storeBits (al : Misaligned) (littleEndian : Bool) (n : Nat) (m : Mem) (addr : Int)
    (u : Nat) : Option Mem :=
  if addr % n = 0 then m.writeBytes littleEndian n addr u
  else
    match al with
    | .undefined => none
    | .permitted => m.writeBytes littleEndian n addr u

/-- The function `Mem::LoadInt8`: `static_cast<int8_t>(*(bytes_ + addr))`, a
read of one byte. -/
def Mem.LoadInt8 (le : Bool) (m : Mem) (addr : Int) : Option Int :=
  (m.readBytes le 1 addr).map (toSigned 1)

/-- The function `Mem::LoadUint8`: `*(bytes_ + addr)`, a read of one byte. -/
def Mem.LoadUint8 (le : Bool) (m : Mem) (addr : Int) : Option Nat := m.readBytes le 1 addr

/-- The function `Mem::LoadInt16`. -/
def Mem.LoadInt16 (al : Misaligned) (le : Bool) (m : Mem) (addr : Int) : Option Int :=
  (m.loadBits al le 2 addr).map (toSigned 2)

/-- The function `Mem::LoadUint16`. -/
def Mem.LoadUint16 (al : Misaligned) (le : Bool) (m : Mem) (addr : Int) : Option Nat :=
  m.loadBits al le 2 addr

/-- The function `Mem::LoadInt32`. -/
def Mem.LoadInt32 (al : Misaligned) (le : Bool) (m : Mem) (addr : Int) : Option Int :=
  (m.loadBits al le 4 addr).map (toSigned 4)

/-- The function `Mem::LoadUint32`. -/
def Mem.LoadUint32 (al : Misaligned) (le : Bool) (m : Mem) (addr : Int) : Option Nat :=
  m.loadBits al le 4 addr

/-- The function `Mem::LoadInt64`. -/
def Mem.LoadInt64 (al : Misaligned) (le : Bool) (m : Mem) (addr : Int) : Option Int :=
  (m.loadBits al le 8 addr).map (toSigned 8)

/-- The function `Mem::StoreInt8`: `*(bytes_ + addr) = static_cast<uint8_t>(val)`,
a write of one byte. -/
def Mem.StoreInt8 (le : Bool) (m : Mem) (addr : Int) (val : Int) : Option Mem :=
  m.writeBytes le 1 addr (toUnsigned 1 val)

/-- The function `Mem::StoreInt16`. -/
def Mem.StoreInt16 (al : Misaligned) (le : Bool) (m : Mem) (addr : Int) (val : Int) :
    Option Mem :=
  m.storeBits al le 2 addr (toUnsigned 2 val)

/-- The function `Mem::StoreInt32`. -/
def Mem.StoreInt32 (al : Misaligned) (le : Bool) (m : Mem) (addr : Int) (val : Int) :
    Option Mem :=
  m.storeBits al le 4 addr (toUnsigned 4 val)

/-- The function `Mem::StoreInt64`. -/
def Mem.StoreInt64 (al : Misaligned) (le : Bool) (m : Mem) (addr : Int) (val : Int) :
    Option Mem :=
  m.storeBits al le 8 addr (toUnsigned 8 val)

/-- A memory of `p` zeroed pages. -/
def Mem.ofPages (p : Nat) : Mem := ⟨fun _ => 0, p * 65536⟩

/-- Two data segments occupy disjoint address ranges. -/
def segmentsDisjoint (d e : wasmData) : Prop :=
  d.Offset + d.Data.length ≤ e.Offset ∨ e.Offset + e.Data.length ≤ d.Offset

/-- The address `a` lies in the range of the segment `d`. -/
def covers (d : wasmData) (a : Nat) : Prop :=
  d.Offset ≤ (a : Int) ∧ (a : Int) < d.Offset + d.Data.length

/-! ## JavaScript host emulation (gowasm2cpp/js.go: the text of js.h, js.cpp)

Objects live in a heap and a `shared_ptr<Object>` is an index into it (`none`
is the null pointer).  The operations run in `Host`: they read and change a
`World` (heap, trace of host faults and of calls of foreign functions, the two
output streams, the buffers of the two writers of `FS`) and end with a value,
with the exit of the process, with an unbounded recursion, or with undefined
behaviour.  A `double` is its IEEE 754 bit pattern. -/

namespace JS

/-- A `double`, as its 64-bit IEEE 754 pattern. -/
structure Double where
  bits : Nat
deriving DecidableEq, Repr

/-- The conversion `static_cast<double>(b)` of a `bool`: 1.0 or 0.0. -/
def Double.ofBool (b : Bool) : Double := if b then ⟨0x3FF0000000000000⟩ else ⟨0⟩

/-- The conversion `static_cast<bool>(d)`: false for +0.0 and -0.0 only. -/
def Double.toBool (d : Double) : Bool := d.bits % 2 ^ 63 != 0

/-- The conversion `static_cast<double>(n)` of a `size_t`, rounding to the
nearest double, ties to even. -/
def Double.ofNat (n : Nat) : Double :=
  if n = 0 then ⟨0⟩
  else
    let e := Nat.log2 n
    let q :=
      if e ≤ 52 then n * 2 ^ (52 - e)
      else
        let q0 := n / 2 ^ (e - 52)
        let r := n % 2 ^ (e - 52)
        let half := 2 ^ (e - 53)
        if r > half ∨ (r = half ∧ q0 % 2 = 1) then q0 + 1 else q0
    ⟨(e + 1022) * 2 ^ 52 + q⟩

/-- The conversion `(int)d`: truncation toward zero, undefined (`none`) for a
NaN, an infinity or a value outside the range of `int`. -/
def Double.toInt (d : Double) : Option Int :=
  let s := d.bits / 2 ^ 63 % 2
  let e := d.bits / 2 ^ 52 % 2048
  let f := d.bits % 2 ^ 52
  if e = 2047 then none
  else
    let mag : Nat :=
      if e < 1023 then 0
      else if e ≥ 1075 then (2 ^ 52 + f) * 2 ^ (e - 1075)
      else (2 ^ 52 + f) / 2 ^ (1075 - e)
    let v : Int := if s = 1 then -(mag : Int) else (mag : Int)
    if -(2 ^ 31) ≤ v ∧ v < 2 ^ 31 then some v else none

/-- The enumeration `Value::Type`. -/
inductive TypeTag
  | Undefined | Null | Bool | Number | String | Object
deriving DecidableEq, Repr

/-- The fields of the class `Value`, with their default member initializers. -/
structure Value where
  type_ : TypeTag := .Undefined
  num_value_ : Double := ⟨0⟩
  str_value_ : String := ""
  object_value_ : Option Nat := none
  array_value_ : Option Nat := none
deriving DecidableEq, Repr

/-- A function wrapped by a `Function` or a `Constructor`: a callback the
embedder supplies, known by an identifier only. -/
inductive Func
  | foreign (id : Nat)
deriving DecidableEq, Repr

/-- The classes derived from `Object`, with their fields.  `TypedArray` stands
for `TypedArray`, `Uint8Array`, `Uint16Array` and `Float32Array`, which differ
in their name only once constructed. -/
inductive Object
  | ArrayBuffer (data_ : List Nat)
  | DictionaryValues (dict_ : List (String × Value))
  | Function (fn_ : Func)
  | Constructor (name_ : String) (fn_ : Func)
  | TypedArray (className : String) (array_buffer_ : Option Nat) (offset_ length_ : Nat)
  | Enosys (name_ : String)
deriving DecidableEq, Repr

/-- Modelled from the spec: the class `BytesSpan` of bytes.h, which is not among
the sources.  A byte view is a non-owning window (pointer and size) over the
bytes of an array buffer: `target` is the buffer the pointer points into
(`none` for the null span `BytesSpan{}`), `start` the index of its first byte. -/
structure BytesSpan where
  target : Option Nat := none
  start : Nat := 0
  size : Nat := 0
deriving DecidableEq, Repr

/-- The method `BytesSpan::IsNull`. -/
def BytesSpan.IsNull (s : BytesSpan) : Bool := s.target.isNone

/-- What the trace records: a call of `panic(msg)`, and a call
`fn_(self, args)` of a wrapped foreign function. -/
inductive Event
  | panic (msg : String)
  | call (fn : Func) (self : Value) (args : List Value)
deriving DecidableEq, Repr

/-- The state the operations act on. -/
structure World where
  heap : List Object
  arrays : List (List Value)
  global : Nat
  trace : List Event
  cout : List Nat
  cerr : List Nat
  stdoutBuf : List Nat
  stderrBuf : List Nat
deriving DecidableEq, Repr

/-- What is not in the sources: `Value::Inspect` as a function of the value
(it formats numbers with `std::to_string`), and the values that the foreign
functions return. -/
structure Env where
  inspect : Value → String
  result : Func → List Value → Value

/-- How an operation ends. -/
inductive Res (α : Type)
  | ok (a : α)
  | exited
  | diverged
  | undefined
deriving DecidableEq, Repr

/-- An operation of the host emulation. -/
def Host (α : Type) : Type := World → Res α × World

/-- An operation that only returns a value. -/
def Host.pure {α : Type} (a : α) : Host α := fun w => (.ok a, w)

/-- Sequencing: the second operation runs when the first ends with a value. -/
def Host.bind {α β : Type} (x : Host α) (f : α → Host β) : Host β := fun w =>
  match x w with
  | (.ok a, w1) => f a w1
  | (.exited, w1) => (.exited, w1)
  | (.diverged, w1) => (.diverged, w1)
  | (.undefined, w1) => (.undefined, w1)

instance : Monad Host where
  pure := Host.pure
  bind := Host.bind

/-- An operation that ends in the given way without a value. -/
def Host.stop {α : Type} (r : Res α) : Host α := fun w => (r, w)

/-- Appends an event to the trace. -/
def record (e : Event) : Host Unit := fun w => (.ok (), { w with trace := w.trace ++ [e] })

/-- The element `args[i]` of a `std::vector`: undefined past the end. -/
def index (args : List Value) (i : Nat) : Host Value :=
  match args[i]? with
  | some v => Host.pure v
  | none => Host.stop .undefined

/-- The conversion `(int)d` inside an operation. -/
def castInt (d : Double) : Host Int :=
  match d.toInt with
  | some v => Host.pure v
  | none => Host.stop .undefined

/-- The expression `std::make_shared<T>(...)`: a new object at a fresh
address. -/
def alloc (o : Object) : Host Nat := fun w => (.ok w.heap.length, { w with heap := w.heap ++ [o] })

/-- The constructor `Value()`. -/
def Value.undefined : Value := {}

/-- The function `Value::Null()`. -/
def Value.Null : Value := { type_ := .Null }

/-- The constructor `Value(bool b)`. -/
def Value.ofBool (b : Bool) : Value := { type_ := .Bool, num_value_ := Double.ofBool b }

/-- The constructor `Value(double num)`. -/
def Value.ofNumber (num : Double) : Value := { type_ := .Number, num_value_ := num }

/-- The constructors `Value(const std::string& str)` and
`Value(const char* str)`. -/
def Value.ofString (str : String) : Value := { type_ := .String, str_value_ := str }

/-- The constructor `Value(std::shared_ptr<Object> object)`. -/
def Value.ofObject (object : Option Nat) : Value := { type_ := .Object, object_value_ := object }

/-- The constructor `Value(const std::vector<Value>& array)`, given the address
of the copy that `std::make_shared` makes. -/
def Value.ofArray (array : Nat) : Value := { type_ := .Object, array_value_ := some array }

/-- The method `Value::IsNull`. -/
def Value.IsNull (v : Value) : Bool := v.type_ = .Null

/-- The method `Value::IsUndefined`. -/
def Value.IsUndefined (v : Value) : Bool := v.type_ = .Undefined

/-- The method `Value::IsBool`. -/
def Value.IsBool (v : Value) : Bool := v.type_ = .Bool

/-- The method `Value::IsNumber`. -/
def Value.IsNumber (v : Value) : Bool := v.type_ = .Number

/-- The method `Value::IsString`. -/
def Value.IsString (v : Value) : Bool := v.type_ = .String

/-- The method `Value::IsObject`. -/
def Value.IsObject (v : Value) : Bool := v.type_ = .Object && v.object_value_.isSome

/-- The method `Value::IsArray`. -/
def Value.IsArray (v : Value) : Bool := v.type_ = .Object && v.array_value_.isSome

/-- The method `DictionaryValues::Get`: the value of the key in the map, or
`Value{}`. -/
def dictGet (dict : List (String × Value)) (key : String) : Value :=
  match dict.find? (fun kv => kv.1 == key) with
  | some kv => kv.2
  | none => Value.undefined

/-- The virtual method `ToString` of an object. -/
def Object.ToString : Object → String
  | .ArrayBuffer _ => "ArrayBuffer"
  | .DictionaryValues _ => "DictionaryValues"
  | .Function _ => "(function)"
  | .Constructor name _ => name
  | .TypedArray className _ _ _ => className
  | .Enosys name => "ENOSYS: " ++ name

/-- The virtual method `IsConstructor` of an object. -/
def Object.IsConstructor : Object → Bool
  | .Constructor _ _ => true
  | _ => false

/-- The virtual method `Inspect` of an object: `DictionaryValues::Inspect` for
a dictionary, `ToString()` otherwise. -/
def Object.Inspect (env : Env) : Object → String
  | .DictionaryValues dict =>
    let str := dict.foldl (fun str kv => str ++ (kv.1 ++ ":" ++ env.inspect kv.2 ++ " ")) "\x7b"
    (if dict.length ≠ 0 then str.dropRight 1 else str) ++ "\x7d"
  | o => o.ToString

/-- The function `JoinObjects`. -/
def JoinObjects (env : Env) (objs : List Value) : String :=
  ", ".intercalate (objs.map env.inspect)

/-- The function `panic(msg)`.  The handler is
`Value::Global().ToObject().Get("_panic")`, the global object being a
dictionary.  Without a handler the message goes to `std::cerr` and the process
exits.  A handler that is a `Function` is invoked with `Value{}` and
`Value{msg}` and `panic` returns.  For any other handler `ToObject()` or
`Object::Invoke` calls `panic` again, with the same global object, and the
recursion has no end. -/
def panic (msg : String) : Host Unit := fun w =>
  let w1 := { w with trace := w.trace ++ [Event.panic msg] }
  match w.heap[w.global]? with
  | some (.DictionaryValues dict) =>
    let handler := dictGet dict "_panic"
    if handler.IsUndefined then
      (.exited, { w1 with cerr := w1.cerr ++ msg.toUTF8.toList.map (·.toNat) ++ [10] })
    else
      match handler.type_, handler.object_value_ with
      | .Object, some h =>
        match w.heap[h]? with
        | some (.Function fn) =>
          (.ok (), { w1 with trace := w1.trace ++ [Event.call fn Value.undefined [Value.ofString msg]] })
        | some _ => (.diverged, w1)
        | none => (.undefined, w1)
      | _, _ => (.diverged, w1)
  | _ => (.undefined, w1)

/-- The method `Value::ToBool`. -/
def Value.ToBool (env : Env) (v : Value) : Host Bool := do
  if v.type_ ≠ .Bool then
    panic ("Value::ToBool: the type must be Type::Bool but not: " ++ env.inspect v)
  return v.num_value_.toBool

/-- The method `Value::ToNumber`. -/
def Value.ToNumber (env : Env) (v : Value) : Host Double := do
  if v.type_ ≠ .Number then
    panic ("Value::ToNumber: the type must be Type::Number but not: " ++ env.inspect v)
  return v.num_value_

/-- The method `Value::ToString`. -/
def Value.ToString (env : Env) (v : Value) : Host String := do
  if v.type_ ≠ .String then
    panic ("Value::ToString: the type must be Type::String but not: " ++ env.inspect v)
  return v.str_value_

/-- The method `Value::ToObject`: the address of `*object_value_`; the
dereference of a null pointer is undefined. -/
def Value.ToObject (env : Env) (v : Value) : Host Nat := do
  if v.type_ ≠ .Object then
    panic ("Value::ToObject: the type must be Type::Object but not: " ++ env.inspect v)
  if v.object_value_.isNone then
    panic "Value::ToObject: object_value_ must not be null"
  match v.object_value_ with
  | some o => return o
  | none => Host.stop .undefined

/-- The virtual method `ToBytes` of the object at an address:
`ArrayBuffer::ToBytes`, `TypedArray::ToBytes` (which asks its buffer), and
`Object::ToBytes` for the other classes.  `fuel` bounds the chain of typed
arrays that is followed. -/
def objectToBytes (w : World) : Nat → Nat → Res BytesSpan
  | 0, _ => .diverged
  | fuel + 1, o =>
    match w.heap[o]? with
    | none => .undefined
    | some (.ArrayBuffer data) => .ok { target := some o, start := 0, size := data.length }
    | some (.TypedArray _ none _ _) => .undefined
    | some (.TypedArray _ (some ab) offset length) =>
      match objectToBytes w fuel ab with
      | .ok bs => .ok { target := bs.target, start := bs.start + offset, size := length }
      | r => r
    | some _ => .ok {}

/-- The call `object->ToBytes()` inside an operation. -/
def Object.ToBytes (o : Nat) : Host BytesSpan := fun w => (objectToBytes w (w.heap.length + 1) o, w)

/-- The method `Value::ToBytes`. -/
def Value.ToBytes (env : Env) (v : Value) : Host BytesSpan := do
  if v.type_ ≠ .Object then
    panic ("Value::ToBytes: the type must be Type::Object but not: " ++ env.inspect v)
  let bytes ← match v.object_value_ with
    | some o => Object.ToBytes o
    | none => Host.stop .undefined
  if bytes.IsNull then
    panic "Value::ToBytes: object_value_->ToBytes() must not be null"
  return bytes

/-- The bytes a view shows: undefined when the view is null or leaves its
buffer. -/
def spanBytes (w : World) (s : BytesSpan) : Option (List Nat) :=
  match s.target with
  | none => none
  | some o =>
    match w.heap[o]? with
    | some (.ArrayBuffer data) =>
      if s.start + s.size ≤ data.length then some ((data.drop s.start).take s.size) else none
    | _ => none

/-- The virtual method `Get` of the object at an address. -/
def Object.Get (env : Env) (o : Nat) (key : String) : Host Value := fun w =>
  match w.heap[o]? with
  | none => (.undefined, w)
  | some (.ArrayBuffer data) =>
    (.ok (if key = "byteLength" then Value.ofNumber (Double.ofNat data.length) else Value.undefined), w)
  | some (.DictionaryValues dict) => (.ok (dictGet dict key), w)
  | some (.TypedArray _ ab offset length) =>
    (.ok (if key = "byteLength" then Value.ofNumber (Double.ofNat length)
      else if key = "byteOffset" then Value.ofNumber (Double.ofNat offset)
      else if key = "buffer" then Value.ofObject ab
      else Value.undefined), w)
  | some (.Enosys name) =>
    (.ok (if key = "message" then Value.ofString (name ++ " not implemented")
      else if key = "code" then Value.ofString "ENOSYS"
      else Value.undefined), w)
  | some obj =>
    (panic ("Object::Get is not implemented: this: " ++ obj.Inspect env ++ ", key: " ++ key)
      >>= fun _ => Host.pure Value.undefined) w

/-- The virtual method `Invoke` of the object at an address:
`Function::Invoke` calls the wrapped function with `Value{}` and the
arguments; `Object::Invoke` is a host fault. -/
def Object.Invoke (env : Env) (o : Nat) (self : Value) (args : List Value) : Host Value := fun w =>
  match w.heap[o]? with
  | none => (.undefined, w)
  | some (.Function fn) =>
    (.ok (env.result fn args), { w with trace := w.trace ++ [Event.call fn Value.undefined args] })
  | some obj =>
    (panic ("Object::Invoke is not implemented: this: " ++ obj.Inspect env ++ ", self: "
        ++ env.inspect self)
      >>= fun _ => Host.pure Value.undefined) w

/-- The function `Value::ReflectApply`. -/
def Value.ReflectApply (env : Env) (target self : Value) (args : List Value) : Host Value := do
  if target.IsUndefined then
    panic "apply on undefined is forbidden"
    return Value.undefined
  if target.IsNull then
    panic "apply on null is forbidden"
    return Value.undefined
  if target.IsObject then
    let t ← target.ToObject env
    let obj ← fun w => match w.heap[t]? with
      | some obj => (Res.ok obj, w)
      | none => (Res.undefined, w)
    if obj.IsConstructor then
      panic (obj.ToString ++ " is a constructor")
      return Value.undefined
    return ← Object.Invoke env t self args
  panic (env.inspect target ++ "(" ++ JoinObjects env args ++ ") cannot be called")
  return Value.undefined

/-- The loop of `Writer::Write` on the stream and the buffer: while the buffer
holds a newline, the bytes before the first one go to the stream, followed by
the newline of `std::endl`, and are erased with it.  `none` when the fuel runs
out. -/
def writerLoop : Nat → List Nat → List Nat → Option (List Nat × List Nat)
  | 0, _, _ => none
  | fuel + 1, out, buf =>
    match buf.span (fun c => c != 10) with
    | (_, []) => some (out, buf)
    | (str, _ :: rest) => writerLoop fuel (out ++ str ++ [10]) rest

/-- The method `Writer::Write` on the stream and the buffer of the writer. -/
def Writer.Write (out buf bytes : List Nat) : Option (List Nat × List Nat) :=
  writerLoop ((buf ++ bytes).length + 1) out (buf ++ bytes)

/-- The call `stdout_.Write(buf)` of `FS`. -/
def FS.writeStdout (buf : BytesSpan) : Host Unit := fun w =>
  match spanBytes w buf with
  | none => (.undefined, w)
  | some bytes =>
    match Writer.Write w.cout w.stdoutBuf bytes with
    | none => (.diverged, w)
    | some (out, b) => (.ok (), { w with cout := out, stdoutBuf := b })

/-- The call `stderr_.Write(buf)` of `FS`. -/
def FS.writeStderr (buf : BytesSpan) : Host Unit := fun w =>
  match spanBytes w buf with
  | none => (.undefined, w)
  | some bytes =>
    match Writer.Write w.cerr w.stderrBuf bytes with
    | none => (.diverged, w)
    | some (out, b) => (.ok (), { w with cerr := out, stderrBuf := b })

/-- The statement
`Value::ReflectApply(callback, Value{}, { Value{std::make_shared<Enosys>("write")} })`. -/
def FS.replyEnosys (env : Env) (callback : Value) : Host Unit := do
  let e ← alloc (.Enosys "write")
  let _ ← Value.ReflectApply env callback Value.undefined [Value.ofObject (some e)]
  return ()

/-- The method `FS::Write`. -/
def FS.Write (env : Env) (_self : Value) (args : List Value) : Host Value := do
  let fd ← castInt (← Value.ToNumber env (← index args 0))
  let buf ← Value.ToBytes env (← index args 1)
  let offset ← castInt (← Value.ToNumber env (← index args 2))
  let length ← castInt (← Value.ToNumber env (← index args 3))
  let position ← index args 4
  let callback ← index args 5
  if offset ≠ 0 ∨ toSizeT length ≠ buf.size then
    FS.replyEnosys env callback
    return Value.undefined
  if !position.IsNull then
    FS.replyEnosys env callback
    return Value.undefined
  if fd = 1 then
    FS.writeStdout buf
  else if fd = 2 then
    FS.writeStderr buf
  else
    FS.replyEnosys env callback
  let _ ← Value.ReflectApply env callback Value.undefined
    [Value.Null, Value.ofNumber (Double.ofNat buf.size)]
  return Value.undefined

/-- The operation calls `panic` at least once when run from `w`: its trace
gains a `panic` event. -/
def faults {α : Type} (x : Host α) (w : World) : Prop :=
  ∃ msg, Event.panic msg ∈ (x w).2.trace.drop w.trace.length

/-- An environment for examples: `Inspect` gives `"?"` and every foreign
function returns `Value{}`. -/
def Env.plain : Env := ⟨fun _ => "?", fun _ _ => Value.undefined⟩

/-- A world for examples.  Address 0: the global object, without `_panic`;
1: an `ArrayBuffer` holding the bytes of `"hi\n"`; 2: a `Function` wrapping
the foreign function 7; 3: a `Uint8Array` over the whole buffer. -/
def World.sample : World :=
  { heap := [.DictionaryValues [], .ArrayBuffer [104, 105, 10], .Function (.foreign 7),
      .TypedArray "Uint8Array" (some 1) 0 3],
    arrays := [], global := 0, trace := [], cout := [], cerr := [],
    stdoutBuf := [], stderrBuf := [] }

/-- The `Value` of the number `n`. -/
def Value.ofNat (n : Nat) : Value := Value.ofNumber (Double.ofNat n)

end JS

/-! ## Host emulation: arrays, properties, reflection, typed arrays -/

namespace JS

/-- The conversion `static_cast<size_t>(d)`: truncation toward zero, undefined
(`none`) for a NaN, an infinity or a value outside the range of `size_t`. -/
def Double.toSizeT (d : Double) : Option Nat :=
  let s := d.bits / 2 ^ 63 % 2
  let e := d.bits / 2 ^ 52 % 2048
  let f := d.bits % 2 ^ 52
  if e = 2047 then none
  else
    let mag : Nat :=
      if e < 1023 then 0
      else if e ≥ 1075 then (2 ^ 52 + f) * 2 ^ (e - 1075)
      else (2 ^ 52 + f) / 2 ^ (1075 - e)
    if s = 1 then (if mag = 0 then some 0 else none)
    else if mag < 2 ^ 64 then some mag else none

/-- The conversion `static_cast<size_t>(d)` inside an operation. -/
def castSizeT (d : Double) : Host Nat :=
  match d.toSizeT with
  | some n => Host.pure n
  | none => Host.stop .undefined

/-- The method `Value::ToArray`: the address of `*array_value_`; the
dereference of a null pointer is undefined. -/
def Value.ToArray (env : Env) (v : Value) : Host Nat := do
  if v.type_ ≠ .Object then
    panic ("Value::ToArray: the type must be Type::Object but not: " ++ env.inspect v)
  if v.array_value_.isNone then
    panic "Value::ToArray: array_value_ must not be null"
  match v.array_value_ with
  | some a => return a
  | none => Host.stop .undefined

/-- The method `Value::ToArrayBuffer`: `object_value_` after the two checks;
the cast of a pointer to an object of another class is undefined. -/
def Value.ToArrayBuffer (env : Env) (v : Value) : Host (Option Nat) := do
  if v.type_ ≠ .Object then
    panic ("Value::ToArrayBuffer: the type must be Type::Object but not: " ++ env.inspect v)
  if v.object_value_.isNone then
    panic "Value::ToArrayBuffer: object_value_ must not be null"
  match v.object_value_ with
  | none => return none
  | some o =>
    fun w => match w.heap[o]? with
      | some (.ArrayBuffer _) => (.ok (some o), w)
      | _ => (.undefined, w)

/-- The memberwise copy of the defaulted copy constructor and copy assignment
of `Value`. -/
def Value.copy (rhs : Value) : Value :=
  { type_ := rhs.type_, num_value_ := rhs.num_value_, str_value_ := rhs.str_value_,
    object_value_ := rhs.object_value_, array_value_ := rhs.array_value_ }

/-- The statement `dict_[key] = object` on the `std::map`, whose entries are
kept in the order of their keys. -/
def dictSet : List (String × Value) → String → Value → List (String × Value)
  | [], key, object => [(key, object)]
  | (k, v) :: rest, key, object =>
    if key = k then (key, object) :: rest
    else if key < k then (key, object) :: (k, v) :: rest
    else (k, v) :: dictSet rest key object

/-- The statement `dict_.erase(key)`. -/
def dictErase (dict : List (String × Value)) (key : String) : List (String × Value) :=
  dict.filter (fun kv => kv.1 != key)

/-- An assignment to the fields of the object at an address. -/
def store (o : Nat) (obj : Object) : Host Unit := fun w =>
  (.ok (), { w with heap := w.heap.set o obj })

/-- The virtual method `Set` of the object at an address:
`DictionaryValues::Set`, `TypedArray::Set`, and `Object::Set` (a host fault)
for the other classes. -/
def Object.Set (env : Env) (o : Nat) (key : String) (value : Value) : Host Unit := fun w =>
  match w.heap[o]? with
  | none => (.undefined, w)
  | some (.DictionaryValues dict) => store o (.DictionaryValues (dictSet dict key value)) w
  | some (.TypedArray className ab offset length) =>
    if key = "byteLength" then
      (do
        let n ← castSizeT (← value.ToNumber env)
        store o (.TypedArray className ab offset n)) w
    else if key = "byteOffset" then
      (do
        let n ← castSizeT (← value.ToNumber env)
        store o (.TypedArray className ab n length)) w
    else if key = "buffer" then
      (do
        let b ← value.ToArrayBuffer env
        store o (.TypedArray className b offset length)) w
    else panic ("TypedArray::Set: invalid key: " ++ key) w
  | some obj =>
    panic ("Object::Set is not implemented: this: " ++ obj.Inspect env ++ ", key: " ++ key
      ++ ", value: " ++ env.inspect value) w

/-- The virtual method `Delete` of the object at an address:
`DictionaryValues::Delete`, and `Object::Delete` (a host fault) for the other
classes. -/
def Object.Delete (env : Env) (o : Nat) (key : String) : Host Unit := fun w =>
  match w.heap[o]? with
  | none => (.undefined, w)
  | some (.DictionaryValues dict) => store o (.DictionaryValues (dictErase dict key)) w
  | some obj =>
    panic ("Object::Delete is not implemented: this: " ++ obj.Inspect env ++ ", key: " ++ key) w

/-- The virtual method `New` of the object at an address: `Constructor::New`
calls the wrapped function with `Value{}` and the arguments; `Object::New` is
a host fault. -/
def Object.New (env : Env) (o : Nat) (args : List Value) : Host Value := fun w =>
  match w.heap[o]? with
  | none => (.undefined, w)
  | some (.Constructor _ fn) =>
    (.ok (env.result fn args), { w with trace := w.trace ++ [Event.call fn Value.undefined args] })
  | some obj =>
    (panic ("Object::New is not implemented: this: " ++ obj.Inspect env)
      >>= fun _ => Host.pure Value.undefined) w

/-- The call `std::stoi(key)`: the decimal integer at the start of the string,
after white space and an optional sign.  `none` when it throws: there is no
digit, or the value is outside the range of `int`. -/
def stoi (key : String) : Option Int :=
  let cs := key.data.dropWhile (fun c => c.toNat = 32 ∨ (9 ≤ c.toNat ∧ c.toNat ≤ 13))
  let signed : Bool × List Char :=
    match cs with
    | [] => (false, [])
    | c :: r => if c.toNat = 45 then (true, r) else if c.toNat = 43 then (false, r) else (false, c :: r)
  let digits := signed.2.takeWhile (fun c => 48 ≤ c.toNat ∧ c.toNat ≤ 57)
  if digits = [] then none
  else
    let n : Nat := digits.foldl (fun a c => 10 * a + (c.toNat - 48)) 0
    let v : Int := if signed.1 then -(n : Int) else (n : Int)
    if -(2 ^ 31) ≤ v ∧ v < 2 ^ 31 then some v else none

/-- The element `array[idx]` of the vector at an address: undefined outside
the vector. -/
def arrayIndex (a : Nat) (idx : Int) : Host Value := fun w =>
  match w.arrays[a]? with
  | none => (.undefined, w)
  | some vs =>
    if idx < 0 then (.undefined, w)
    else
      match vs[idx.toNat]? with
      | some v => (.ok v, w)
      | none => (.undefined, w)

/-- The function `Value::ReflectGet`.  An exception of `std::stoi` is caught
nowhere and ends the process. -/
def Value.ReflectGet (env : Env) (target : Value) (key : String) : Host Value := do
  if target.IsUndefined then
    panic ("get on undefined (key: " ++ key ++ ") is forbidden")
    return Value.undefined
  if target.IsNull then
    panic ("get on null (key: " ++ key ++ ") is forbidden")
    return Value.undefined
  if target.IsObject then
    return ← Object.Get env (← target.ToObject env) key
  if target.IsArray then
    let idx ← match stoi key with
      | some i => Host.pure i
      | none => Host.stop .exited
    if idx > 0 ∨ (idx = 0 ∧ key = "0") then
      return ← arrayIndex (← target.ToArray env) idx
  panic (env.inspect target ++ "." ++ key ++ " not found")
  return Value.undefined

/-- The function `Value::ReflectSet`. -/
def Value.ReflectSet (env : Env) (target : Value) (key : String) (value : Value) : Host Unit := do
  if target.IsUndefined then
    panic ("set on undefined (key: " ++ key ++ ") is forbidden")
  if target.IsNull then
    panic ("set on null (key: " ++ key ++ ") is forbidden")
  if target.IsObject then
    Object.Set env (← target.ToObject env) key value
    return
  panic (env.inspect target ++ "." ++ key ++ " cannot be set")

/-- The function `Value::ReflectDelete`. -/
def Value.ReflectDelete (env : Env) (target : Value) (key : String) : Host Unit := do
  if target.IsUndefined then
    panic ("delete on undefined (key: " ++ key ++ ") is forbidden")
  if target.IsNull then
    panic ("delete on null (key: " ++ key ++ ") is forbidden")
  if target.IsObject then
    Object.Delete env (← target.ToObject env) key
    return
  panic (env.inspect target ++ "." ++ key ++ " cannot be deleted")

/-- The function `Value::ReflectConstruct`. -/
def Value.ReflectConstruct (env : Env) (target : Value) (args : List Value) : Host Value := do
  if target.IsUndefined then
    panic "new on undefined is forbidden"
    return Value.undefined
  if target.IsNull then
    panic "new on null is forbidden"
    return Value.undefined
  if target.IsObject then
    let t ← target.ToObject env
    let obj ← fun w => match w.heap[t]? with
      | some obj => (Res.ok obj, w)
      | none => (Res.undefined, w)
    if !obj.IsConstructor then
      panic (obj.ToString ++ " is not a constructor")
      return Value.undefined
    return ← Object.New env t args
  panic ("new " ++ env.inspect target ++ "(" ++ JoinObjects env args ++ ") cannot be called")
  return Value.undefined

/-- The function `panic(msg)` with its recursion spelled out: `fuel` bounds
the depth of the calls of `panic` from `Value::ToObject` and `Object::Invoke`
inside `panic`, and the operation ends as diverged when the bound is
reached. -/
def panicRec (env : Env) : Nat → String → Host Unit
  | 0, _ => Host.stop .diverged
  | fuel + 1, msg => fun w =>
    let w1 := { w with trace := w.trace ++ [Event.panic msg] }
    match w.heap[w.global]? with
    | some (.DictionaryValues dict) =>
      let handler := dictGet dict "_panic"
      if handler.IsUndefined then
        (.exited, { w1 with cerr := w1.cerr ++ msg.toUTF8.toList.map (·.toNat) ++ [10] })
      else
        (do
          if handler.type_ ≠ .Object then
            panicRec env fuel
              ("Value::ToObject: the type must be Type::Object but not: " ++ env.inspect handler)
          if handler.object_value_.isNone then
            panicRec env fuel "Value::ToObject: object_value_ must not be null"
          match handler.object_value_ with
          | none => Host.stop .undefined
          | some h =>
            fun w2 => match w2.heap[h]? with
              | none => (.undefined, w2)
              | some (.Function fn) =>
                (.ok (), { w2 with
                  trace := w2.trace ++ [Event.call fn Value.undefined [Value.ofString msg]] })
              | some obj =>
                panicRec env fuel ("Object::Invoke is not implemented: this: " ++ obj.Inspect env
                  ++ ", self: " ++ env.inspect Value.undefined) w2) w1
    | _ => (.undefined, w1)

/-- The constructor `TypedArray(arrayBuffer, offset, length)`; `className` is
the class of the object, which `ToString` names. -/
def TypedArray.new (className : String) (arrayBuffer : Option Nat) (offset length : Nat) : Object :=
  .TypedArray className arrayBuffer offset length

/-- The constructor `Uint8Array(arrayBuffer, offset, length)`. -/
def Uint8Array.new (arrayBuffer : Option Nat) (offset length : Nat) : Object :=
  TypedArray.new "Uint8Array" arrayBuffer offset length

/-- The constructor `Uint16Array(arrayBuffer, offset, length)`; the products
are products of `size_t`. -/
def Uint16Array.new (arrayBuffer : Option Nat) (offset length : Nat) : Object :=
  TypedArray.new "Uint16Array" arrayBuffer (offset * 2 % 2 ^ 64) (length * 2 % 2 ^ 64)

/-- The constructor `Float32Array(arrayBuffer, offset, length)`; the products
are products of `size_t`. -/
def Float32Array.new (arrayBuffer : Option Nat) (offset length : Nat) : Object :=
  TypedArray.new "Float32Array" arrayBuffer (offset * 4 % 2 ^ 64) (length * 4 % 2 ^ 64)

/-- Modelled from the spec: the assignment `bs[i] = x` through a byte view
(`BytesSpan` of bytes.h is not among the sources).  The view is a non-owning
window, so the byte `start + i` of the buffer it points into is changed;
undefined (`none`) for a null view and outside the view or the buffer. -/
def spanWrite (w : World) (s : BytesSpan) (i x : Nat) : Option World :=
  match s.target with
  | none => none
  | some o =>
    match w.heap[o]? with
    | some (.ArrayBuffer data) =>
      if i < s.size ∧ s.start + i < data.length then
        some { w with heap := w.heap.set o (.ArrayBuffer (data.set (s.start + i) x)) }
      else none
    | _ => none

/-- The payload fields of a value that differ from their default member
initializers, by name. -/
def Value.nonDefault (v : Value) : List String :=
  (if v.num_value_ ≠ ⟨0⟩ then ["num_value_"] else [])
    ++ (if v.str_value_ ≠ "" then ["str_value_"] else [])
    ++ (if v.object_value_ ≠ none then ["object_value_"] else [])
    ++ (if v.array_value_ ≠ none then ["array_value_"] else [])

/-- The payload fields that belong to a tag. -/
def tagFields : TypeTag → List String
  | .Undefined | .Null => []
  | .Bool | .Number => ["num_value_"]
  | .String => ["str_value_"]
  | .Object => ["object_value_", "array_value_"]

/-- The payload invariant: at most one payload field differs from its default,
and it belongs to the tag. -/
def Value.payloadOk (v : Value) : Prop :=
  v.nonDefault.length ≤ 1 ∧ ∀ f ∈ v.nonDefault, f ∈ tagFields v.type_

/-- The operation changes no object, no array and neither output stream of
`FS`: it only adds to the trace and to `std::cerr`. -/
def onlyReports {α : Type} (x : Host α) : Prop :=
  ∀ w, (x w).2.heap = w.heap ∧ (x w).2.arrays = w.arrays ∧ (x w).2.global = w.global
    ∧ (x w).2.cout = w.cout ∧ (x w).2.stdoutBuf = w.stdoutBuf ∧ (x w).2.stderrBuf = w.stderrBuf
    ∧ ∃ rest, (x w).2.trace = w.trace ++ rest

/-- A world whose global object holds the number 1 under `_panic`. -/
def World.numberHandler : World :=
  { World.sample with heap := [.DictionaryValues [("_panic", Value.ofNat 1)]] }

/-- A world whose global object holds, under `_panic`, the `Function` at
address 1, which wraps the foreign function 9. -/
def World.withHandler : World :=
  { World.sample with
    heap := [.DictionaryValues [("_panic", Value.ofObject (some 1))], .Function (.foreign 9),
      .Constructor "Thing" (.foreign 5), .ArrayBuffer [1, 2, 3, 4, 5, 6, 7, 8]] }

end JS

/-! ## Opcode families of the translator's switch -/

/-- The nine store opcodes, `i32.store` to `i64.store32`. -/
def storeOps : List Opcode :=
  [.I32Store, .I64Store, .F32Store, .F64Store, .I32Store8, .I32Store16, .I64Store8, .I64Store16,
    .I64Store32]

/-- The fourteen load opcodes, `i32.load` to `i64.load32_u`. -/
def loadOps : List Opcode :=
  [.I32Load, .I64Load, .F32Load, .F64Load, .I32Load8s, .I32Load8u, .I32Load16s, .I32Load16u,
    .I64Load8s, .I64Load8u, .I64Load16s, .I64Load16u, .I64Load32s, .I64Load32u]

/-- The binary comparison opcodes, `i32.eq` to `f64.ge` without the two `eqz`. -/
def comparisonOps : List Opcode :=
  [.I32Eq, .I32Ne, .I32LtS, .I32LtU, .I32GtS, .I32GtU, .I32LeS, .I32LeU, .I32GeS, .I32GeU,
    .I64Eq, .I64Ne, .I64LtS, .I64LtU, .I64GtS, .I64GtU, .I64LeS, .I64LeU, .I64GeS, .I64GeU,
    .F32Eq, .F32Ne, .F32Lt, .F32Gt, .F32Le, .F32Ge,
    .F64Eq, .F64Ne, .F64Lt, .F64Gt, .F64Le, .F64Ge]

/-- The binary arithmetic opcodes: `i32.add` to `i32.rotr`, `i64.add` to
`i64.rotr`, `f32.add` to `f32.copysign`, `f64.add` to `f64.copysign`. -/
def arithmeticOps : List Opcode :=
  [.I32Add, .I32Sub, .I32Mul, .I32DivS, .I32DivU, .I32RemS, .I32RemU, .I32And, .I32Or, .I32Xor,
    .I32Shl, .I32ShrS, .I32ShrU, .I32Rotl, .I32Rotr,
    .I64Add, .I64Sub, .I64Mul, .I64DivS, .I64DivU, .I64RemS, .I64RemU, .I64And, .I64Or, .I64Xor,
    .I64Shl, .I64ShrS, .I64ShrU, .I64Rotl, .I64Rotr,
    .F32Add, .F32Sub, .F32Mul, .F32Div, .F32Min, .F32Max, .F32Copysign,
    .F64Add, .F64Sub, .F64Mul, .F64Div, .F64Min, .F64Max, .F64Copysign]

/-- The unary opcodes: `eqz`, `clz`, `ctz`, `popcnt` on both integer types and
`abs`, `neg`, `ceil`, `floor`, `trunc`, `nearest`, `sqrt` on both float types. -/
def unaryOps : List Opcode :=
  [.I32Eqz, .I64Eqz, .I32Clz, .I32Ctz, .I32Popcnt, .I64Clz, .I64Ctz, .I64Popcnt,
    .F32Abs, .F32Neg, .F32Ceil, .F32Floor, .F32Trunc, .F32Nearest, .F32Sqrt,
    .F64Abs, .F64Neg, .F64Ceil, .F64Floor, .F64Trunc, .F64Nearest, .F64Sqrt]

/-! ## Slot declarations of the translator -/

/-- A statement is a slot declaration when its text starts with
`dynamic stack`. -/
def isDecl (s : String) : Bool := "dynamic stack".data.isPrefixOf s.data

/-- The text of a slot declaration: `dynamic stack`, the slot number, and the
rest of the statement (from ` = ` to the semicolon). -/
def renderDecl (d : Nat × String) : String := "dynamic stack" ++ (fmtD d.1 ++ d.2)

/-- The slot invariant of a translator state: the live stack increases
strictly from bottom to top, every live slot is below the counter, and the
declarations among the emitted statements declare slots that increase
strictly and are below the counter. -/
def Fresh (st : TransState) : Prop :=
  st.idxStack.Pairwise (· < ·) ∧ (∀ n ∈ st.idxStack, n < st.newIdx)
    ∧ ∃ decls : List (Nat × String), st.body.filter isDecl = decls.map renderDecl
      ∧ (decls.map Prod.fst).Pairwise (· < ·) ∧ ∀ d ∈ decls, d.1 < st.newIdx

/-- Opcodes without a case in the switch of `instrsToCSharp`, among them the
control transfers, the calls and the conversions. -/
def unhandledOps : List Opcode :=
  [.Br, .BrIf, .BrTable, .Return, .Call, .CallIndirect,
    .I32WrapI64, .I32TruncSF32, .I32TruncUF32, .I32TruncSF64, .I32TruncUF64,
    .I64ExtendSI32, .I64ExtendUI32, .I64TruncSF32, .I64TruncUF32, .I64TruncSF64, .I64TruncUF64,
    .F32ConvertSI32, .F32ConvertUI32, .F32ConvertSI64, .F32ConvertUI64, .F32DemoteF64,
    .F64ConvertSI32, .F64ConvertUI32, .F64ConvertSI64, .F64ConvertUI64, .F64PromoteF32,
    .I32ReinterpretF32, .I64ReinterpretF64, .F32ReinterpretI32, .F64ReinterpretI64]

/-! ## Search in the linear memory -/

/-- The function `std::memchr` on the bytes from address `a`: the address of
the first of the next `n` bytes that equals `ch`, or `none` (the null
pointer). -/
def memchrFrom (bytes : Nat → Nat) (ch : Nat) : Nat → Nat → Option Nat
  | _, 0 => none
  | a, n + 1 => if bytes a = ch then some a else memchrFrom bytes ch (a + 1) n

/-- The function `Mem::Memchr(ptr, ch, count)`: `std::memchr` takes `ch` as an
`unsigned char` and `count` as a `size_t`; a null result gives 0, any other the
distance from `bytes_` as an `int32_t`.  Undefined when the range leaves the
region. -/
def Mem.Memchr (m : Mem) (ptr ch count : Int) : Option Int :=
  if 0 ≤ ptr ∧ ptr + toSizeT count ≤ kMaxMemorySize then
    match memchrFrom m.bytes_ (ch % 256).toNat ptr.toNat (toSizeT count) with
    | none => some 0
    | some a => some (Bits.toInt32 a)
  else none

/-! ## Byte views of values, and the grouping of functions (gowasm2cpp/inst.go) -/

/-- The method `Value::IsBytes`: `&&` evaluates `object_value_->ToBytes()`
only for the tag `Object`; through a null `object_value_` the call is
undefined. -/
def JS.Value.IsBytes (v : JS.Value) : JS.Host Bool :=
  if v.type_ = .Object then
    match v.object_value_ with
    | some o => JS.Host.bind (JS.Object.ToBytes o) (fun bs => JS.Host.pure (!bs.IsNull))
    | none => JS.Host.stop .undefined
  else JS.Host.pure false

/-- Modelled from the spec: the Go struct `wasmFunc`, which is declared outside
the sources.  Of a function to emit, `writeInst` and its templates use the
index and the name `Wasm.Name`, a Go string, kept here as its bytes. -/
structure wasmFunc where
  Index : Nat
  Name : List Nat
deriving DecidableEq, Repr

/-- The loop `for _, f := range funcs` of `writeInst` on the map `groups`
(a key that is absent reads as the empty slice): `n[0]` panics on an empty
name. -/
def groupLoop : (Nat → List wasmFunc) → List wasmFunc → Except GoPanic (Nat → List wasmFunc)
  | groups, [] => .ok groups
  | groups, f :: rest =>
    match f.Name with
    | [] => .error .indexRange
    | g :: _ => groupLoop (Function.update groups g (groups g ++ [f])) rest

/-- The groups `writeInst` builds: `sort.Slice` by name (the library function
is a parameter), then the loop from the empty map. -/
def writeInstGroups (sortSlice : List wasmFunc → List wasmFunc) (funcs : List wasmFunc) :
    Except GoPanic (Nat → List wasmFunc) :=
  groupLoop (fun _ => []) (sortSlice funcs)

/-- A sort by name, for examples: insertion sort. -/
def sortByName (funcs : List wasmFunc) : List wasmFunc :=
  funcs.insertionSort (fun a b => ¬ b.Name < a.Name)

/-- Three functions for examples, named `run`, `add` and `rot`. -/
def sampleFuncs : List wasmFunc :=
  [⟨0, [114, 117, 110]⟩, ⟨1, [97, 100, 100]⟩, ⟨2, [114, 111, 116]⟩]

/-- A memory for examples: zero everywhere but the byte 65 at the addresses 0
and 5. -/
def Mem.sampleA : Mem := ⟨fun a => if a = 0 ∨ a = 5 then 65 else 0, 65536⟩


/-! ### Lemmas on the translator -/

theorem notReturn_of_head (c : Char) (r : List Char) (s : String) (h : s.data = c :: r)
    (hc : c ≠ 'r') : isReturnStmt s = false := by
  unfold isReturnStmt
  rw [h]
  have h0 : "return".data = 'r' :: "eturn".data := rfl
  rw [h0]
  simp only [List.isPrefixOf, Bool.and_eq_false_imp, beq_iff_eq]
  intro h1
  exact absurd h1.symm hc

theorem sliceOff_ok_iff (k : Nat) (s : List Nat) :
    (∃ r, sliceOff k s = .ok r) ↔ k ≤ s.length := by
  unfold sliceOff
  split <;> simp_all


theorem topOf_ok_iff (s : List Nat) : (∃ v, topOf s = .ok v) ↔ 1 ≤ s.length := by
  unfold topOf
  cases s using List.reverseRecOn with
  | nil => simp
  | append_singleton l a => simp

theorem imm0_ok_iff (i : Instr) : (∃ v, imm0 i = .ok v) ↔ i.Immediates ≠ [] := by
  unfold imm0
  cases i.Immediates <;> simp

theorem popK_ok_iff (k : Nat) (st : TransState) :
    (∃ st1, popK k st = .ok st1) ↔ k ≤ st.idxStack.length := by
  unfold popK sliceOff
  by_cases h : k ≤ st.idxStack.length <;> simp [h]

theorem popK_depth {k : Nat} {st st1 : TransState} (h : popK k st = .ok st1) :
    st1.idxStack = st.idxStack.take (st.idxStack.length - k) ∧ st1.body = st.body
      ∧ st1.newIdx = st.newIdx := by
  unfold popK sliceOff at h
  by_cases hk : k ≤ st.idxStack.length
  · simp only [hk, if_true] at h
    cases h
    simp
  · simp [hk] at h

theorem step_ok_iff (st : TransState) (i : Instr) :
    (∃ st1, step st i = .ok st1) ↔
      ((caseOf i.Op.Code).need ≤ st.idxStack.length ∧
        ((caseOf i.Op.Code).readsImm = true → i.Immediates ≠ [])) := by
  have ht := topOf_ok_iff st.idxStack
  have hi := imm0_ok_iff i
  unfold step
  cases hc : caseOf i.Op.Code with
  | pop k => simpa [Case.need, Case.readsImm] using popK_ok_iff k st
  | assertFalse => simp [Case.need, Case.readsImm]
  | skip => simp [Case.need, Case.readsImm]
  | currentMemory => simp [Case.need, Case.readsImm, nextIdx]
  | floatConst => simp [Case.need, Case.readsImm, nextIdx]
  | passthrough => simp [Case.need, Case.readsImm]
  | getLocal | getGlobal | intConst =>
    simp only [Case.need, Case.readsImm, nextIdx, Nat.zero_le, true_and, forall_const]
    rw [← hi]
    cases imm0 i <;> simp
  | teeLocal =>
    simp only [Case.need, Case.readsImm, forall_const]
    rw [← hi, ← ht]
    cases topOf st.idxStack <;> cases imm0 i <;> simp
  | setLocal | setGlobal =>
    simp only [Case.need, Case.readsImm, forall_const]
    rw [← hi, ← ht]
    cases h1 : topOf st.idxStack <;> cases h2 : imm0 i <;> simp
    have := (topOf_ok_iff st.idxStack).1 ⟨_, h1⟩
    exact (popK_ok_iff 1 _).2 (by simpa [emit] using this)

theorem step_depth {st st1 : TransState} {i : Instr} (h : step st i = .ok st1) :
    st1.idxStack.length = (caseOf i.Op.Code).depthAfter st.idxStack.length := by
  unfold step at h
  cases hc : caseOf i.Op.Code with
  | pop k =>
    rw [hc] at h
    simp only at h
    rw [(popK_depth h).1]
    simp [Case.depthAfter]
  | assertFalse | skip | passthrough =>
    rw [hc] at h
    simp only [Except.ok.injEq] at h
    subst h
    simp [Case.depthAfter, emit]
  | currentMemory | floatConst =>
    rw [hc] at h
    simp only [nextIdx, Except.ok.injEq] at h
    subst h
    simp [Case.depthAfter, emit, push]
  | getLocal | getGlobal | intConst =>
    rw [hc] at h
    simp only [nextIdx] at h
    cases h2 : imm0 i <;> rw [h2] at h <;> simp only [Except.ok.injEq, reduceCtorEq] at h
    subst h
    simp [Case.depthAfter, emit, push]
  | teeLocal =>
    rw [hc] at h
    simp only at h
    cases h1 : topOf st.idxStack <;> cases h2 : imm0 i <;> rw [h1, h2] at h <;>
      simp only [Except.ok.injEq, reduceCtorEq] at h
    subst h
    simp [Case.depthAfter, emit]
  | setLocal | setGlobal =>
    rw [hc] at h
    simp only at h
    cases h1 : topOf st.idxStack <;> cases h2 : imm0 i <;> rw [h1, h2] at h <;>
      simp only [Except.ok.injEq, reduceCtorEq] at h
    rw [(popK_depth h).1]
    simp [Case.depthAfter, emit]

theorem notReturn_dynamic (t : String) : isReturnStmt ("dynamic stack" ++ t) = false :=
  notReturn_of_head 'd' ("ynamic stack".data ++ t.data) _ (by rw [String.data_append]; rfl)
    (by decide)

theorem notReturn_local (t : String) : isReturnStmt ("local" ++ t) = false :=
  notReturn_of_head 'l' ("ocal".data ++ t.data) _ (by rw [String.data_append]; rfl) (by decide)

theorem notReturn_global (t : String) : isReturnStmt ("global" ++ t) = false :=
  notReturn_of_head 'g' ("lobal".data ++ t.data) _ (by rw [String.data_append]; rfl) (by decide)

theorem notReturn_comment (t : String) : isReturnStmt ("// " ++ t) = false :=
  notReturn_of_head '/' ("/ ".data ++ t.data) _ (by rw [String.data_append]; rfl) (by decide)

theorem notReturn_assert : isReturnStmt assertStmt = false := by decide

theorem notReturn_throw : isReturnStmt throwStmt = false := by decide

theorem isReturn_returnStmt (idx : Nat) : isReturnStmt (returnStmt idx) = true := by
  unfold isReturnStmt returnStmt
  rw [String.data_append, String.data_append]
  have h : "return stack".data = "return".data ++ " stack".data := rfl
  rw [h, List.append_assoc, List.append_assoc]
  exact List.isPrefixOf_iff_prefix.2 (List.prefix_append _ _)

/-- Statements already emitted are kept, and an iteration appends at most one
statement, which is never a return statement. -/
theorem step_body {st st1 : TransState} {i : Instr} (h : step st i = .ok st1) :
    st1.body = st.body ∨ ∃ s, st1.body = st.body ++ [s] ∧ isReturnStmt s = false := by
  unfold step at h
  cases hc : caseOf i.Op.Code with
  | pop k =>
    rw [hc] at h
    exact Or.inl (popK_depth h).2.1
  | skip =>
    rw [hc] at h
    simp only [Except.ok.injEq] at h
    subst h
    exact Or.inl rfl
  | currentMemory =>
    rw [hc] at h
    simp only [nextIdx, Except.ok.injEq] at h
    subst h
    exact Or.inl rfl
  | assertFalse =>
    rw [hc] at h
    simp only [Except.ok.injEq] at h
    subst h
    exact Or.inr ⟨_, rfl, notReturn_assert⟩
  | passthrough =>
    rw [hc] at h
    simp only [Except.ok.injEq] at h
    subst h
    exact Or.inr ⟨_, rfl, notReturn_comment _⟩
  | floatConst =>
    rw [hc] at h
    simp only [nextIdx, Except.ok.injEq] at h
    subst h
    refine Or.inr ⟨_, rfl, ?_⟩
    rw [String.append_assoc]
    exact notReturn_dynamic _
  | getLocal | getGlobal | intConst =>
    rw [hc] at h
    simp only [nextIdx] at h
    cases h2 : imm0 i <;> rw [h2] at h <;> simp only [Except.ok.injEq, reduceCtorEq] at h
    subst h
    refine Or.inr ⟨_, rfl, ?_⟩
    simp only [String.append_assoc]
    exact notReturn_dynamic _
  | teeLocal =>
    rw [hc] at h
    simp only at h
    cases h1 : topOf st.idxStack <;> cases h2 : imm0 i <;> rw [h1, h2] at h <;>
      simp only [Except.ok.injEq, reduceCtorEq] at h
    subst h
    refine Or.inr ⟨_, rfl, ?_⟩
    simp only [String.append_assoc]
    exact notReturn_local _
  | setLocal =>
    rw [hc] at h
    simp only at h
    cases h1 : topOf st.idxStack <;> cases h2 : imm0 i <;> rw [h1, h2] at h <;>
      simp only [Except.ok.injEq, reduceCtorEq] at h
    refine Or.inr ⟨_, (popK_depth h).2.1, ?_⟩
    simp only [String.append_assoc]
    exact notReturn_local _
  | setGlobal =>
    rw [hc] at h
    simp only at h
    cases h1 : topOf st.idxStack <;> cases h2 : imm0 i <;> rw [h1, h2] at h <;>
      simp only [Except.ok.injEq, reduceCtorEq] at h
    refine Or.inr ⟨_, (popK_depth h).2.1, ?_⟩
    simp only [String.append_assoc]
    exact notReturn_global _

theorem run_noReturn {instrs : List Instr} {st st1 : TransState} (h : run st instrs = .ok st1)
    (h0 : ∀ s ∈ st.body, isReturnStmt s = false) : ∀ s ∈ st1.body, isReturnStmt s = false := by
  induction instrs generalizing st with
  | nil =>
    simp only [run, Except.ok.injEq] at h
    subst h
    exact h0
  | cons i rest ih =>
    simp only [run] at h
    cases hs : step st i with
    | error e => rw [hs] at h; simp at h
    | ok st2 =>
      rw [hs] at h
      refine ih h ?_
      rcases step_body hs with hb | ⟨s, hb, hr⟩
      · rw [hb]; exact h0
      · rw [hb]
        intro t ht
        rcases List.mem_append.1 ht with ht | ht
        · exact h0 t ht
        · rw [List.mem_singleton.1 ht]; exact hr

theorem run_ok_iff (instrs : List Instr) (st : TransState) :
    (∃ st1, run st instrs = .ok st1) ↔ fitsFrom st.idxStack.length instrs = true := by
  induction instrs generalizing st with
  | nil => simp [run, fitsFrom]
  | cons i rest ih =>
    simp only [run, fitsFrom, Bool.and_eq_true, decide_eq_true_eq]
    cases hs : step st i with
    | error e =>
      have hn : ¬ ∃ st1, step st i = .ok st1 := by simp [hs]
      rw [step_ok_iff] at hn
      simp only [reduceCtorEq, exists_false, false_iff]
      rintro ⟨⟨h1, h2⟩, -⟩
      exact hn ⟨h1, by simpa using h2⟩
    | ok st2 =>
      have hy := (step_ok_iff st i).1 ⟨st2, hs⟩
      simp only
      rw [ih st2, step_depth hs]
      constructor
      · intro h
        exact ⟨⟨hy.1, by simpa using hy.2⟩, h⟩
      · exact fun h => h.2

/-- With one declared return value and a live stack `b :: rest` (bottom
first) at the end of the loop, the statement appended last is the return of
`b`, the slot at index 0. -/
theorem return_names_bottom (instrs : List Instr) (sig : FunctionSig) (st : TransState)
    (b : Nat) (rest : List Nat) (hsig : sig.ReturnTypes.length = 1)
    (hrun : run TransState.init instrs = .ok st) (hst : st.idxStack = b :: rest) :
    instrsToCSharp instrs sig = .ok (st.body ++ [returnStmt b], none) := by
  unfold instrsToCSharp
  rw [hrun]
  simp [finish, hsig, hst]

/-! ### Claims on the translator -/

/-- C1, as stated, fails: on `get_local 0; get_local 1; i32.add; end` with the
signature `(i32, i32) -> i32` the translator returns three statements, the two
loads and `return stack0;`.  There is no statement for the add, no slot 2, and
the result is no list of four statements ending in `return stack2;`. -/
theorem c1_add_emits_no_statement :
    instrsToCSharp (addBody "get_local" "get_local" "i32.add" "end") sigAdd
        = .ok (["dynamic stack0 = local0;", "dynamic stack1 = local1;", "return stack0;"], none)
      ∧ ¬ ∃ s0 s1 s2, instrsToCSharp (addBody "get_local" "get_local" "i32.add" "end") sigAdd
          = .ok ([s0, s1, s2, returnStmt 2], none) := by
  have h : instrsToCSharp (addBody "get_local" "get_local" "i32.add" "end") sigAdd
      = .ok (["dynamic stack0 = local0;", "dynamic stack1 = local1;", "return stack0;"], none) :=
    rfl
  refine ⟨h, ?_⟩
  rintro ⟨s0, s1, s2, h2⟩
  rw [h] at h2
  simp at h2

/-- C1, amended: for `get_local 0; get_local 1; i32.add; end` and every
signature with exactly one return value, the translator returns exactly three
statements and a nil error: the load of local 0 into slot 0, the load of
local 1 into slot 1, and one return statement, naming slot 0, the only slot
still live (`i32.add` removes slot 1 and emits nothing). -/
theorem c1_add_scenario (t0 t1 t2 t3 : String) (sig : FunctionSig)
    (h : sig.ReturnTypes.length = 1) :
    instrsToCSharp (addBody t0 t1 t2 t3) sig
      = .ok (["dynamic stack0 = local0;", "dynamic stack1 = local1;", "return stack0;"], none) := by
  have hr : run TransState.init (addBody t0 t1 t2 t3)
      = .ok ⟨["dynamic stack0 = local0;", "dynamic stack1 = local1;"], 2, [0]⟩ := rfl
  unfold instrsToCSharp
  rw [hr]
  simp only [finish, h]
  rfl

theorem c1_add_scenario_witness :
    instrsToCSharp (addBody "get_local" "get_local" "i32.add" "end") sigAdd
      = .ok (["dynamic stack0 = local0;", "dynamic stack1 = local1;", "return stack0;"], none) :=
  c1_add_scenario "get_local" "get_local" "i32.add" "end" sigAdd rfl

/-- C2: when the loop over the instructions ends with an empty live stack and
the signature declares exactly one return value, `instrsToCSharp` returns a
body with a nil error, the last statement of the body is
`throw new Exception("not reached");`, and no statement of the body is a
return statement. -/
theorem c2_empty_stack_emits_throw (instrs : List Instr) (sig : FunctionSig) (st : TransState)
    (hsig : sig.ReturnTypes.length = 1) (hrun : run TransState.init instrs = .ok st)
    (hempty : st.idxStack = []) :
    ∃ body, instrsToCSharp instrs sig = .ok (body, none)
      ∧ body.getLast? = some throwStmt
      ∧ ∀ s ∈ body, isReturnStmt s = false := by
  refine ⟨st.body ++ [throwStmt], ?_, by simp, ?_⟩
  · unfold instrsToCSharp
    rw [hrun]
    simp [finish, hsig, hempty]
  · intro s hs
    rcases List.mem_append.1 hs with hs | hs
    · exact run_noReturn hrun (by simp [TransState.init]) s hs
    · rw [List.mem_singleton.1 hs]
      exact notReturn_throw

theorem c2_empty_stack_emits_throw_witness :
    ∃ body, instrsToCSharp [mkInstr .GetLocal "get_local" [0], mkInstr .Drop "drop" []] sigAdd
        = .ok (body, none)
      ∧ body.getLast? = some throwStmt
      ∧ ∀ s ∈ body, isReturnStmt s = false :=
  c2_empty_stack_emits_throw [mkInstr .GetLocal "get_local" [0], mkInstr .Drop "drop" []] sigAdd
    ⟨["dynamic stack0 = local0;"], 1, []⟩ rfl rfl rfl

/-- C3, failing input: after `get_local 0; if; end; get_local 1; end` the live
stack is `[0, 1]`, its top is slot 1, and with one declared return value the
statement emitted last is `return stack0;`, which names the bottom slot
(`idxStack[0]`) and not the top one. -/
theorem c3_returns_bottom_slot :
    run TransState.init twoLiveBody
        = .ok ⟨["dynamic stack0 = local0;", "dynamic stack1 = local1;"], 2, [0, 1]⟩
      ∧ topOf [0, 1] = .ok 1
      ∧ instrsToCSharp twoLiveBody sigAdd
        = .ok (["dynamic stack0 = local0;", "dynamic stack1 = local1;", "return stack0;"], none)
      ∧ returnStmt 1 = "return stack1;" :=
  ⟨rfl, rfl, rfl, rfl⟩

/-- C4, as stated, fails: a lone `drop`, `set_local`, `select` or `i32.store`
on the empty live stack makes the translator panic (slice bounds or index out
of range) instead of returning, and so does `call 0; drop; end`, where the
value the call leaves is not tracked. -/
theorem c4_underflow_panics :
    instrsToCSharp [mkInstr .Drop "drop" []] sigAdd = .error .sliceBounds
      ∧ instrsToCSharp [mkInstr .SetLocal "set_local" [0]] sigAdd = .error .indexRange
      ∧ instrsToCSharp [mkInstr .Select "select" []] sigAdd = .error .sliceBounds
      ∧ instrsToCSharp [mkInstr .I32Store "i32.store" [2, 0]] sigAdd = .error .sliceBounds
      ∧ instrsToCSharp [mkInstr .Call "call" [0], mkInstr .Drop "drop" [], mkInstr .End "end" []]
          sigAdd = .error .sliceBounds :=
  ⟨rfl, rfl, rfl, rfl, rfl⟩

/-- C4, amended: for every instruction list and every signature,
`instrsToCSharp` returns a pair (statements, nil error) exactly when no
instruction reads or removes more slots than are live when it is reached and
every instruction whose case reads `Immediates[0]` has an immediate
(`fitsFrom 0`); on every other list it panics.  It never returns a non-nil
error. -/
theorem c4_returns_iff_fits (instrs : List Instr) (sig : FunctionSig) :
    ((∃ body, instrsToCSharp instrs sig = .ok (body, none)) ↔ fitsFrom 0 instrs = true)
      ∧ ((∃ e, instrsToCSharp instrs sig = .error e) ↔ fitsFrom 0 instrs = false)
      ∧ ∀ r, instrsToCSharp instrs sig = .ok r → r.2 = none := by
  have hfin : ∀ st : TransState, ∃ body, finish st sig = .ok (body, none) := by
    intro st
    unfold finish
    split
    · exact ⟨_, rfl⟩
    · split
      · exact ⟨_, rfl⟩
      · rename_i hne
        cases hst : st.idxStack with
        | nil => simp [hst] at hne
        | cons a l => exact ⟨_, rfl⟩
    · exact ⟨_, rfl⟩
  have hiff := run_ok_iff instrs TransState.init
  simp only [TransState.init, List.length_nil] at hiff
  unfold instrsToCSharp
  cases hr : run TransState.init instrs with
  | error e =>
    have hn : ¬ ∃ st1, run TransState.init instrs = .ok st1 := by simp [hr]
    have hf : fitsFrom 0 instrs = false := by
      cases hb : fitsFrom 0 instrs with
      | false => rfl
      | true => exact absurd (hiff.2 hb) hn
    simp [hf]
  | ok st =>
    have hf : fitsFrom 0 instrs = true := hiff.1 ⟨st, hr⟩
    obtain ⟨body, hb⟩ := hfin st
    simp [hf, hb]

/-! ### Lemmas on the bit primitives -/

theorem bitAt_add (x a i : Nat) : bitAt x (a + i) = bitAt (x / 2 ^ a) i := by
  unfold bitAt
  rw [Nat.pow_add, Nat.div_div_eq_div_mul]

theorem bitAt_mod (x w i : Nat) (h : i < w) : bitAt (x % 2 ^ w) i = bitAt x i := by
  unfold bitAt
  obtain ⟨d, rfl⟩ : ∃ d, w = i + (d + 1) := ⟨w - i - 1, by omega⟩
  rw [Nat.pow_add, Nat.mod_mul_right_div_self]
  exact Nat.mod_mod_of_dvd _ (Dvd.intro_left (2 ^ d) (by rw [Nat.pow_succ]))

theorem refOnesCount_add (a b x : Nat) :
    refOnesCount (a + b) x = refOnesCount a x + refOnesCount b (x / 2 ^ a) := by
  unfold refOnesCount
  rw [List.range_add, List.map_append, List.sum_append, List.map_map]
  congr 2
  apply List.map_congr_left
  intro i _
  exact bitAt_add x a i

theorem refOnesCount_mod (w x : Nat) : refOnesCount w (x % 2 ^ w) = refOnesCount w x := by
  unfold refOnesCount
  congr 1
  apply List.map_congr_left
  intro i hi
  exact bitAt_mod x w i (List.mem_range.1 hi)

/-- Splitting off the low byte of a reference count. -/
theorem refOnesCount_byte (n x : Nat) :
    refOnesCount (8 + n) x = refOnesCount 8 (x % 256) + refOnesCount n (x / 256) := by
  rw [refOnesCount_add]
  have h : x % 256 = x % 2 ^ 8 := rfl
  rw [h, refOnesCount_mod]
  rfl

theorem pop8tab_spec : ∀ b < 256, Bits.tabAt Bits.pop8tab b = some (refOnesCount 8 b) := by
  decide!

theorem and_ff (y : Nat) : y &&& 0xff = y % 256 := Nat.and_pow_two_sub_one_eq_mod y 8

theorem land_split (a c p q : Nat) (hp : p < 256) (hq : q < 256) :
    (256 * a + p) &&& (256 * c + q) = 256 * (a &&& c) + (p &&& q) := by
  have hp8 : p < 2 ^ 8 := hp
  have hq8 : q < 2 ^ 8 := hq
  have hpq : p &&& q < 2 ^ 8 := Nat.and_lt_two_pow p hq8
  apply Nat.eq_of_testBit_eq
  intro j
  rw [Nat.testBit_and, show (256 : Nat) = 2 ^ 8 from rfl, Nat.testBit_mul_pow_two_add a hp8,
    Nat.testBit_mul_pow_two_add c hq8, Nat.testBit_mul_pow_two_add _ hpq]
  split <;> simp [Nat.testBit_and]

theorem pair_low : ∀ e < 2, ∀ b < 256, (128 * e + b / 2) &&& 0x55 = (b / 2) &&& 0x55 := by
  decide!

theorem nib_low : ∀ e < 4, ∀ b < 256, (64 * e + b / 4) &&& 0x33 = (b / 4) &&& 0x33 := by
  decide!

theorem pairSum_split (M h b : Nat) (hb : b < 256) :
    pairSum (256 * M + 0x55) (256 * h + b) = 256 * pairSum M h + pairSum 0x55 b := by
  unfold pairSum
  have e : (256 * h + b) >>> 1 = 256 * (h >>> 1) + (128 * (h % 2) + b / 2) := by
    simp only [Nat.shiftRight_eq_div_pow]; omega
  rw [e, land_split _ _ _ _ (by omega) (by decide), land_split _ _ _ _ hb (by decide),
    pair_low (h % 2) (by omega) b hb]
  simp only [Nat.shiftRight_eq_div_pow]
  ring

theorem nibSum_split (M h b : Nat) (hb : b < 256) :
    nibSum (256 * M + 0x33) (256 * h + b) = 256 * nibSum M h + nibSum 0x33 b := by
  unfold nibSum
  have e : (256 * h + b) >>> 2 = 256 * (h >>> 2) + (64 * (h % 4) + b / 4) := by
    simp only [Nat.shiftRight_eq_div_pow]; omega
  rw [e, land_split _ _ _ _ (by omega) (by decide), land_split _ _ _ _ hb (by decide),
    nib_low (h % 4) (by omega) b hb]
  simp only [Nat.shiftRight_eq_div_pow]
  ring

theorem byteSum_split (M h b : Nat) (hlow : 16 * (h % 16) + b / 16 + b < 256) :
    byteSum (256 * M + 0x0f) (256 * h + b) = 256 * byteSum M h + byteSum 0x0f b := by
  unfold byteSum
  have e : (256 * h + b) >>> 4 + (256 * h + b)
      = 256 * (h >>> 4 + h) + (16 * (h % 16) + b / 16 + b) := by
    simp only [Nat.shiftRight_eq_div_pow]; omega
  rw [e, land_split _ _ _ _ hlow (by decide)]
  congr 1
  have k : ∀ y, y &&& 0x0f = y % 16 := fun y => Nat.and_pow_two_sub_one_eq_mod y 4
  rw [k, k]
  simp only [Nat.shiftRight_eq_div_pow]
  omega

/-- On one byte the three reductions give the bit count of the byte; the
intermediate values stay below 256 and have nibbles of at most 4. -/
theorem byte_facts : ∀ b < 256,
    pairSum 0x55 b < 256 ∧ nibSum 0x33 (pairSum 0x55 b) < 256
      ∧ nibSum 0x33 (pairSum 0x55 b) % 16 ≤ 4
      ∧ nibSum 0x33 (pairSum 0x55 b) / 16 + nibSum 0x33 (pairSum 0x55 b) ≤ 72
      ∧ byteSum 0x0f (nibSum 0x33 (pairSum 0x55 b)) = refOnesCount 8 b
      ∧ refOnesCount 8 b ≤ 8 := by
  decide!

theorem swar_bytes (n : Nat) : ∀ x, x < 256 ^ n →
    byteSum (repByte 0x0f n) (nibSum (repByte 0x33 n) (pairSum (repByte 0x55 n) x))
        = byteCounts n x
      ∧ nibSum (repByte 0x33 n) (pairSum (repByte 0x55 n) x) % 16 ≤ 4 := by
  induction n with
  | zero =>
    intro x hx
    have h0 : x = 0 := by simpa using hx
    subst h0
    simp [repByte, pairSum, nibSum, byteSum, byteCounts]
  | succ n ih =>
    intro x hx
    have hh : x / 256 < 256 ^ n := by
      rw [Nat.pow_succ] at hx
      exact Nat.div_lt_of_lt_mul (by rw [Nat.mul_comm]; exact hx)
    have hb : x % 256 < 256 := Nat.mod_lt _ (by decide)
    obtain ⟨ih1, ih2⟩ := ih (x / 256) hh
    obtain ⟨f1, f2, f3, f4, f5, -⟩ := byte_facts (x % 256) hb
    have hx' : x = 256 * (x / 256) + x % 256 := (Nat.div_add_mod x 256).symm
    have p1 : pairSum (repByte 0x55 (n + 1)) x
        = 256 * pairSum (repByte 0x55 n) (x / 256) + pairSum 0x55 (x % 256) := by
      conv_lhs => rw [hx']
      exact pairSum_split _ _ _ hb
    have p2 : nibSum (repByte 0x33 (n + 1)) (pairSum (repByte 0x55 (n + 1)) x)
        = 256 * nibSum (repByte 0x33 n) (pairSum (repByte 0x55 n) (x / 256))
          + nibSum 0x33 (pairSum 0x55 (x % 256)) := by
      rw [p1]
      exact nibSum_split _ _ _ f1
    constructor
    · rw [p2]
      show byteSum (256 * repByte 0x0f n + 0x0f) _ = _
      rw [byteSum_split _ _ _ (by omega), ih1, f5]
      rfl
    · rw [p2]
      omega

theorem bits32_toInt32 (n : Nat) : Bits.bits32 (Bits.toInt32 n) = n % 2 ^ 32 := by
  unfold Bits.bits32 Bits.toInt32
  split <;> omega

theorem toInt32_small (n : Nat) (h : n < 2 ^ 31) : Bits.toInt32 n = (n : Int) := by
  unfold Bits.toInt32
  have : n % 2 ^ 32 = n := Nat.mod_eq_of_lt (by omega)
  rw [this, if_pos h]

theorem byteCounts_eight (x : Nat) :
    ∃ c0 c1 c2 c3 c4 c5 c6 c7 : Nat,
      c0 ≤ 8 ∧ c1 ≤ 8 ∧ c2 ≤ 8 ∧ c3 ≤ 8 ∧ c4 ≤ 8 ∧ c5 ≤ 8 ∧ c6 ≤ 8 ∧ c7 ≤ 8
      ∧ byteCounts 8 x = 256 * (256 * (256 * (256 * (256 * (256 * (256 * (256 * 0 + c7) + c6)
          + c5) + c4) + c3) + c2) + c1) + c0
      ∧ refOnesCount 64 x = c0 + (c1 + (c2 + (c3 + (c4 + (c5 + (c6 + (c7 + refOnesCount 0
          (x / 256 / 256 / 256 / 256 / 256 / 256 / 256 / 256)))))))) := by
  have hb : ∀ y, refOnesCount 8 (y % 256) ≤ 8 := fun y =>
    (byte_facts (y % 256) (Nat.mod_lt _ (by decide))).2.2.2.2.2
  refine ⟨_, _, _, _, _, _, _, _, hb x, hb (x / 256), hb (x / 256 / 256),
    hb (x / 256 / 256 / 256), hb (x / 256 / 256 / 256 / 256),
    hb (x / 256 / 256 / 256 / 256 / 256), hb (x / 256 / 256 / 256 / 256 / 256 / 256),
    hb (x / 256 / 256 / 256 / 256 / 256 / 256 / 256), rfl, ?_⟩
  have e1 : refOnesCount 64 x = _ := refOnesCount_byte 56 x
  have e2 : refOnesCount 56 (x / 256) = _ := refOnesCount_byte 48 _
  have e3 : refOnesCount 48 (x / 256 / 256) = _ := refOnesCount_byte 40 _
  have e4 : refOnesCount 40 (x / 256 / 256 / 256) = _ := refOnesCount_byte 32 _
  have e5 : refOnesCount 32 (x / 256 / 256 / 256 / 256) = _ := refOnesCount_byte 24 _
  have e6 : refOnesCount 24 (x / 256 / 256 / 256 / 256 / 256) = _ := refOnesCount_byte 16 _
  have e7 : refOnesCount 16 (x / 256 / 256 / 256 / 256 / 256 / 256) = _ := refOnesCount_byte 8 _
  have e8 : refOnesCount 8 (x / 256 / 256 / 256 / 256 / 256 / 256 / 256) = _ :=
    refOnesCount_byte 0 _
  rw [e1, e2, e3, e4, e5, e6, e7]
  rw [e8]

theorem poly8_shift8 (d0 d1 d2 d3 d4 d5 d6 d7 : Nat) (b0 : d0 ≤ 64) :
    poly8 d0 d1 d2 d3 d4 d5 d6 d7 >>> 8 = poly8 d1 d2 d3 d4 d5 d6 d7 0 := by
  rw [Nat.shiftRight_eq_div_pow]
  unfold poly8
  omega

theorem poly8_shift16 (d0 d1 d2 d3 d4 d5 d6 d7 : Nat) (b0 : d0 ≤ 64) (b1 : d1 ≤ 64) :
    poly8 d0 d1 d2 d3 d4 d5 d6 d7 >>> 16 = poly8 d2 d3 d4 d5 d6 d7 0 0 := by
  rw [Nat.shiftRight_eq_div_pow]
  unfold poly8
  omega

theorem poly8_shift32 (d0 d1 d2 d3 d4 d5 d6 d7 : Nat) (b0 : d0 ≤ 64) (b1 : d1 ≤ 64)
    (b2 : d2 ≤ 64) (b3 : d3 ≤ 64) :
    poly8 d0 d1 d2 d3 d4 d5 d6 d7 >>> 32 = poly8 d4 d5 d6 d7 0 0 0 0 := by
  rw [Nat.shiftRight_eq_div_pow]
  unfold poly8
  omega

theorem poly8_add (a0 a1 a2 a3 a4 a5 a6 a7 d0 d1 d2 d3 d4 d5 d6 d7 : Nat) :
    poly8 a0 a1 a2 a3 a4 a5 a6 a7 + poly8 d0 d1 d2 d3 d4 d5 d6 d7
      = poly8 (a0 + d0) (a1 + d1) (a2 + d2) (a3 + d3) (a4 + d4) (a5 + d5) (a6 + d6) (a7 + d7) := by
  unfold poly8
  omega

theorem poly8_mod (d0 d1 d2 d3 d4 d5 d6 d7 : Nat) (b0 : d0 ≤ 64) (b1 : d1 ≤ 64)
    (b2 : d2 ≤ 64) (b3 : d3 ≤ 64) (b4 : d4 ≤ 64) (b5 : d5 ≤ 64) (b6 : d6 ≤ 64) (b7 : d7 ≤ 64) :
    poly8 d0 d1 d2 d3 d4 d5 d6 d7 % 2 ^ 64 = poly8 d0 d1 d2 d3 d4 d5 d6 d7 := by
  apply Nat.mod_eq_of_lt
  unfold poly8
  omega

theorem poly8_low (d0 d1 d2 d3 d4 d5 d6 d7 : Nat) (b0 : d0 ≤ 64) :
    poly8 d0 d1 d2 d3 d4 d5 d6 d7 % 2 ^ 32 % 2 ^ 7 = d0 := by
  unfold poly8
  omega

/-- The three shift-and-add steps and the final mask of `OnesCount(uint64_t)`
on a number whose bytes are at most 8: the low seven bits of the result are
the sum of the bytes. -/
theorem tail_sum (c0 c1 c2 c3 c4 c5 c6 c7 : Nat)
    (b0 : c0 ≤ 8) (b1 : c1 ≤ 8) (b2 : c2 ≤ 8) (b3 : c3 ≤ 8) (b4 : c4 ≤ 8) (b5 : c5 ≤ 8)
    (b6 : c6 ≤ 8) (b7 : c7 ≤ 8) (y x4 x5 x6 : Nat)
    (hy : y = poly8 c0 c1 c2 c3 c4 c5 c6 c7)
    (h4 : x4 = (y + y >>> 8) % 2 ^ 64) (h5 : x5 = (x4 + x4 >>> 16) % 2 ^ 64)
    (h6 : x6 = (x5 + x5 >>> 32) % 2 ^ 64) :
    x6 % 2 ^ 32 % 2 ^ 7 = c0 + (c1 + (c2 + (c3 + (c4 + (c5 + (c6 + c7)))))) := by
  subst hy
  rw [poly8_shift8 _ _ _ _ _ _ _ _ (by omega), poly8_add,
    poly8_mod _ _ _ _ _ _ _ _ (by omega) (by omega) (by omega) (by omega) (by omega) (by omega)
      (by omega) (by omega)] at h4
  subst h4
  rw [poly8_shift16 _ _ _ _ _ _ _ _ (by omega) (by omega), poly8_add,
    poly8_mod _ _ _ _ _ _ _ _ (by omega) (by omega) (by omega) (by omega) (by omega) (by omega)
      (by omega) (by omega)] at h5
  subst h5
  rw [poly8_shift32 _ _ _ _ _ _ _ _ (by omega) (by omega) (by omega) (by omega), poly8_add,
    poly8_mod _ _ _ _ _ _ _ _ (by omega) (by omega) (by omega) (by omega) (by omega) (by omega)
      (by omega) (by omega)] at h6
  subst h6
  rw [poly8_low _ _ _ _ _ _ _ _ (by omega)]
  omega

theorem len8tab_spec : ∀ i < 256, ∃ l < 9, Bits.tabAt Bits.len8tab i = some l
    ∧ (i = 0 → l = 0) ∧ (0 < i → 2 ^ (l - 1) ≤ i ∧ i < 2 ^ l) := by
  decide!

theorem len_core (x s i : Nat) (hi : i = x / 2 ^ s) (hlt : i < 256) (hs : 0 < s → 0 < i) :
    ∃ l : Nat, Bits.tabAt Bits.len8tab i = some l ∧ l ≤ 8 ∧ (x = 0 → s + l = 0)
      ∧ (0 < x → 2 ^ (s + l - 1) ≤ x ∧ x < 2 ^ (s + l)) := by
  obtain ⟨l, hl9, htab, hz, hp⟩ := len8tab_spec i hlt
  refine ⟨l, htab, by omega, ?_, ?_⟩
  · intro hx
    have hi0 : i = 0 := by rw [hi, hx]; simp
    have hs0 : s = 0 := by
      rcases Nat.eq_zero_or_pos s with h | h
      · exact h
      · have := hs h; omega
    rw [hs0, hz hi0]
  · intro hx
    have hipos : 0 < i := by
      rcases Nat.eq_zero_or_pos s with h | h
      · rw [hi, h]; simpa using hx
      · exact hs h
    obtain ⟨h1, h2⟩ := hp hipos
    have hlpos : 0 < l := by
      rcases Nat.eq_zero_or_pos l with h | h
      · rw [h] at h2; omega
      · exact h
    rw [hi] at h1 h2
    constructor
    · have e : s + l - 1 = (l - 1) + s := by omega
      rw [e, Nat.pow_add]
      exact (Nat.le_div_iff_mul_le (Nat.pos_pow_of_pos s (by decide))).1 h1
    · rw [Nat.add_comm, Nat.pow_add]
      exact (Nat.div_lt_iff_lt_mul (Nat.pos_pow_of_pos s (by decide))).1 h2

theorem lenScan32_spec (x : Nat) (hx : x < 2 ^ 32) :
    ∃ s : Nat, Bits.lenScan32 x = (x / 2 ^ s, (s : Int)) ∧ x / 2 ^ s < 256
      ∧ (0 < s → 0 < x / 2 ^ s) ∧ s ≤ 24 := by
  unfold Bits.lenScan32
  simp only [Nat.shiftRight_eq_div_pow, Nat.reduceShiftLeft, ge_iff_le]
  by_cases h1 : 65536 ≤ x
  · by_cases h2 : 256 ≤ x / 2 ^ 16
    · refine ⟨24, ?_, by omega, by omega, by omega⟩
      simp only [h1, h2, if_true, Nat.div_div_eq_div_mul]
      rfl
    · refine ⟨16, ?_, by omega, by omega, by omega⟩
      simp only [h1, h2, if_true, if_false]
      rfl
  · by_cases h2 : 256 ≤ x
    · refine ⟨8, ?_, by omega, by omega, by omega⟩
      simp only [h1, h2, if_true, if_false]
      rfl
    · refine ⟨0, ?_, by omega, by omega, by omega⟩
      simp only [h1, h2, if_false]
      simp

theorem lenScan64_spec (x : Nat) (hx : x < 2 ^ 64) :
    ∃ s : Nat, Bits.lenScan64 x = (x / 2 ^ s, (s : Int)) ∧ x / 2 ^ s < 256
      ∧ (0 < s → 0 < x / 2 ^ s) ∧ s ≤ 56 := by
  unfold Bits.lenScan64
  simp only [Nat.shiftRight_eq_div_pow, Nat.reduceShiftLeft, ge_iff_le]
  by_cases h1 : 4294967296 ≤ x
  · by_cases h2 : 65536 ≤ x / 2 ^ 32
    · by_cases h3 : 256 ≤ x / (2 ^ 32 * 2 ^ 16)
      · refine ⟨56, ?_, by omega, by omega, by omega⟩
        simp only [h1, h2, h3, if_true, Nat.div_div_eq_div_mul]
        rfl
      · refine ⟨48, ?_, by omega, by omega, by omega⟩
        simp only [h1, h2, h3, if_true, if_false, Nat.div_div_eq_div_mul]
        rfl
    · by_cases h3 : 256 ≤ x / 2 ^ 32
      · refine ⟨40, ?_, by omega, by omega, by omega⟩
        simp only [h1, h2, h3, if_true, if_false, Nat.div_div_eq_div_mul]
        rfl
      · refine ⟨32, ?_, by omega, by omega, by omega⟩
        simp only [h1, h2, h3, if_true, if_false]
        rfl
  · by_cases h2 : 65536 ≤ x
    · by_cases h3 : 256 ≤ x / 2 ^ 16
      · refine ⟨24, ?_, by omega, by omega, by omega⟩
        simp only [h1, h2, h3, if_true, if_false, Nat.div_div_eq_div_mul]
        rfl
      · refine ⟨16, ?_, by omega, by omega, by omega⟩
        simp only [h1, h2, h3, if_true, if_false]
        rfl
    · by_cases h3 : 256 ≤ x
      · refine ⟨8, ?_, by omega, by omega, by omega⟩
        simp only [h1, h2, h3, if_true, if_false]
        rfl
      · refine ⟨0, ?_, by omega, by omega, by omega⟩
        simp only [h1, h2, h3, if_false]
        simp

theorem land_split_pow (i a c p q : Nat) (hp : p < 2 ^ i) (hq : q < 2 ^ i) :
    (2 ^ i * a + p) &&& (2 ^ i * c + q) = 2 ^ i * (a &&& c) + (p &&& q) := by
  have hpq : p &&& q < 2 ^ i := Nat.and_lt_two_pow p hq
  apply Nat.eq_of_testBit_eq
  intro j
  rw [Nat.testBit_and, Nat.testBit_mul_pow_two_add a hp, Nat.testBit_mul_pow_two_add c hq,
    Nat.testBit_mul_pow_two_add _ hpq]
  split <;> simp [Nat.testBit_and]

theorem compl_land (m k : Nat) (hk : k < 2 ^ m) : k &&& (2 ^ m - 1 - k) = 0 := by
  apply Nat.eq_of_testBit_eq
  intro j
  have e : 2 ^ m - 1 - k = 2 ^ m - (k + 1) := by omega
  rw [Nat.testBit_and, e, Nat.testBit_two_pow_sub_succ hk]
  cases Nat.testBit k j <;> simp

/-- The lowest set bit: `x & -x` in `n`-bit unsigned arithmetic. -/
theorem isolate_low_bit (n t k : Nat) (hx : 2 ^ t * (2 * k + 1) < 2 ^ n) :
    (2 ^ t * (2 * k + 1)) &&& (2 ^ n - 2 ^ t * (2 * k + 1)) = 2 ^ t := by
  have htn : t < n := by
    by_contra hcon
    have h1 : 2 ^ n ≤ 2 ^ t := Nat.pow_le_pow_right (by decide) (by omega)
    have h2 : 2 ^ t ≤ 2 ^ t * (2 * k + 1) := Nat.le_mul_of_pos_right _ (by omega)
    omega
  obtain ⟨m, rfl⟩ : ∃ m, n = t + (m + 1) := ⟨n - t - 1, by omega⟩
  have hpos : 0 < 2 ^ t := Nat.pos_pow_of_pos t (by decide)
  have hk : 2 * k + 1 < 2 * 2 ^ m := by
    rw [Nat.pow_add, Nat.pow_succ] at hx
    have := Nat.lt_of_mul_lt_mul_left hx
    omega
  have e : 2 ^ (t + (m + 1)) - 2 ^ t * (2 * k + 1) = 2 ^ t * (2 * (2 ^ m - 1 - k) + 1) := by
    rw [Nat.pow_add, Nat.pow_succ, ← Nat.mul_sub]
    congr 1
    omega
  rw [e]
  have s1 := land_split_pow t (2 * k + 1) (2 * (2 ^ m - 1 - k) + 1) 0 0 hpos hpos
  simp only [Nat.add_zero, Nat.and_self] at s1
  rw [s1]
  have s2 := land_split_pow 1 k (2 ^ m - 1 - k) 1 1 (by decide) (by decide)
  simp only [Nat.pow_one, Nat.and_self] at s2
  rw [s2, compl_land m k (by omega)]
  simp

theorem deBruijn32_spec : ∀ t < 32,
    ((2 ^ t * Bits.deBruijn32) % 2 ^ 32) >>> (32 - 5) < 32
      ∧ Bits.tabAt Bits.deBruijn32tab (((2 ^ t * Bits.deBruijn32) % 2 ^ 32) >>> (32 - 5))
        = some t := by
  decide!

theorem deBruijn64_spec : ∀ t < 64,
    ((2 ^ t * Bits.deBruijn64) % 2 ^ 64) >>> (64 - 6) < 64
      ∧ Bits.tabAt Bits.deBruijn64tab (((2 ^ t * Bits.deBruijn64) % 2 ^ 64) >>> (64 - 6))
        = some t := by
  decide!

theorem odd_part (x : Nat) (hx : x ≠ 0) : ∃ t k, x = 2 ^ t * (2 * k + 1) := by
  obtain ⟨t, m, hm, rfl⟩ := Nat.exists_eq_two_pow_mul_odd hx
  obtain ⟨k, rfl⟩ := hm
  exact ⟨t, k, rfl⟩

theorem low_bit_index (t k : Nat) :
    2 ^ t ∣ 2 ^ t * (2 * k + 1) ∧ ¬ 2 ^ (t + 1) ∣ 2 ^ t * (2 * k + 1) := by
  refine ⟨Dvd.intro _ rfl, ?_⟩
  rw [Nat.pow_succ]
  intro h
  have h2 : 2 ∣ 2 * k + 1 := (Nat.mul_dvd_mul_iff_left (Nat.pos_pow_of_pos t (by decide))).1 h
  omega

theorem tailingZeros32_spec (x : Nat) (hx : x < 2 ^ 32) (h0 : x ≠ 0) :
    ∃ t : Nat, Bits.tzIndex32 x < 32 ∧ Bits.TailingZeros32 x = some (t : Int)
      ∧ 2 ^ t ∣ x ∧ ¬ 2 ^ (t + 1) ∣ x := by
  obtain ⟨t, k, rfl⟩ := odd_part x h0
  have ht : t < 32 := by
    by_contra hcon
    have h1 : 2 ^ 32 ≤ 2 ^ t := Nat.pow_le_pow_right (by decide) (by omega)
    have h2 : 2 ^ t ≤ 2 ^ t * (2 * k + 1) := Nat.le_mul_of_pos_right _ (by omega)
    omega
  have hneg : (2 ^ 32 - 2 ^ t * (2 * k + 1)) % 2 ^ 32 = 2 ^ 32 - 2 ^ t * (2 * k + 1) :=
    Nat.mod_eq_of_lt (by omega)
  have hidx : Bits.tzIndex32 (2 ^ t * (2 * k + 1))
      = ((2 ^ t * Bits.deBruijn32) % 2 ^ 32) >>> (32 - 5) := by
    unfold Bits.tzIndex32
    rw [hneg, isolate_low_bit 32 t k hx]
  obtain ⟨d1, d2⟩ := deBruijn32_spec t ht
  refine ⟨t, by rw [hidx]; exact d1, ?_, low_bit_index t k⟩
  unfold Bits.TailingZeros32
  rw [if_neg h0, hidx, d2]
  rfl

/-- The wrapping negation of `(int64_t)x` has the bit pattern `2 ^ 64 - x`,
for every nonzero `x`, the value `2 ^ 63` included. -/
theorem toUint64_neg (x : Nat) (hx : x < 2 ^ 64) (h0 : x ≠ 0) :
    ∃ m : Int, Bits.negInt64 .wraps (Bits.toInt64 x) = some m
      ∧ Bits.toUint64 m = 2 ^ 64 - x := by
  have hm : x % 2 ^ 64 = x := Nat.mod_eq_of_lt hx
  unfold Bits.negInt64 signedResult wrapInt Bits.toInt64 Bits.toUint64
  rw [hm]
  by_cases hlt : x < 2 ^ 63
  · rw [if_pos hlt, if_pos (by constructor <;> omega)]
    exact ⟨_, rfl, by omega⟩
  · rw [if_neg hlt]
    by_cases hmin : x = 2 ^ 63
    · subst hmin
      exact ⟨-(2 ^ 63), by decide, by decide⟩
    · rw [if_pos (by constructor <;> omega)]
      exact ⟨_, rfl, by omega⟩

/-- The negation of `(int64_t)x` fits, and is the same in both readings of a
signed overflow, for every `x` other than `2 ^ 63`. -/
theorem negInt64_fits (x : Nat) (hx : x < 2 ^ 64) (hmin : x ≠ 2 ^ 63) :
    Bits.negInt64 .undefined (Bits.toInt64 x) = Bits.negInt64 .wraps (Bits.toInt64 x) := by
  have hm : x % 2 ^ 64 = x := Nat.mod_eq_of_lt hx
  unfold Bits.negInt64 signedResult Bits.toInt64
  rw [hm]
  by_cases hlt : x < 2 ^ 63
  · rw [if_pos hlt, if_pos (by constructor <;> omega), if_pos (by constructor <;> omega)]
  · rw [if_neg hlt, if_pos (by constructor <;> omega), if_pos (by constructor <;> omega)]

theorem tailingZeros64_spec (x : Nat) (hx : x < 2 ^ 64) (h0 : x ≠ 0) :
    ∃ (t i : Nat), Bits.tzIndex64 .wraps x = some i ∧ i < 64
      ∧ Bits.TailingZeros64 .wraps x = some (t : Int) ∧ 2 ^ t ∣ x ∧ ¬ 2 ^ (t + 1) ∣ x := by
  obtain ⟨m, n1, n2⟩ := toUint64_neg x hx h0
  obtain ⟨t, k, rfl⟩ := odd_part x h0
  have ht : t < 64 := by
    by_contra hcon
    have h1 : 2 ^ 64 ≤ 2 ^ t := Nat.pow_le_pow_right (by decide) (by omega)
    have h2 : 2 ^ t ≤ 2 ^ t * (2 * k + 1) := Nat.le_mul_of_pos_right _ (by omega)
    omega
  have hidx : Bits.tzIndex64 .wraps (2 ^ t * (2 * k + 1))
      = some (((2 ^ t * Bits.deBruijn64) % 2 ^ 64) >>> (64 - 6)) := by
    unfold Bits.tzIndex64
    rw [n1, Option.map_some', n2, isolate_low_bit 64 t k hx]
  obtain ⟨d1, d2⟩ := deBruijn64_spec t ht
  refine ⟨t, _, hidx, d1, ?_, low_bit_index t k⟩
  unfold Bits.TailingZeros64
  rw [if_neg h0, hidx, Option.some_bind, d2]
  rfl

/-- Away from `2 ^ 63` the 64-bit function computes the same in both readings
of a signed overflow. -/
theorem tailingZeros64_fits (x : Nat) (hx : x < 2 ^ 64) (hmin : x ≠ 2 ^ 63) :
    Bits.tzIndex64 .undefined x = Bits.tzIndex64 .wraps x
      ∧ Bits.TailingZeros64 .undefined x = Bits.TailingZeros64 .wraps x := by
  have h : Bits.tzIndex64 .undefined x = Bits.tzIndex64 .wraps x := by
    unfold Bits.tzIndex64
    rw [negInt64_fits x hx hmin]
  refine ⟨h, ?_⟩
  unfold Bits.TailingZeros64
  rw [h]

theorem andInt32_low (k : Int) (j : Nat) (hj : j ≤ 6) :
    Bits.andInt32 k ((2 ^ j - 1 : Nat) : Int) = k % (2 ^ j : Nat) := by
  have hb : Bits.bits32 ((2 ^ j - 1 : Nat) : Int) = 2 ^ j - 1 := by
    interval_cases j <;> decide
  have hlt : Bits.bits32 k % 2 ^ j < 2 ^ 31 := by
    have h1 : Bits.bits32 k % 2 ^ j < 2 ^ j := Nat.mod_lt _ (Nat.pos_pow_of_pos j (by decide))
    have h2 : 2 ^ j ≤ 2 ^ 6 := Nat.pow_le_pow_right (by decide) hj
    omega
  unfold Bits.andInt32
  rw [hb, Nat.and_pow_two_sub_one_eq_mod, toInt32_small _ hlt]
  unfold Bits.bits32
  interval_cases j <;> omega

theorem rot_count32 (k : Int) : Bits.andInt32 k (32 - 1) = k % 32 := andInt32_low k 5 (by decide)

theorem rot_count64 (k : Int) : Bits.andInt32 k (64 - 1) = k % 64 := andInt32_low k 6 (by decide)

/-! ### Claims on the bit primitives -/

/-- C5: for every 32-bit `x`, `OnesCount(uint32_t)` reads `pop8tab` inside its
bounds and returns the reference bit-by-bit count of `x` over the bits
0..31; every entry `pop8tab[b]` is the bit-by-bit count of the byte `b`. -/
theorem c5_onesCount32 (x : Nat) (hx : x < 2 ^ 32) :
    Bits.OnesCount32 x = some (refOnesCount 32 x : Int)
      ∧ ∀ b < 256, Bits.tabAt Bits.pop8tab b = some (refOnesCount 8 b) := by
  refine ⟨?_, pop8tab_spec⟩
  have e1 : refOnesCount 32 x = refOnesCount 8 (x % 256) + refOnesCount 24 (x / 256) :=
    refOnesCount_byte 24 x
  have e2 : refOnesCount 24 (x / 256)
      = refOnesCount 8 (x / 256 % 256) + refOnesCount 16 (x / 256 / 256) :=
    refOnesCount_byte 16 (x / 256)
  have e3 : refOnesCount 16 (x / 256 / 256)
      = refOnesCount 8 (x / 256 / 256 % 256) + refOnesCount 8 (x / 256 / 256 / 256) :=
    refOnesCount_byte 8 (x / 256 / 256)
  have a1 : x >>> 24 = x / 256 / 256 / 256 := by
    rw [Nat.shiftRight_eq_div_pow]; omega
  have a2 : (x >>> 16) &&& 0xff = x / 256 / 256 % 256 := by
    rw [and_ff, Nat.shiftRight_eq_div_pow]; omega
  have a3 : (x >>> 8) &&& 0xff = x / 256 % 256 := by
    rw [and_ff, Nat.shiftRight_eq_div_pow]
  have a4 : x &&& 0xff = x % 256 := and_ff x
  have t1 := pop8tab_spec (x / 256 / 256 / 256) (by omega)
  have t2 := pop8tab_spec (x / 256 / 256 % 256) (by omega)
  have t3 := pop8tab_spec (x / 256 % 256) (by omega)
  have t4 := pop8tab_spec (x % 256) (by omega)
  unfold Bits.OnesCount32
  rw [a1, a2, a3, a4, t1, t2, t3, t4]
  simp only [Option.some_bind, Option.map_some']
  rw [e1, e2, e3]
  refine congrArg some ?_
  push_cast
  ring

theorem c5_onesCount32_witness :
    Bits.OnesCount32 0x80000001 = some (refOnesCount 32 0x80000001 : Int)
      ∧ ∀ b < 256, Bits.tabAt Bits.pop8tab b = some (refOnesCount 8 b) :=
  c5_onesCount32 0x80000001 (by decide)

/-- C6: for every 64-bit `x`, `OnesCount(uint64_t)` (the reduction with the
masks `m0`, `m1`, `m2`, the shifts by 8, 16 and 32 and the final `& 127`, every
sum taken modulo `2 ^ 64`) returns the reference bit-by-bit count of `x` over
the bits 0..63. -/
theorem c6_onesCount64 (x : Nat) (hx : x < 2 ^ 64) :
    Bits.OnesCount64 x = (refOnesCount 64 x : Int) := by
  have hm0 : (0x5555555555555555 &&& 0xffffffffffffffff : Nat) = repByte 0x55 8 := by decide
  have hm1 : (0x3333333333333333 &&& 0xffffffffffffffff : Nat) = repByte 0x33 8 := by decide
  have hm2 : (0x0f0f0f0f0f0f0f0f &&& 0xffffffffffffffff : Nat) = repByte 0x0f 8 := by decide
  have v0 : repByte 0x55 8 = 0x5555555555555555 := by decide
  have v1 : repByte 0x33 8 = 0x3333333333333333 := by decide
  have hP : pairSum (repByte 0x55 8) x < 2 ^ 64 := by
    have a := @Nat.and_le_right (x >>> 1) (repByte 0x55 8)
    have b := @Nat.and_le_right x (repByte 0x55 8)
    unfold pairSum
    omega
  have hN : nibSum (repByte 0x33 8) (pairSum (repByte 0x55 8) x) ≤ 0x6666666666666666 := by
    have a := @Nat.and_le_right (pairSum (repByte 0x55 8) x >>> 2) (repByte 0x33 8)
    have b := @Nat.and_le_right (pairSum (repByte 0x55 8) x) (repByte 0x33 8)
    unfold nibSum
    omega
  have hx1 : (((x >>> 1) &&& (0x5555555555555555 &&& 0xffffffffffffffff))
      + (x &&& (0x5555555555555555 &&& 0xffffffffffffffff))) % 2 ^ 64
      = pairSum (repByte 0x55 8) x := by
    rw [hm0]
    exact Nat.mod_eq_of_lt hP
  have hx2 : (((pairSum (repByte 0x55 8) x >>> 2) &&& (0x3333333333333333 &&& 0xffffffffffffffff))
      + (pairSum (repByte 0x55 8) x &&& (0x3333333333333333 &&& 0xffffffffffffffff))) % 2 ^ 64
      = nibSum (repByte 0x33 8) (pairSum (repByte 0x55 8) x) := by
    rw [hm1]
    exact Nat.mod_eq_of_lt (by unfold nibSum at hN; omega)
  have hx3 : (((nibSum (repByte 0x33 8) (pairSum (repByte 0x55 8) x) >>> 4)
      + nibSum (repByte 0x33 8) (pairSum (repByte 0x55 8) x)) % 2 ^ 64)
        &&& (0x0f0f0f0f0f0f0f0f &&& 0xffffffffffffffff)
      = byteCounts 8 x := by
    rw [hm2, Nat.mod_eq_of_lt]
    · exact (swar_bytes 8 x hx).1
    · simp only [Nat.shiftRight_eq_div_pow]
      omega
  obtain ⟨c0, c1, c2, c3, c4, c5, c6, c7, b0, b1, b2, b3, b4, b5, b6, b7, hbc, href⟩ :=
    byteCounts_eight x
  have r0 : ∀ y, refOnesCount 0 y = 0 := fun _ => rfl
  rw [r0] at href
  have hy : byteCounts 8 x = poly8 c0 c1 c2 c3 c4 c5 c6 c7 := by
    rw [hbc]
    unfold poly8
    omega
  have ht := tail_sum c0 c1 c2 c3 c4 c5 c6 c7 b0 b1 b2 b3 b4 b5 b6 b7 (byteCounts 8 x) _ _ _
    hy rfl rfl rfl
  unfold Bits.OnesCount64
  simp only [hx1, hx2, hx3]
  unfold Bits.andInt32
  rw [bits32_toInt32]
  have h127 : Bits.bits32 (((1 <<< 7 : Nat) - 1 : Nat) : Int) = 2 ^ 7 - 1 := by decide
  rw [h127, Nat.and_pow_two_sub_one_eq_mod, ht, toInt32_small _ (by omega), href]
  rfl

theorem c6_onesCount64_witness :
    Bits.OnesCount64 0x8000000000000001 = (refOnesCount 64 0x8000000000000001 : Int) :=
  c6_onesCount64 0x8000000000000001 (by decide)

/-- C7: for every 32-bit `x` and every 64-bit `y`, `Len` reads `len8tab` at an
index below 256 and returns the bit length (`Len(0) = 0`, and for a positive
argument `2 ^ (Len - 1) ≤ x < 2 ^ Len`), and `LeadingZeros + Len` is the
width, 32 or 64; so `LeadingZeros(0)` is the width. -/
theorem c7_len_leadingZeros (x y : Nat) (hx : x < 2 ^ 32) (hy : y < 2 ^ 64) :
    (∃ (l : Nat) (z : Int), (Bits.lenScan32 x).1 < 256 ∧ Bits.Len32 x = some (l : Int)
        ∧ (x = 0 → l = 0) ∧ (0 < x → 2 ^ (l - 1) ≤ x ∧ x < 2 ^ l)
        ∧ Bits.LeadingZeros32 x = some z ∧ z + l = 32)
      ∧ (∃ (l : Nat) (z : Int), (Bits.lenScan64 y).1 < 256 ∧ Bits.Len64 y = some (l : Int)
        ∧ (y = 0 → l = 0) ∧ (0 < y → 2 ^ (l - 1) ≤ y ∧ y < 2 ^ l)
        ∧ Bits.LeadingZeros64 y = some z ∧ z + l = 64)
      ∧ Bits.LeadingZeros32 0 = some 32 ∧ Bits.LeadingZeros64 0 = some 64 := by
  refine ⟨?_, ?_, by decide!, by decide!⟩
  · obtain ⟨s, hscan, hlt, hpos, -⟩ := lenScan32_spec x hx
    obtain ⟨l, htab, -, hz, hp⟩ := len_core x s _ rfl hlt hpos
    have hlen : Bits.Len32 x = some ((s + l : Nat) : Int) := by
      unfold Bits.Len32
      rw [hscan]
      simp [htab]
    refine ⟨s + l, 32 - ((s + l : Nat) : Int), ?_, hlen, hz, hp, ?_, by omega⟩
    · rw [hscan]; exact hlt
    · unfold Bits.LeadingZeros32
      rw [hlen]
      rfl
  · obtain ⟨s, hscan, hlt, hpos, -⟩ := lenScan64_spec y hy
    obtain ⟨l, htab, -, hz, hp⟩ := len_core y s _ rfl hlt hpos
    have hlen : Bits.Len64 y = some ((s + l : Nat) : Int) := by
      unfold Bits.Len64
      rw [hscan]
      simp [htab]
    refine ⟨s + l, 64 - ((s + l : Nat) : Int), ?_, hlen, hz, hp, ?_, by omega⟩
    · rw [hscan]; exact hlt
    · unfold Bits.LeadingZeros64
      rw [hlen]
      rfl

theorem c7_len_leadingZeros_witness :
    (∃ (l : Nat) (z : Int), (Bits.lenScan32 0x12345).1 < 256
        ∧ Bits.Len32 0x12345 = some (l : Int)
        ∧ (0x12345 = 0 → l = 0) ∧ (0 < 0x12345 → 2 ^ (l - 1) ≤ 0x12345 ∧ 0x12345 < 2 ^ l)
        ∧ Bits.LeadingZeros32 0x12345 = some z ∧ z + l = 32)
      ∧ (∃ (l : Nat) (z : Int), (Bits.lenScan64 0x10000000005).1 < 256
        ∧ Bits.Len64 0x10000000005 = some (l : Int)
        ∧ (0x10000000005 = 0 → l = 0)
        ∧ (0 < 0x10000000005 → 2 ^ (l - 1) ≤ 0x10000000005 ∧ 0x10000000005 < 2 ^ l)
        ∧ Bits.LeadingZeros64 0x10000000005 = some z ∧ z + l = 64)
      ∧ Bits.LeadingZeros32 0 = some 32 ∧ Bits.LeadingZeros64 0 = some 64 :=
  c7_len_leadingZeros 0x12345 0x10000000005 (by decide) (by decide)
/-- C8: `TailingZeros(0)` is the width.  For every nonzero 32-bit `x` and
every nonzero 64-bit `y` the table index is inside the table and
`TailingZeros` returns the index `t` of the lowest set bit (`2 ^ t` divides
the argument and `2 ^ (t + 1)` does not), the de Bruijn product being taken
modulo `2 ^ w`.  The 32-bit function negates the unsigned value.  The 64-bit
function negates `(int64_t)y`, which fits for every `y` other than `2 ^ 63`:
there the result, 63, is the one of the wrapping negation; the reading that
leaves a signed overflow undefined agrees for every other `y` and gives no
result for `2 ^ 63`. -/
theorem c8_tailingZeros (x y : Nat) (hx : x < 2 ^ 32) (hy : y < 2 ^ 64) :
    (Bits.TailingZeros32 0 = some 32 ∧ ∀ pol, Bits.TailingZeros64 pol 0 = some 64)
      ∧ (x ≠ 0 → ∃ t : Nat, Bits.tzIndex32 x < 32 ∧ Bits.TailingZeros32 x = some (t : Int)
          ∧ 2 ^ t ∣ x ∧ ¬ 2 ^ (t + 1) ∣ x)
      ∧ (y ≠ 0 → ∃ (t i : Nat), Bits.tzIndex64 .wraps y = some i ∧ i < 64
          ∧ Bits.TailingZeros64 .wraps y = some (t : Int) ∧ 2 ^ t ∣ y ∧ ¬ 2 ^ (t + 1) ∣ y)
      ∧ (y ≠ 2 ^ 63 → Bits.tzIndex64 .undefined y = Bits.tzIndex64 .wraps y
          ∧ Bits.TailingZeros64 .undefined y = Bits.TailingZeros64 .wraps y)
      ∧ (Bits.TailingZeros64 .wraps (2 ^ 63) = some 63
          ∧ Bits.negInt64 .undefined (Bits.toInt64 (2 ^ 63)) = none
          ∧ Bits.TailingZeros64 .undefined (2 ^ 63) = none) := by
  refine ⟨⟨rfl, fun _ => rfl⟩, tailingZeros32_spec x hx, tailingZeros64_spec y hy,
    tailingZeros64_fits y hy, by decide!, by decide, by decide!⟩

theorem c8_tailingZeros_witness :
    (Bits.TailingZeros32 0 = some 32 ∧ ∀ pol, Bits.TailingZeros64 pol 0 = some 64)
      ∧ (2 ^ 31 ≠ 0 → ∃ t : Nat, Bits.tzIndex32 (2 ^ 31) < 32
          ∧ Bits.TailingZeros32 (2 ^ 31) = some (t : Int)
          ∧ 2 ^ t ∣ 2 ^ 31 ∧ ¬ 2 ^ (t + 1) ∣ 2 ^ 31)
      ∧ (2 ^ 63 ≠ 0 → ∃ (t i : Nat), Bits.tzIndex64 .wraps (2 ^ 63) = some i ∧ i < 64
          ∧ Bits.TailingZeros64 .wraps (2 ^ 63) = some (t : Int)
          ∧ 2 ^ t ∣ 2 ^ 63 ∧ ¬ 2 ^ (t + 1) ∣ 2 ^ 63)
      ∧ (2 ^ 63 ≠ 2 ^ 63 → Bits.tzIndex64 .undefined (2 ^ 63) = Bits.tzIndex64 .wraps (2 ^ 63)
          ∧ Bits.TailingZeros64 .undefined (2 ^ 63) = Bits.TailingZeros64 .wraps (2 ^ 63))
      ∧ (Bits.TailingZeros64 .wraps (2 ^ 63) = some 63
          ∧ Bits.negInt64 .undefined (Bits.toInt64 (2 ^ 63)) = none
          ∧ Bits.TailingZeros64 .undefined (2 ^ 63) = none) :=
  c8_tailingZeros (2 ^ 31) (2 ^ 63) (by decide) (by decide)

/-- C9: for every `x` and every `k` (negative `k` included),
`RotateLeft(x, k)` and `RotateLeft(x, k mod w)` are the same computation, for
`w = 32` and for `w = 64`, `k mod w` being the remainder in `0 .. w-1`: the
shift count `k & (w - 1)` is `k mod w`.  When `k mod w` is not 0 the result is
defined and is `x << s | x >> (w - s)` with `s = k mod w`.  Both hold in
either reading of a shift by the width. -/
theorem c9_rotateLeft_mod (pol : WideShift) (x : Nat) (k : Int) :
    Bits.RotateLeft32 pol x k = Bits.RotateLeft32 pol x (k % 32)
      ∧ Bits.RotateLeft64 pol x k = Bits.RotateLeft64 pol x (k % 64)
      ∧ (k % 32 ≠ 0 → Bits.RotateLeft32 pol x k
          = some (((x <<< (k % 32).toNat) % 2 ^ 32) ||| (x >>> (32 - k % 32).toNat)))
      ∧ (k % 64 ≠ 0 → Bits.RotateLeft64 pol x k
          = some (((x <<< (k % 64).toNat) % 2 ^ 64) ||| (x >>> (64 - k % 64).toNat))) := by
  have h32 : 0 ≤ k % 32 ∧ k % 32 < 32 := by omega
  have h64 : 0 ≤ k % 64 ∧ k % 64 < 64 := by omega
  refine ⟨?_, ?_, ?_, ?_⟩
  · unfold Bits.RotateLeft32
    simp only [rot_count32, Int.emod_emod_of_dvd k (dvd_refl 32)]
  · unfold Bits.RotateLeft64
    simp only [rot_count64, Int.emod_emod_of_dvd k (dvd_refl 64)]
  · intro hne
    unfold Bits.RotateLeft32 Bits.shlU Bits.shrU
    simp only [rot_count32]
    rw [if_pos (by constructor <;> [exact h32.1; exact_mod_cast h32.2]),
      if_pos (by constructor <;> [omega; (push_cast; omega)])]
    rfl
  · intro hne
    unfold Bits.RotateLeft64 Bits.shlU Bits.shrU
    simp only [rot_count64]
    rw [if_pos (by constructor <;> [exact h64.1; exact_mod_cast h64.2]),
      if_pos (by constructor <;> [omega; (push_cast; omega)])]
    rfl

/-- C10: for every 32-bit `x` and every 64-bit `y`, `RotateLeft(x, 0)` has the
shift count `s = 0` and evaluates `x << 0 | x >> (w - 0)`, where `x << 0` is
`x` and the right shift is one by the full width `w`.  That shift gives `x`
when the count is read modulo the width, so `RotateLeft(x, 0)` is `x`; the
reading that leaves a shift by the width undefined gives it no result. -/
theorem c10_rotateLeft_zero (x y : Nat) (hx : x < 2 ^ 32) (hy : y < 2 ^ 64) :
    (Bits.andInt32 0 (32 - 1) = 0 ∧ Bits.andInt32 0 (64 - 1) = 0)
      ∧ (∀ pol, Bits.shlU pol 32 x 0 = some x ∧ Bits.shlU pol 64 y 0 = some y)
      ∧ (∀ pol, Bits.RotateLeft32 pol x 0 = (Bits.shrU pol 32 x (32 - 0)).map fun b => x ||| b)
      ∧ (∀ pol, Bits.RotateLeft64 pol y 0 = (Bits.shrU pol 64 y (64 - 0)).map fun b => y ||| b)
      ∧ (Bits.shrU .masks 32 x (32 - 0) = some x ∧ Bits.RotateLeft32 .masks x 0 = some x)
      ∧ (Bits.shrU .masks 64 y (64 - 0) = some y ∧ Bits.RotateLeft64 .masks y 0 = some y)
      ∧ (Bits.shrU .undefined 32 x (32 - 0) = none ∧ Bits.RotateLeft32 .undefined x 0 = none)
      ∧ (Bits.shrU .undefined 64 y (64 - 0) = none
          ∧ Bits.RotateLeft64 .undefined y 0 = none) := by
  have h0 : Bits.andInt32 0 (32 - 1) = 0 := by decide
  have h1 : Bits.andInt32 0 (64 - 1) = 0 := by decide
  have l32 : ∀ pol, Bits.shlU pol 32 x 0 = some x := by
    intro pol
    unfold Bits.shlU
    rw [if_pos (by decide)]
    simp only [Int.toNat_zero, Nat.shiftLeft_zero, Nat.mod_eq_of_lt hx]
  have l64 : ∀ pol, Bits.shlU pol 64 y 0 = some y := by
    intro pol
    unfold Bits.shlU
    rw [if_pos (by decide)]
    simp only [Int.toNat_zero, Nat.shiftLeft_zero, Nat.mod_eq_of_lt hy]
  have r32 : ∀ pol, Bits.RotateLeft32 pol x 0
      = (Bits.shrU pol 32 x (32 - 0)).map fun b => x ||| b := by
    intro pol
    unfold Bits.RotateLeft32
    simp only [h0, l32 pol, Option.some_bind]
  have r64 : ∀ pol, Bits.RotateLeft64 pol y 0
      = (Bits.shrU pol 64 y (64 - 0)).map fun b => y ||| b := by
    intro pol
    unfold Bits.RotateLeft64
    simp only [h1, l64 pol, Option.some_bind]
  have m32 : Bits.shrU .masks 32 x (32 - 0) = some x := by
    simp [Bits.shrU]
  have m64 : Bits.shrU .masks 64 y (64 - 0) = some y := by
    simp [Bits.shrU]
  have u32 : Bits.shrU .undefined 32 x (32 - 0) = none := by
    simp [Bits.shrU]
  have u64 : Bits.shrU .undefined 64 y (64 - 0) = none := by
    simp [Bits.shrU]
  refine ⟨⟨h0, h1⟩, fun pol => ⟨l32 pol, l64 pol⟩, r32, r64, ⟨m32, ?_⟩, ⟨m64, ?_⟩,
    ⟨u32, ?_⟩, ⟨u64, ?_⟩⟩
  · rw [r32, m32]
    simp
  · rw [r64, m64]
    simp
  · rw [r32, u32]
    rfl
  · rw [r64, u64]
    rfl

theorem c10_rotateLeft_zero_witness :
    (Bits.andInt32 0 (32 - 1) = 0 ∧ Bits.andInt32 0 (64 - 1) = 0)
      ∧ (∀ pol, Bits.shlU pol 32 5 0 = some 5 ∧ Bits.shlU pol 64 (2 ^ 63 + 1) 0 = some (2 ^ 63 + 1))
      ∧ (∀ pol, Bits.RotateLeft32 pol 5 0 = (Bits.shrU pol 32 5 (32 - 0)).map fun b => 5 ||| b)
      ∧ (∀ pol, Bits.RotateLeft64 pol (2 ^ 63 + 1) 0
          = (Bits.shrU pol 64 (2 ^ 63 + 1) (64 - 0)).map fun b => (2 ^ 63 + 1) ||| b)
      ∧ (Bits.shrU .masks 32 5 (32 - 0) = some 5 ∧ Bits.RotateLeft32 .masks 5 0 = some 5)
      ∧ (Bits.shrU .masks 64 (2 ^ 63 + 1) (64 - 0) = some (2 ^ 63 + 1)
          ∧ Bits.RotateLeft64 .masks (2 ^ 63 + 1) 0 = some (2 ^ 63 + 1))
      ∧ (Bits.shrU .undefined 32 5 (32 - 0) = none ∧ Bits.RotateLeft32 .undefined 5 0 = none)
      ∧ (Bits.shrU .undefined 64 (2 ^ 63 + 1) (64 - 0) = none
          ∧ Bits.RotateLeft64 .undefined (2 ^ 63 + 1) 0 = none) :=
  c10_rotateLeft_zero 5 (2 ^ 63 + 1) (by decide) (by decide)

/-! ### Lemmas on the linear memory -/

theorem getSize_of_pages (m : Mem) (p : Nat) (hsize : m.size_ = p * 65536) (hp : p < 2 ^ 31) :
    m.GetSize = (p : Int) := by
  unfold Mem.GetSize
  have hk : toSizeT kPageSize = 65536 := by decide
  rw [hk, hsize, Nat.mul_div_cancel _ (by decide : 0 < 65536)]
  exact toInt32_small p hp

theorem signedResult_fits (pol : Overflow) (w : Nat) (v : Int)
    (h : -(2 ^ (w - 1)) ≤ v ∧ v < 2 ^ (w - 1)) : signedResult pol w v = some v := by
  unfold signedResult
  rw [if_pos h]

/-- A call of `Grow` whose sum and product fit in an `int` sets the size to
`p + delta` pages and returns `p`, under both overflow policies. -/
theorem grow_in_range (pol : Overflow) (m : Mem) (p : Nat) (delta : Int)
    (hsize : m.size_ = p * 65536) (hp32 : p ≤ 32768) (h0 : 0 ≤ (p : Int) + delta)
    (h1 : (p : Int) + delta ≤ 32767) :
    Mem.Grow pol m delta
      = some ((p : Int), { m with size_ := ((p : Int) + delta).toNat * 65536 }) := by
  have hp : p < 2 ^ 31 := by omega
  have hg := getSize_of_pages m p hsize hp
  have hsum : signedResult pol 32 ((p : Int) + delta) = some ((p : Int) + delta) :=
    signedResult_fits pol 32 _ (by constructor <;> omega)
  have hprod : signedResult pol 32 (((p : Int) + delta) * kPageSize)
      = some (((p : Int) + delta) * kPageSize) :=
    signedResult_fits pol 32 _ (by unfold kPageSize; constructor <;> omega)
  have hsz : min (toSizeT (((p : Int) + delta) * kPageSize)) kMaxMemorySize
      = ((p : Int) + delta).toNat * 65536 := by
    unfold toSizeT kPageSize kMaxMemorySize
    omega
  unfold Mem.Grow
  simp only [hg, hsum, hprod, hsz]

/-- Whatever the memory and the argument, a call of `Grow` that has a result
leaves a size that is a whole number of pages and at most `kMaxMemorySize`. -/
theorem grow_size_invariant (pol : Overflow) (m : Mem) (delta : Int) (r : Int × Mem)
    (h : Mem.Grow pol m delta = some r) :
    65536 ∣ r.2.size_ ∧ r.2.size_ ≤ kMaxMemorySize := by
  simp only [Mem.Grow] at h
  cases hs : signedResult pol 32 (m.GetSize + delta) with
  | none => simp [hs] at h
  | some sum =>
    simp only [hs] at h
    cases hq : signedResult pol 32 (sum * kPageSize) with
    | none => simp [hq] at h
    | some prod =>
      simp only [hq, Option.some.injEq] at h
      subst h
      have hprod : (65536 : Int) ∣ prod ∧ -(2 ^ 31) ≤ prod ∧ prod < 2 ^ 31 := by
        unfold signedResult at hq
        split at hq
        · rename_i hfit
          simp only [Option.some.injEq] at hq
          subst hq
          exact ⟨Dvd.intro_left sum rfl, by simpa using hfit.1, by simpa using hfit.2⟩
        · cases pol with
          | undefined => simp at hq
          | wraps =>
            simp only [Option.some.injEq] at hq
            subst hq
            unfold wrapInt kPageSize
            refine ⟨?_, ?_, ?_⟩
            · split <;> omega
            · split <;> omega
            · split <;> omega
      obtain ⟨⟨c, hc⟩, hlo, hhi⟩ := hprod
      show 65536 ∣ min (toSizeT prod) kMaxMemorySize ∧ min (toSizeT prod) kMaxMemorySize ≤ kMaxMemorySize
      refine ⟨?_, Nat.min_le_right _ _⟩
      unfold toSizeT kMaxMemorySize
      omega

/-! ### Claims on the linear memory -/

/-- C11, failing input: on a memory of 1 page, `Grow(65535)` multiplies
`1 + 65535` by `kPageSize` as an `int`; the product `2 ^ 32` does not fit.
By the C++ rule the call has no defined result; where the product wraps it is
0, so the call returns 1 and leaves `GetSize() = 0`, not
`min(1 + 65535, 32768) = 32768`.  Already `Grow(32767)` overflows. -/
theorem c11_grow_product_overflows :
    (Mem.Grow .undefined (Mem.ofPages 1) 65535).isNone = true
      ∧ (Mem.Grow .wraps (Mem.ofPages 1) 65535).map (fun r => (r.1, r.2.GetSize, r.2.size_))
        = some (1, 0, 0)
      ∧ min (1 + 65535) 32768 = 32768
      ∧ (Mem.Grow .undefined (Mem.ofPages 1) 32767).isNone = true := by
  refine ⟨by decide, by decide, by decide, by decide⟩

/-- C12, failing input: the constructor generated for an initial page count of
32768 computes `32768 * kPageSize` as an `int`, which does not fit.  By the
C++ rule the construction has no defined result; where the product wraps,
`size_` is `2 ^ 64 - 2 ^ 31`, above `kMaxMemorySize`, and `GetSize()` is
-32768.  From one page `Grow(32767)` overflows in the same way. -/
theorem c12_constructor_overflows_at_ceiling :
    (Mem.new .undefined 32768 []).isNone = true
      ∧ (Mem.new .wraps 32768 []).map (fun m => (m.size_, decide (m.size_ ≤ kMaxMemorySize),
          m.GetSize)) = some (18446744071562067968, false, -32768)
      ∧ (Mem.Grow .undefined (Mem.ofPages 1) 32767).isNone = true := by
  refine ⟨by decide, by decide, by decide⟩

/-- C13, as stated, fails: on a memory of 5 pages `Grow(-1)` returns 5 and
leaves 4 pages, under both overflow policies (nothing overflows). -/
theorem c13_negative_delta_shrinks :
    (Mem.ofPages 5).GetSize = 5
      ∧ (Mem.Grow .undefined (Mem.ofPages 5) (-1)).map (fun r => (r.1, r.2.GetSize)) = some (5, 4)
      ∧ (Mem.Grow .wraps (Mem.ofPages 5) (-1)).map (fun r => (r.1, r.2.GetSize)) = some (5, 4) := by
  refine ⟨by decide, by decide, by decide⟩

/-- C13, amended: for every memory of `p ≤ 32768` whole pages and every
`delta ≥ 0` with `p + delta ≤ 32767` (the product `(p + delta) * kPageSize`
fits in an `int`), `Grow(delta)` returns `p` and `GetSize()` afterwards is
`p + delta`, which is at least `GetSize()` before. -/
theorem c13_grow_monotone_nonneg (pol : Overflow) (m : Mem) (p : Nat) (delta : Int)
    (hsize : m.size_ = p * 65536) (hp : p ≤ 32768) (hd : 0 ≤ delta)
    (hfit : (p : Int) + delta ≤ 32767) :
    ∃ m1, Mem.Grow pol m delta = some ((p : Int), m1) ∧ m1.GetSize = (p : Int) + delta
      ∧ m.GetSize ≤ m1.GetSize := by
  have hg := grow_in_range pol m p delta hsize hp (by omega) hfit
  have h1 : m.GetSize = (p : Int) := getSize_of_pages m p hsize (by omega)
  refine ⟨_, hg, ?_, ?_⟩
  · have h2 := getSize_of_pages { m with size_ := ((p : Int) + delta).toNat * 65536 }
      ((p : Int) + delta).toNat rfl (by omega)
    rw [h2]
    omega
  · have h2 := getSize_of_pages { m with size_ := ((p : Int) + delta).toNat * 65536 }
      ((p : Int) + delta).toNat rfl (by omega)
    rw [h1, h2]
    omega

theorem c13_grow_monotone_nonneg_witness :
    ∃ m1, Mem.Grow .undefined (Mem.ofPages 5) 7 = some (((5 : Nat) : Int), m1)
      ∧ m1.GetSize = ((5 : Nat) : Int) + 7 ∧ (Mem.ofPages 5).GetSize ≤ m1.GetSize :=
  c13_grow_monotone_nonneg .undefined (Mem.ofPages 5) 5 7 rfl (by decide) (by decide) (by decide)

theorem leBytes_succ (n v : Nat) :
    (List.range (n + 1)).map (fun i => (v / 256 ^ i) % 256)
      = (v % 256) :: (List.range n).map (fun i => (v / 256 / 256 ^ i) % 256) := by
  rw [List.range_succ_eq_map, List.map_cons, List.map_map]
  simp only [pow_zero, Nat.div_one, List.cons.injEq, true_and]
  apply List.map_congr_left
  intro i _
  simp only [Function.comp, Nat.succ_eq_add_one, Nat.pow_succ, Nat.div_div_eq_div_mul]
  rw [Nat.mul_comm]

theorem decode_le_encode (n v : Nat) :
    ((List.range n).map fun i => (v / 256 ^ i) % 256).foldr (fun b acc => b % 256 + 256 * acc) 0
      = v % 256 ^ n := by
  induction n generalizing v with
  | zero => simp [Nat.mod_one]
  | succ n ih =>
    rw [leBytes_succ, List.foldr_cons, ih, Nat.mod_mod, Nat.pow_succ, Nat.mul_comm (256 ^ n) 256,
      Nat.mod_mul]

theorem decode_encode (le : Bool) (n v : Nat) :
    decodeBytes le (encodeBytes le n v) = v % 256 ^ n := by
  unfold decodeBytes encodeBytes
  cases le
  · simp only [Bool.false_eq_true, if_false, List.reverse_reverse]
    exact decode_le_encode n v
  · simp only [if_true]
    exact decode_le_encode n v

theorem encodeBytes_length (le : Bool) (n v : Nat) : (encodeBytes le n v).length = n := by
  unfold encodeBytes
  cases le <;> simp

theorem range_map_getD (l : List Nat) (n : Nat) (h : l.length = n) :
    (List.range n).map (fun i => l.getD i 0) = l := by
  apply List.ext_getElem
  · simp [h]
  · intro i h1 h2
    simp only [List.getElem_map, List.getElem_range]
    rw [List.getD_eq_getElem l 0 h2]

/-- Reading the `n` bytes at an address after writing `n` bytes there gives the
low `8 * n` bits that were written, in either byte order. -/
theorem read_write_bytes (le : Bool) (n : Nat) (m : Mem) (addr : Int) (u : Nat)
    (h0 : 0 ≤ addr) (h1 : addr + n ≤ kMaxMemorySize) :
    (m.writeBytes le n addr u).bind (fun m1 => m1.readBytes le n addr) = some (u % 256 ^ n) := by
  unfold Mem.writeBytes Mem.readBytes
  rw [if_pos ⟨h0, h1⟩, Option.some_bind, if_pos ⟨h0, h1⟩]
  congr 1
  rw [← decode_encode le n u]
  congr 1
  rw [← range_map_getD (encodeBytes le n u) n (encodeBytes_length le n u)]
  apply List.map_congr_left
  intro i hi
  have hi' : i < n := List.mem_range.1 hi
  simp only
  rw [if_pos ⟨by omega, by omega⟩, Nat.add_sub_cancel_left]
  rw [range_map_getD (encodeBytes le n u) n (encodeBytes_length le n u)]

/-- An access through a pointer to an `n`-byte integer is the access to the
`n` bytes when the address is a multiple of `n` or a misaligned access is
permitted. -/
theorem bits_of_aligned (al : Misaligned) (le : Bool) (n : Nat) (m : Mem) (addr : Int) (u : Nat)
    (h : al = .permitted ∨ addr % n = 0) :
    m.loadBits al le n addr = m.readBytes le n addr
      ∧ m.storeBits al le n addr u = m.writeBytes le n addr u := by
  unfold Mem.loadBits Mem.storeBits
  by_cases ha : addr % n = 0
  · rw [if_pos ha, if_pos ha]
    exact ⟨rfl, rfl⟩
  · rw [if_neg ha, if_neg ha]
    rcases h with h | h
    · subst h
      exact ⟨rfl, rfl⟩
    · exact absurd h ha

/-- In the reading that leaves a misaligned access undefined, an access
through a pointer to an `n`-byte integer at an address that is not a multiple
of `n` has no result. -/
theorem bits_of_misaligned (le : Bool) (n : Nat) (m : Mem) (addr : Int) (u : Nat)
    (h : addr % n ≠ 0) :
    m.loadBits .undefined le n addr = none ∧ m.storeBits .undefined le n addr u = none := by
  unfold Mem.loadBits Mem.storeBits
  rw [if_neg h, if_neg h]
  exact ⟨rfl, rfl⟩

/-- The round trip of an `n`-byte integer through its pointer type. -/
theorem load_store_bits (al : Misaligned) (le : Bool) (n : Nat) (m : Mem) (addr : Int) (u : Nat)
    (h0 : 0 ≤ addr) (h1 : addr + n ≤ kMaxMemorySize) (h : al = .permitted ∨ addr % n = 0) :
    (m.storeBits al le n addr u).bind (fun m1 => m1.loadBits al le n addr)
      = some (u % 256 ^ n) := by
  rw [(bits_of_aligned al le n m addr u h).2, ← read_write_bytes le n m addr u h0 h1]
  congr 1
  funext m1
  exact (bits_of_aligned al le n m1 addr u h).1

/-- A load of a signed value after a store. -/
theorem signed_after_store (n : Nat) (u : Nat) (x : Option Mem) (f : Mem → Option Nat)
    (hx : x.bind f = some (u % 256 ^ n)) :
    x.bind (fun m1 => (f m1).map (toSigned n)) = some (toSigned n (u % 256 ^ n)) := by
  cases x with
  | none => simp at hx
  | some m1 =>
    simp only [Option.some_bind] at hx ⊢
    rw [hx]
    rfl

theorem signed_roundtrip_8 (v : Int) (h : -(2 ^ 7) ≤ v ∧ v < 2 ^ 7) :
    toSigned 1 (toUnsigned 1 v % 256 ^ 1) = v := by
  unfold toSigned toUnsigned wrapInt
  norm_num
  split <;> omega

theorem signed_roundtrip_16 (v : Int) (h : -(2 ^ 15) ≤ v ∧ v < 2 ^ 15) :
    toSigned 2 (toUnsigned 2 v % 256 ^ 2) = v := by
  unfold toSigned toUnsigned wrapInt
  norm_num
  split <;> omega

theorem signed_roundtrip_32 (v : Int) (h : -(2 ^ 31) ≤ v ∧ v < 2 ^ 31) :
    toSigned 4 (toUnsigned 4 v % 256 ^ 4) = v := by
  unfold toSigned toUnsigned wrapInt
  norm_num
  split <;> omega

theorem signed_roundtrip_64 (v : Int) (h : -(2 ^ 63) ≤ v ∧ v < 2 ^ 63) :
    toSigned 8 (toUnsigned 8 v % 256 ^ 8) = v := by
  unfold toSigned toUnsigned wrapInt
  norm_num
  split <;> omega

theorem unsigned_lt (n : Nat) (v : Int) : toUnsigned n v % 256 ^ n = toUnsigned n v := by
  apply Nat.mod_eq_of_lt
  unfold toUnsigned
  have h256 : (256 : Nat) ^ n = 2 ^ (8 * n) := by rw [Nat.pow_mul]
  rw [h256]
  have hpos : (0 : Int) < 2 ^ (8 * n) := by positivity
  have h1 := Int.emod_lt_of_pos v hpos
  have h2 := Int.emod_nonneg v (ne_of_gt hpos)
  zify
  rw [Int.toNat_of_nonneg h2]
  exact_mod_cast h1
/-- The round trip of the 8-bit functions, which read and write one byte. -/
theorem roundtrip8 (le : Bool) (m : Mem) (a v : Int)
    (h : 0 ≤ a ∧ a + 1 ≤ kMaxMemorySize) (r : -(2 ^ 7) ≤ v ∧ v < 2 ^ 7) :
    (m.StoreInt8 le a v).bind (fun m1 => m1.LoadInt8 le a) = some v
      ∧ (m.StoreInt8 le a v).bind (fun m1 => m1.LoadUint8 le a) = some (toUnsigned 1 v) := by
  have k := read_write_bytes le 1 m a (toUnsigned 1 v) h.1 (by exact_mod_cast h.2)
  constructor
  · have e := signed_after_store 1 (toUnsigned 1 v) (m.writeBytes le 1 a (toUnsigned 1 v))
      (fun m1 => m1.readBytes le 1 a) k
    rw [signed_roundtrip_8 v r] at e
    exact e
  · rw [← unsigned_lt 1 v]
    exact k

/-- The round trip of the 16-bit functions. -/
theorem roundtrip16 (al : Misaligned) (le : Bool) (m : Mem) (a v : Int)
    (h : 0 ≤ a ∧ a + 2 ≤ kMaxMemorySize) (r : -(2 ^ 15) ≤ v ∧ v < 2 ^ 15)
    (hal : al = .permitted ∨ a % 2 = 0) :
    (m.StoreInt16 al le a v).bind (fun m1 => m1.LoadInt16 al le a) = some v
      ∧ (m.StoreInt16 al le a v).bind (fun m1 => m1.LoadUint16 al le a)
        = some (toUnsigned 2 v) := by
  have k := load_store_bits al le 2 m a (toUnsigned 2 v) h.1 (by exact_mod_cast h.2)
    (by exact_mod_cast hal)
  constructor
  · have e := signed_after_store 2 (toUnsigned 2 v) (m.storeBits al le 2 a (toUnsigned 2 v))
      (fun m1 => m1.loadBits al le 2 a) k
    rw [signed_roundtrip_16 v r] at e
    exact e
  · rw [← unsigned_lt 2 v]
    exact k

/-- The round trip of the 32-bit functions. -/
theorem roundtrip32 (al : Misaligned) (le : Bool) (m : Mem) (a v : Int)
    (h : 0 ≤ a ∧ a + 4 ≤ kMaxMemorySize) (r : -(2 ^ 31) ≤ v ∧ v < 2 ^ 31)
    (hal : al = .permitted ∨ a % 4 = 0) :
    (m.StoreInt32 al le a v).bind (fun m1 => m1.LoadInt32 al le a) = some v
      ∧ (m.StoreInt32 al le a v).bind (fun m1 => m1.LoadUint32 al le a)
        = some (toUnsigned 4 v) := by
  have k := load_store_bits al le 4 m a (toUnsigned 4 v) h.1 (by exact_mod_cast h.2)
    (by exact_mod_cast hal)
  constructor
  · have e := signed_after_store 4 (toUnsigned 4 v) (m.storeBits al le 4 a (toUnsigned 4 v))
      (fun m1 => m1.loadBits al le 4 a) k
    rw [signed_roundtrip_32 v r] at e
    exact e
  · rw [← unsigned_lt 4 v]
    exact k

/-- The round trip of the 64-bit functions. -/
theorem roundtrip64 (al : Misaligned) (le : Bool) (m : Mem) (a v : Int)
    (h : 0 ≤ a ∧ a + 8 ≤ kMaxMemorySize) (r : -(2 ^ 63) ≤ v ∧ v < 2 ^ 63)
    (hal : al = .permitted ∨ a % 8 = 0) :
    (m.StoreInt64 al le a v).bind (fun m1 => m1.LoadInt64 al le a) = some v := by
  have k := load_store_bits al le 8 m a (toUnsigned 8 v) h.1 (by exact_mod_cast h.2)
    (by exact_mod_cast hal)
  have e := signed_after_store 8 (toUnsigned 8 v) (m.storeBits al le 8 a (toUnsigned 8 v))
    (fun m1 => m1.loadBits al le 8 a) k
  rw [signed_roundtrip_64 v r] at e
  exact e

/-- C14: in either byte order, for the widths 8, 16, 32 and 64, every address
whose bytes lie inside the region and every value of the width,
`StoreInt<n>` followed by `LoadInt<n>` at the same address returns the value,
and for the widths 8, 16 and 32 `LoadUint<n>` returns its bit pattern as an
unsigned number.  The 8-bit functions access one byte.  The wider functions
access the bytes through a pointer to the integer type: the round trip holds
at every address where a misaligned access is permitted, and at every address
that is a multiple of the size in the reading that leaves a misaligned access
undefined; in that reading a store or a load at another address has no
result. -/
theorem c14_store_load_roundtrip (le : Bool) (m : Mem) (a8 a16 a32 a64 v8 v16 v32 v64 : Int)
    (h8 : 0 ≤ a8 ∧ a8 + 1 ≤ kMaxMemorySize) (h16 : 0 ≤ a16 ∧ a16 + 2 ≤ kMaxMemorySize)
    (h32 : 0 ≤ a32 ∧ a32 + 4 ≤ kMaxMemorySize) (h64 : 0 ≤ a64 ∧ a64 + 8 ≤ kMaxMemorySize)
    (r8 : -(2 ^ 7) ≤ v8 ∧ v8 < 2 ^ 7) (r16 : -(2 ^ 15) ≤ v16 ∧ v16 < 2 ^ 15)
    (r32 : -(2 ^ 31) ≤ v32 ∧ v32 < 2 ^ 31) (r64 : -(2 ^ 63) ≤ v64 ∧ v64 < 2 ^ 63) :
    ((m.StoreInt8 le a8 v8).bind (fun m1 => m1.LoadInt8 le a8) = some v8
        ∧ (m.StoreInt8 le a8 v8).bind (fun m1 => m1.LoadUint8 le a8) = some (toUnsigned 1 v8))
      ∧ (((m.StoreInt16 .permitted le a16 v16).bind (fun m1 => m1.LoadInt16 .permitted le a16)
            = some v16
          ∧ (m.StoreInt16 .permitted le a16 v16).bind (fun m1 => m1.LoadUint16 .permitted le a16)
            = some (toUnsigned 2 v16))
        ∧ ((m.StoreInt32 .permitted le a32 v32).bind (fun m1 => m1.LoadInt32 .permitted le a32)
            = some v32
          ∧ (m.StoreInt32 .permitted le a32 v32).bind (fun m1 => m1.LoadUint32 .permitted le a32)
            = some (toUnsigned 4 v32))
        ∧ (m.StoreInt64 .permitted le a64 v64).bind (fun m1 => m1.LoadInt64 .permitted le a64)
            = some v64)
      ∧ ((a16 % 2 = 0 →
            (m.StoreInt16 .undefined le a16 v16).bind (fun m1 => m1.LoadInt16 .undefined le a16)
              = some v16
            ∧ (m.StoreInt16 .undefined le a16 v16).bind
                (fun m1 => m1.LoadUint16 .undefined le a16) = some (toUnsigned 2 v16))
        ∧ (a32 % 4 = 0 →
            (m.StoreInt32 .undefined le a32 v32).bind (fun m1 => m1.LoadInt32 .undefined le a32)
              = some v32
            ∧ (m.StoreInt32 .undefined le a32 v32).bind
                (fun m1 => m1.LoadUint32 .undefined le a32) = some (toUnsigned 4 v32))
        ∧ (a64 % 8 = 0 →
            (m.StoreInt64 .undefined le a64 v64).bind (fun m1 => m1.LoadInt64 .undefined le a64)
              = some v64))
      ∧ ((a16 % 2 ≠ 0 → m.StoreInt16 .undefined le a16 v16 = none
            ∧ m.LoadInt16 .undefined le a16 = none ∧ m.LoadUint16 .undefined le a16 = none)
        ∧ (a32 % 4 ≠ 0 → m.StoreInt32 .undefined le a32 v32 = none
            ∧ m.LoadInt32 .undefined le a32 = none ∧ m.LoadUint32 .undefined le a32 = none)
        ∧ (a64 % 8 ≠ 0 → m.StoreInt64 .undefined le a64 v64 = none
            ∧ m.LoadInt64 .undefined le a64 = none)) := by
  refine ⟨roundtrip8 le m a8 v8 h8 r8,
    ⟨roundtrip16 .permitted le m a16 v16 h16 r16 (Or.inl rfl),
      roundtrip32 .permitted le m a32 v32 h32 r32 (Or.inl rfl),
      roundtrip64 .permitted le m a64 v64 h64 r64 (Or.inl rfl)⟩,
    ⟨fun h => roundtrip16 .undefined le m a16 v16 h16 r16 (Or.inr h),
      fun h => roundtrip32 .undefined le m a32 v32 h32 r32 (Or.inr h),
      fun h => roundtrip64 .undefined le m a64 v64 h64 r64 (Or.inr h)⟩,
    ⟨fun h => ?_, fun h => ?_, fun h => ?_⟩⟩
  · have k := bits_of_misaligned le 2 m a16 (toUnsigned 2 v16) (by exact_mod_cast h)
    refine ⟨k.2, ?_, k.1⟩
    unfold Mem.LoadInt16
    rw [k.1]
    rfl
  · have k := bits_of_misaligned le 4 m a32 (toUnsigned 4 v32) (by exact_mod_cast h)
    refine ⟨k.2, ?_, k.1⟩
    unfold Mem.LoadInt32
    rw [k.1]
    rfl
  · have k := bits_of_misaligned le 8 m a64 (toUnsigned 8 v64) (by exact_mod_cast h)
    refine ⟨k.2, ?_⟩
    unfold Mem.LoadInt64
    rw [k.1]
    rfl

theorem c14_store_load_roundtrip_witness :
    (((Mem.ofPages 1).StoreInt8 true 0 (-2)).bind (fun m1 => m1.LoadInt8 true 0) = some (-2)
        ∧ ((Mem.ofPages 1).StoreInt8 true 0 (-2)).bind (fun m1 => m1.LoadUint8 true 0)
          = some (toUnsigned 1 (-2)))
      ∧ ((((Mem.ofPages 1).StoreInt16 .permitted true 3 (-300)).bind
              (fun m1 => m1.LoadInt16 .permitted true 3) = some (-300)
          ∧ ((Mem.ofPages 1).StoreInt16 .permitted true 3 (-300)).bind
              (fun m1 => m1.LoadUint16 .permitted true 3) = some (toUnsigned 2 (-300)))
        ∧ (((Mem.ofPages 1).StoreInt32 .permitted true 65532 70000).bind
              (fun m1 => m1.LoadInt32 .permitted true 65532) = some 70000
          ∧ ((Mem.ofPages 1).StoreInt32 .permitted true 65532 70000).bind
              (fun m1 => m1.LoadUint32 .permitted true 65532) = some (toUnsigned 4 70000))
        ∧ ((Mem.ofPages 1).StoreInt64 .permitted true 2147483640 (-1)).bind
            (fun m1 => m1.LoadInt64 .permitted true 2147483640) = some (-1))
      ∧ (((3 : Int) % 2 = 0 →
            ((Mem.ofPages 1).StoreInt16 .undefined true 3 (-300)).bind
                (fun m1 => m1.LoadInt16 .undefined true 3) = some (-300)
            ∧ ((Mem.ofPages 1).StoreInt16 .undefined true 3 (-300)).bind
                (fun m1 => m1.LoadUint16 .undefined true 3) = some (toUnsigned 2 (-300)))
        ∧ ((65532 : Int) % 4 = 0 →
            ((Mem.ofPages 1).StoreInt32 .undefined true 65532 70000).bind
                (fun m1 => m1.LoadInt32 .undefined true 65532) = some 70000
            ∧ ((Mem.ofPages 1).StoreInt32 .undefined true 65532 70000).bind
                (fun m1 => m1.LoadUint32 .undefined true 65532) = some (toUnsigned 4 70000))
        ∧ ((2147483640 : Int) % 8 = 0 →
            ((Mem.ofPages 1).StoreInt64 .undefined true 2147483640 (-1)).bind
                (fun m1 => m1.LoadInt64 .undefined true 2147483640) = some (-1)))
      ∧ (((3 : Int) % 2 ≠ 0 → (Mem.ofPages 1).StoreInt16 .undefined true 3 (-300) = none
            ∧ (Mem.ofPages 1).LoadInt16 .undefined true 3 = none
            ∧ (Mem.ofPages 1).LoadUint16 .undefined true 3 = none)
        ∧ ((65532 : Int) % 4 ≠ 0 → (Mem.ofPages 1).StoreInt32 .undefined true 65532 70000 = none
            ∧ (Mem.ofPages 1).LoadInt32 .undefined true 65532 = none
            ∧ (Mem.ofPages 1).LoadUint32 .undefined true 65532 = none)
        ∧ ((2147483640 : Int) % 8 ≠ 0 →
            (Mem.ofPages 1).StoreInt64 .undefined true 2147483640 (-1) = none
            ∧ (Mem.ofPages 1).LoadInt64 .undefined true 2147483640 = none)) :=
  c14_store_load_roundtrip true (Mem.ofPages 1) 0 3 65532 2147483640 (-2) (-300) 70000 (-1)
    (by decide) (by decide) (by decide) (by decide) (by decide) (by decide) (by decide) (by decide)

theorem foldl_flatten (data : List wasmData) (acc : List Nat) :
    data.foldl (fun flatten d => flatten ++ d.Data) acc = acc ++ flattenData data := by
  induction data generalizing acc with
  | nil => simp [flattenData]
  | cons d rest ih =>
    unfold flattenData
    simp only [List.foldl_cons, List.nil_append]
    rw [ih (acc ++ d.Data), ih d.Data, List.append_assoc]

theorem flattenData_cons (d : wasmData) (rest : List wasmData) :
    flattenData (d :: rest) = d.Data ++ flattenData rest := by
  have h := foldl_flatten rest d.Data
  unfold flattenData at h ⊢
  simpa using h

theorem initialDataInfo_cons (d : wasmData) (rest : List wasmData) :
    initialDataInfo (d :: rest) = ⟨d.Offset, (d.Data.length : Int)⟩ :: initialDataInfo rest := rfl

theorem copyLoop_cons (pol : Overflow) (initialData : List Nat) (info : WasmData)
    (rest : List WasmData) (bytes b1 : Nat → Nat) (so so1 : Int)
    (h1 : memcpyInit bytes initialData info.offset so info.length = some b1)
    (h2 : signedResult pol 32 (so + info.length) = some so1) :
    copyLoop pol initialData (info :: rest) bytes so = copyLoop pol initialData rest b1 so1 := by
  rw [copyLoop, h1, h2]

/-- The copy loop, started after a prefix `pre` of `initial_data_` with
`src_offset = pre.length`: it has a result, every byte of every remaining
segment is at its address, and the other addresses are unchanged. -/
theorem copyLoop_places (pol : Overflow) (initialData : List Nat) :
    ∀ (rest : List wasmData) (pre : List Nat) (bytes : Nat → Nat),
      initialData = pre ++ flattenData rest →
      initialData.length < 2 ^ 31 →
      (∀ d ∈ rest, 0 ≤ d.Offset ∧ d.Offset + d.Data.length ≤ kMaxMemorySize) →
      rest.Pairwise segmentsDisjoint →
      ∃ bytes1 so, copyLoop pol initialData (initialDataInfo rest) bytes pre.length
          = some (bytes1, so)
        ∧ (∀ d ∈ rest, ∀ j, j < d.Data.length → bytes1 (d.Offset.toNat + j) = d.Data.getD j 0)
        ∧ (∀ a, (∀ d ∈ rest, ¬ covers d a) → bytes1 a = bytes a) := by
  intro rest
  induction rest with
  | nil =>
    intro pre bytes _ _ _ _
    exact ⟨bytes, pre.length, rfl, by simp, fun _ _ => rfl⟩
  | cons d rest ih =>
    intro pre bytes hinit hlen hin hdis
    have hd := hin d (List.mem_cons_self _ _)
    rw [flattenData_cons, ← List.append_assoc] at hinit
    have hlen2 : (pre.length : Int) + d.Data.length ≤ initialData.length := by
      rw [hinit]
      simp only [List.length_append]
      push_cast
      omega
    obtain ⟨b1, hcpy, hb1⟩ : ∃ b1 : Nat → Nat,
        memcpyInit bytes initialData d.Offset pre.length d.Data.length = some b1
        ∧ ∀ a : Nat, b1 a = if d.Offset ≤ (a : Int) ∧ (a : Int) < d.Offset + d.Data.length then
            initialData.getD (a - d.Offset.toNat + (pre.length : Int).toNat) 0
          else bytes a := by
      unfold memcpyInit
      rw [if_pos ⟨by omega, hd.1, hd.2, by omega, hlen2⟩]
      exact ⟨_, rfl, fun _ => rfl⟩
    have hso : signedResult pol 32 ((pre.length : Int) + d.Data.length)
        = some (((pre ++ d.Data).length : Nat) : Int) := by
      rw [signedResult_fits pol 32 _ (by constructor <;> omega)]
      simp
    obtain ⟨bytes1, so, hloop, hplace, hrest⟩ :=
      ih (pre ++ d.Data) b1 hinit hlen (fun e he => hin e (List.mem_cons_of_mem _ he))
        (List.pairwise_cons.1 hdis).2
    refine ⟨bytes1, so, ?_, ?_, ?_⟩
    · rw [initialDataInfo_cons, copyLoop_cons pol initialData ⟨d.Offset, (d.Data.length : Int)⟩
        (initialDataInfo rest) bytes b1 (pre.length : Int) _ hcpy hso]
      exact hloop
    · intro e he j hj
      rcases List.mem_cons.1 he with rfl | he
      · have hnot : ∀ f ∈ rest, ¬ covers f (e.Offset.toNat + j) := by
          intro f hf hc
          have hdj := (List.pairwise_cons.1 hdis).1 f hf
          unfold segmentsDisjoint at hdj
          unfold covers at hc
          omega
        rw [hrest _ hnot, hb1, if_pos ⟨by omega, by omega⟩, hinit]
        have e1 : e.Offset.toNat + j - e.Offset.toNat + (pre.length : Int).toNat
            = pre.length + j := by omega
        rw [e1, List.getD_eq_getElem?_getD, List.getD_eq_getElem?_getD,
          List.getElem?_append_left (by simp; omega),
          List.getElem?_append_right (by omega)]
        simp
      · exact hplace e he j hj
    · intro a ha
      have h1 := hrest a (fun f hf => ha f (List.mem_cons_of_mem _ hf))
      have h2 := ha d (List.mem_cons_self _ _)
      unfold covers at h2
      rw [h1, hb1, if_neg h2]

/-- The constructor on an initial page count whose size fits in an `int`
(at most 32767 pages) and on segments that lie inside the region, do not
overlap and hold fewer than `2 ^ 31` bytes in all: every byte `data_i[j]` is at
address `offset_i + j`, every address outside the segments holds 0, and
`GetSize()` is the initial page count. -/
theorem initial_data_placed (pol : Overflow) (InitPageNum : Int) (data : List wasmData)
    (hp : 0 ≤ InitPageNum ∧ InitPageNum ≤ 32767)
    (hin : ∀ d ∈ data, 0 ≤ d.Offset ∧ d.Offset + d.Data.length ≤ kMaxMemorySize)
    (hdis : data.Pairwise segmentsDisjoint) (hlen : (flattenData data).length < 2 ^ 31) :
    ∃ m, Mem.new pol InitPageNum data = some m
      ∧ (∀ d ∈ data, ∀ j, j < d.Data.length → m.bytes_ (d.Offset.toNat + j) = d.Data.getD j 0)
      ∧ (∀ a, (∀ d ∈ data, ¬ covers d a) → m.bytes_ a = 0)
      ∧ m.GetSize = InitPageNum := by
  obtain ⟨bytes1, so, hloop, hplace, hrest⟩ :=
    copyLoop_places pol (flattenData data) data [] (fun _ => 0) (by simp) hlen hin hdis
  have hlit : (if InitPageNum < 2 ^ 31 then 32 else 64) = 32 := by
    rw [if_pos (by omega)]
  have hsz : signedResult pol 32 (InitPageNum * kPageSize) = some (InitPageNum * kPageSize) :=
    signedResult_fits pol 32 _ (by unfold kPageSize; constructor <;> omega)
  refine ⟨⟨bytes1, toSizeT (InitPageNum * kPageSize)⟩, ?_, hplace, hrest, ?_⟩
  · unfold Mem.new
    rw [hlit, hsz]
    simp only [List.length_nil, Nat.cast_zero] at hloop
    simp only [hloop]
  · have h1 : toSizeT (InitPageNum * kPageSize) = InitPageNum.toNat * 65536 := by
      unfold toSizeT kPageSize
      omega
    have h2 := getSize_of_pages ⟨bytes1, toSizeT (InitPageNum * kPageSize)⟩ InitPageNum.toNat h1
      (by omega)
    rw [h2]
    omega

/-- C15, failing input: for an initial page count of 32768 and the one segment
`(8, [104, 105])`, the constructor computes `32768 * kPageSize` as an `int`,
which does not fit.  By the C++ rule the construction has no defined result;
where the product wraps the two bytes are at the addresses 8 and 9, the
address 10 holds 0, and `GetSize()` is -32768, not 32768. -/
theorem c15_getSize_differs_from_initial_pages :
    (Mem.new .undefined 32768 [⟨8, [104, 105]⟩]).isNone = true
      ∧ (Mem.new .wraps 32768 [⟨8, [104, 105]⟩]).map
          (fun m => (m.bytes_ 8, m.bytes_ 9, m.bytes_ 10, m.GetSize))
        = some (104, 105, 0, -32768) := by
  refine ⟨by decide, by decide⟩

/-! ### Lemmas on the host emulation -/

namespace JS

theorem bind_def {α β : Type} (x : Host α) (f : α → Host β) : (x >>= f) = Host.bind x f := rfl

theorem pure_def {α : Type} (a : α) : (pure a : Host α) = Host.pure a := rfl

theorem pure_bind {α β : Type} (a : α) (f : α → Host β) : Host.bind (Host.pure a) f = f a := rfl

/-- Every call of `panic` adds its event to the trace, before anything else
it adds, and changes nothing but the trace and `std::cerr`. -/
theorem panic_trace (msg : String) (w : World) :
    ∃ rest, (panic msg w).2.trace = w.trace ++ Event.panic msg :: rest := by
  unfold panic
  simp only
  split
  · split
    · exact ⟨[], by simp⟩
    · split
      · split
        · rename_i fn _
          exact ⟨[Event.call fn Value.undefined [Value.ofString msg]], by simp⟩
        · exact ⟨[], by simp⟩
        · exact ⟨[], by simp⟩
      · exact ⟨[], by simp⟩
  · exact ⟨[], by simp⟩

theorem bind_world_of_pure {α β : Type} (x : Host α) (b : β) (w : World) :
    (Host.bind x (fun _ => Host.pure b) w).2 = (x w).2 := by
  unfold Host.bind
  rcases h : x w with ⟨r, w1⟩
  cases r <;> rfl

theorem faults_panic_then {β : Type} (msg : String) (b : β) (w : World) :
    faults (Host.bind (panic msg) (fun _ => Host.pure b)) w := by
  unfold faults
  rw [bind_world_of_pure]
  obtain ⟨rest, h⟩ := panic_trace msg w
  rw [h]
  exact ⟨msg, by simp⟩

theorem not_faults_pure {α : Type} (a : α) (w : World) : ¬ faults (Host.pure a) w := by
  unfold faults Host.pure
  simp

theorem toBool_ofBool (b : Bool) : (Double.ofBool b).toBool = b := by
  cases b <;> decide

theorem toBool_eq (env : Env) (v : Value) :
    Value.ToBool env v = if v.type_ ≠ .Bool then
        Host.bind (panic ("Value::ToBool: the type must be Type::Bool but not: " ++ env.inspect v))
          (fun _ => Host.pure v.num_value_.toBool)
      else Host.pure v.num_value_.toBool := by
  unfold Value.ToBool
  split <;> rfl

theorem toNumber_eq (env : Env) (v : Value) :
    Value.ToNumber env v = if v.type_ ≠ .Number then
        Host.bind
          (panic ("Value::ToNumber: the type must be Type::Number but not: " ++ env.inspect v))
          (fun _ => Host.pure v.num_value_)
      else Host.pure v.num_value_ := by
  unfold Value.ToNumber
  split <;> rfl

theorem toString_eq (env : Env) (v : Value) :
    Value.ToString env v = if v.type_ ≠ .String then
        Host.bind
          (panic ("Value::ToString: the type must be Type::String but not: " ++ env.inspect v))
          (fun _ => Host.pure v.str_value_)
      else Host.pure v.str_value_ := by
  unfold Value.ToString
  split <;> rfl

end JS

namespace JS

theorem reflectApply_function (env : Env) (w : World) (c : Nat) (fn : Func) (self : Value)
    (args : List Value) (hc : w.heap[c]? = some (.Function fn)) :
    Value.ReflectApply env (Value.ofObject (some c)) self args w
      = (.ok (env.result fn args),
          { w with trace := w.trace ++ [Event.call fn Value.undefined args] }) := by
  simp [Value.ReflectApply, Value.IsUndefined, Value.IsNull, Value.IsObject, Value.ofObject,
    Value.ToObject, bind, Host.bind, pure, Host.pure, Object.Invoke, hc, Object.IsConstructor]

theorem replyEnosys_function (env : Env) (w : World) (c : Nat) (fn : Func)
    (hc : w.heap[c]? = some (.Function fn)) :
    FS.replyEnosys env (Value.ofObject (some c)) w
      = (.ok (),
          { w with
            heap := w.heap ++ [.Enosys "write"],
            trace := w.trace
              ++ [Event.call fn Value.undefined [Value.ofObject (some w.heap.length)]] }) := by
  have hc2 : (w.heap ++ [Object.Enosys "write"])[c]? = some (.Function fn) := by
    have hlt : c < w.heap.length := by
      by_contra hcon
      rw [List.getElem?_eq_none (by omega)] at hc
      simp at hc
    rw [List.getElem?_append_left hlt]
    exact hc
  have h := reflectApply_function env { w with heap := w.heap ++ [.Enosys "write"] } c fn
    Value.undefined [Value.ofObject (some w.heap.length)] hc2
  unfold FS.replyEnosys
  simp only [bind, Host.bind, alloc, h, pure, Host.pure]

theorem writerLoop_total : ∀ (fuel : Nat) (out buf : List Nat), buf.length < fuel →
    ∃ r, writerLoop fuel out buf = some r := by
  intro fuel
  induction fuel with
  | zero => intro out buf h; omega
  | succ fuel ih =>
    intro out buf h
    unfold writerLoop
    have hs := List.span_eq_take_drop (fun c : Nat => c != 10) buf
    rcases hd : List.dropWhile (fun c : Nat => c != 10) buf with _ | ⟨c, rest⟩
    · rw [hs, hd]
      exact ⟨_, rfl⟩
    · rw [hs, hd]
      have hle := (List.dropWhile_suffix (fun c : Nat => c != 10) (l := buf)).length_le
      rw [hd] at hle
      simp only [List.length_cons] at hle
      exact ih _ rest (by omega)

theorem writer_total (out buf bytes : List Nat) : ∃ r, Writer.Write out buf bytes = some r :=
  writerLoop_total _ out (buf ++ bytes) (Nat.lt_succ_self _)

theorem index_six (a0 a1 a2 a3 a4 a5 : Value) :
    index [a0, a1, a2, a3, a4, a5] 0 = Host.pure a0
      ∧ index [a0, a1, a2, a3, a4, a5] 1 = Host.pure a1
      ∧ index [a0, a1, a2, a3, a4, a5] 2 = Host.pure a2
      ∧ index [a0, a1, a2, a3, a4, a5] 3 = Host.pure a3
      ∧ index [a0, a1, a2, a3, a4, a5] 4 = Host.pure a4
      ∧ index [a0, a1, a2, a3, a4, a5] 5 = Host.pure a5 :=
  ⟨rfl, rfl, rfl, rfl, rfl, rfl⟩

theorem toNumber_ofNumber (env : Env) (d : Double) :
    Value.ToNumber env (Value.ofNumber d) = Host.pure d := by
  rw [toNumber_eq]
  simp [Value.ofNumber]

theorem castInt_some (d : Double) (v : Int) (h : d.toInt = some v) : castInt d = Host.pure v := by
  unfold castInt
  rw [h]

/-- The start of `FS::Write` on well-typed arguments: the three numbers are
converted and the byte view of the buffer is taken, then the rest runs. -/
theorem fsWrite_unfold (env : Env) (w : World) (self bufV position callback : Value)
    (dfd doff dlen : Double) (fd off len : Int) (span : BytesSpan)
    (hfd : dfd.toInt = some fd) (hoff : doff.toInt = some off) (hlen : dlen.toInt = some len)
    (hbuf : Value.ToBytes env bufV w = (.ok span, w)) :
    FS.Write env self
        [Value.ofNumber dfd, bufV, Value.ofNumber doff, Value.ofNumber dlen, position, callback] w
      = (if off ≠ 0 ∨ toSizeT len ≠ span.size then
          Host.bind (FS.replyEnosys env callback) (fun _ => Host.pure Value.undefined)
        else if (!position.IsNull) = true then
          Host.bind (FS.replyEnosys env callback) (fun _ => Host.pure Value.undefined)
        else
          Host.bind
            (if fd = 1 then FS.writeStdout span
              else if fd = 2 then FS.writeStderr span
              else FS.replyEnosys env callback)
            (fun _ => Host.bind
              (Value.ReflectApply env callback Value.undefined
                [Value.Null, Value.ofNumber (Double.ofNat span.size)])
              (fun _ => Host.pure Value.undefined))) w := by
  obtain ⟨i0, i1, i2, i3, i4, i5⟩ :=
    index_six (Value.ofNumber dfd) bufV (Value.ofNumber doff) (Value.ofNumber dlen) position
      callback
  unfold FS.Write
  simp only [bind_def, pure_def, i0, i1, i2, i3, i4, i5, pure_bind, toNumber_ofNumber,
    castInt_some _ _ hfd, castInt_some _ _ hoff, castInt_some _ _ hlen]
  conv_lhs => unfold Host.bind
  rw [hbuf]
  simp only
  split
  · rfl
  · split
    · rfl
    · split
      · rfl
      · split <;> rfl

end JS

namespace JS

/-- `FS::Write` on a partial range or with a position that is not null, the
callback being a `Function`: an `Enosys("write")` object is made and the
callback is called once with it; nothing else changes. -/
theorem fsWrite_rejects (env : Env) (w : World) (self bufV position : Value)
    (dfd doff dlen : Double) (fd off len : Int) (span : BytesSpan) (c : Nat) (fn : Func)
    (hfd : dfd.toInt = some fd) (hoff : doff.toInt = some off) (hlen : dlen.toInt = some len)
    (hbuf : Value.ToBytes env bufV w = (.ok span, w))
    (hcond : off ≠ 0 ∨ toSizeT len ≠ span.size ∨ position.IsNull = false)
    (hc : w.heap[c]? = some (.Function fn)) :
    FS.Write env self
        [Value.ofNumber dfd, bufV, Value.ofNumber doff, Value.ofNumber dlen, position,
          Value.ofObject (some c)] w
      = (.ok Value.undefined,
          { w with
            heap := w.heap ++ [.Enosys "write"],
            trace := w.trace
              ++ [Event.call fn Value.undefined [Value.ofObject (some w.heap.length)]] }) := by
  rw [fsWrite_unfold env w self bufV position _ dfd doff dlen fd off len span hfd hoff hlen hbuf]
  have hr := replyEnosys_function env w c fn hc
  by_cases h1 : off ≠ 0 ∨ toSizeT len ≠ span.size
  · rw [if_pos h1]
    simp only [Host.bind, hr, Host.pure]
  · rw [if_neg h1]
    have h2 : position.IsNull = false := by
      rcases hcond with h | h | h
      · exact absurd (Or.inl h) h1
      · exact absurd (Or.inr h) h1
      · exact h
    simp only [h2, Bool.not_false, if_true, Host.bind, hr, Host.pure]

/-- `FS::Write` on the whole buffer, with a null position and a descriptor
other than 1 and 2, the callback being a `Function`: the callback is called
with an `Enosys("write")` object and then, after the `break` of the `default`
case, a second time with `Value::Null()` and the size. -/
theorem fsWrite_other_fd (env : Env) (w : World) (self bufV position : Value)
    (dfd doff dlen : Double) (fd len : Int) (span : BytesSpan) (c : Nat) (fn : Func)
    (hfd : dfd.toInt = some fd) (hoff : doff.toInt = some 0) (hlen : dlen.toInt = some len)
    (hbuf : Value.ToBytes env bufV w = (.ok span, w))
    (h1 : fd ≠ 1) (h2 : fd ≠ 2) (hsize : toSizeT len = span.size) (hpos : position.IsNull = true)
    (hc : w.heap[c]? = some (.Function fn)) :
    FS.Write env self
        [Value.ofNumber dfd, bufV, Value.ofNumber doff, Value.ofNumber dlen, position,
          Value.ofObject (some c)] w
      = (.ok Value.undefined,
          { w with
            heap := w.heap ++ [.Enosys "write"],
            trace := w.trace
              ++ [Event.call fn Value.undefined [Value.ofObject (some w.heap.length)],
                Event.call fn Value.undefined
                  [Value.Null, Value.ofNumber (Double.ofNat span.size)]] }) := by
  rw [fsWrite_unfold env w self bufV position _ dfd doff dlen fd 0 len span hfd hoff hlen hbuf]
  have hr := replyEnosys_function env w c fn hc
  have hc2 : (w.heap ++ [Object.Enosys "write"])[c]? = some (.Function fn) := by
    have hlt : c < w.heap.length := by
      by_contra hcon
      rw [List.getElem?_eq_none (by omega)] at hc
      simp at hc
    rw [List.getElem?_append_left hlt]
    exact hc
  have hr2 := reflectApply_function env
    { w with
      heap := w.heap ++ [.Enosys "write"],
      trace := w.trace ++ [Event.call fn Value.undefined [Value.ofObject (some w.heap.length)]] }
    c fn Value.undefined [Value.Null, Value.ofNumber (Double.ofNat span.size)] hc2
  simp only [ne_eq, not_true_eq_false, hsize, or_self, if_false, hpos, Bool.not_true,
    Bool.false_eq_true, h1, h2, Host.bind, hr, hr2, Host.pure]
  simp

theorem writer_one_line (out str : List Nat) (h : ∀ c ∈ str, c ≠ 10) :
    Writer.Write out [] (str ++ [10]) = some (out ++ str ++ [10], []) := by
  have hspan : List.span (fun c : Nat => c != 10) (str ++ [10]) = (str, [10]) := by
    rw [List.span_eq_take_drop]
    have ht : List.takeWhile (fun c : Nat => c != 10) (str ++ [10]) = str := by
      rw [List.takeWhile_append_of_pos (by simpa using h)]
      simp [List.takeWhile]
    have hd : List.dropWhile (fun c : Nat => c != 10) (str ++ [10]) = [10] := by
      rw [List.dropWhile_append_of_pos (by simpa using h)]
      simp [List.dropWhile]
    rw [ht, hd]
  unfold Writer.Write
  simp only [List.nil_append, List.length_append, List.length_singleton]
  rw [show str.length + 1 + 1 = (str.length + 1) + 1 from rfl, writerLoop, hspan]
  simp only
  rw [writerLoop]
  simp

end JS

/-! ### Claims on the host emulation -/

/-- C16: `FS::Write` with a descriptor 1 or 2, offset 0, a length equal to the
size of the buffer, a null position and a callback that is a `Function`:
the bytes of the whole buffer go through `Writer::Write` of the writer of the
descriptor (`stdout_` for 1, `stderr_` for 2), the other writer and the heap
are unchanged, and the callback is called exactly once, with the two
arguments `Value::Null()` and the number of the size of the buffer. -/
theorem c16_fsWrite_success (env : JS.Env) (w : JS.World)
    (self bufV position : JS.Value) (dfd doff dlen : JS.Double) (fd len : Int)
    (span : JS.BytesSpan) (bytes : List Nat) (c : Nat) (fn : JS.Func)
    (hfd : dfd.toInt = some fd) (hoff : doff.toInt = some 0) (hlen : dlen.toInt = some len)
    (hbuf : JS.Value.ToBytes env bufV w = (.ok span, w))
    (hbytes : JS.spanBytes w span = some bytes)
    (h12 : fd = 1 ∨ fd = 2) (hsize : toSizeT len = span.size) (hpos : position.IsNull = true)
    (hc : w.heap[c]? = some (.Function fn)) :
    ∃ out b,
      JS.Writer.Write (if fd = 1 then w.cout else w.cerr)
          (if fd = 1 then w.stdoutBuf else w.stderrBuf) bytes = some (out, b)
      ∧ JS.FS.Write env self
          [JS.Value.ofNumber dfd, bufV, JS.Value.ofNumber doff, JS.Value.ofNumber dlen, position,
            JS.Value.ofObject (some c)] w
        = (.ok JS.Value.undefined,
          if fd = 1 then
            { w with
              cout := out, stdoutBuf := b,
              trace := w.trace ++ [JS.Event.call fn JS.Value.undefined
                [JS.Value.Null, JS.Value.ofNumber (JS.Double.ofNat span.size)]] }
          else
            { w with
              cerr := out, stderrBuf := b,
              trace := w.trace ++ [JS.Event.call fn JS.Value.undefined
                [JS.Value.Null, JS.Value.ofNumber (JS.Double.ofNat span.size)]] }) := by
  rw [JS.fsWrite_unfold env w self bufV position _ dfd doff dlen fd 0 len span hfd hoff hlen hbuf]
  rcases h12 with h1 | h2
  · subst h1
    obtain ⟨⟨out, b⟩, hw⟩ := JS.writer_total w.cout w.stdoutBuf bytes
    refine ⟨out, b, by simpa using hw, ?_⟩
    have hr := JS.reflectApply_function env { w with cout := out, stdoutBuf := b } c fn
      JS.Value.undefined [JS.Value.Null, JS.Value.ofNumber (JS.Double.ofNat span.size)] hc
    simp only [ne_eq, not_true_eq_false, hsize, or_self, if_false, hpos, Bool.not_true,
      Bool.false_eq_true, if_true]
    simp only [JS.Host.bind, JS.FS.writeStdout, hbytes, hw, hr, JS.Host.pure]
  · subst h2
    obtain ⟨⟨out, b⟩, hw⟩ := JS.writer_total w.cerr w.stderrBuf bytes
    refine ⟨out, b, by simpa using hw, ?_⟩
    have hr := JS.reflectApply_function env { w with cerr := out, stderrBuf := b } c fn
      JS.Value.undefined [JS.Value.Null, JS.Value.ofNumber (JS.Double.ofNat span.size)] hc
    simp only [ne_eq, not_true_eq_false, hsize, or_self, if_false, hpos, Bool.not_true,
      Bool.false_eq_true, if_true]
    have h21 : ¬ ((2 : Int) = 1) := by decide
    simp only [h21, if_false, if_true, JS.Host.bind, JS.FS.writeStderr, hbytes, hw, hr,
      JS.Host.pure]

theorem c16_fsWrite_success_witness :
    ∃ out b,
      JS.Writer.Write
          (if (1 : Int) = 1 then JS.World.sample.cout else JS.World.sample.cerr)
          (if (1 : Int) = 1 then JS.World.sample.stdoutBuf else JS.World.sample.stderrBuf)
          [104, 105, 10] = some (out, b)
      ∧ JS.FS.Write JS.Env.plain JS.Value.undefined
          [JS.Value.ofNumber (JS.Double.ofNat 1), JS.Value.ofObject (some 3),
            JS.Value.ofNumber (JS.Double.ofNat 0), JS.Value.ofNumber (JS.Double.ofNat 3),
            JS.Value.Null, JS.Value.ofObject (some 2)] JS.World.sample
        = (.ok JS.Value.undefined,
          if (1 : Int) = 1 then
            { JS.World.sample with
              cout := out, stdoutBuf := b,
              trace := JS.World.sample.trace ++ [JS.Event.call (.foreign 7) JS.Value.undefined
                [JS.Value.Null,
                  JS.Value.ofNumber (JS.Double.ofNat (JS.BytesSpan.mk (some 1) 0 3).size)]] }
          else
            { JS.World.sample with
              cerr := out, stderrBuf := b,
              trace := JS.World.sample.trace ++ [JS.Event.call (.foreign 7) JS.Value.undefined
                [JS.Value.Null,
                  JS.Value.ofNumber (JS.Double.ofNat (JS.BytesSpan.mk (some 1) 0 3).size)]] }) :=
  c16_fsWrite_success JS.Env.plain JS.World.sample JS.Value.undefined (JS.Value.ofObject (some 3))
    JS.Value.Null (JS.Double.ofNat 1) (JS.Double.ofNat 0) (JS.Double.ofNat 3) 1 3
    ⟨some 1, 0, 3⟩ [104, 105, 10] 2 (.foreign 7)
    (by decide!) (by decide!) (by decide!) (by decide!) (by decide!) (Or.inl rfl) (by decide!)
    (by decide!) (by decide!)

/-- C17: `FS::Write` with an offset other than 0, or a length other than the
size of the buffer, or a position that is not null, and a callback that is a
`Function`: the two writers and the two streams are unchanged, the callback is
called exactly once, with the single argument the new `Enosys("write")`
object, and `Get("code")` of that object is the string `"ENOSYS"`,
`Get("message")` the string `"write not implemented"`. -/
theorem c17_fsWrite_partial_range_enosys (env : JS.Env) (w : JS.World)
    (self bufV position : JS.Value) (dfd doff dlen : JS.Double) (fd off len : Int)
    (span : JS.BytesSpan) (c : Nat) (fn : JS.Func)
    (hfd : dfd.toInt = some fd) (hoff : doff.toInt = some off) (hlen : dlen.toInt = some len)
    (hbuf : JS.Value.ToBytes env bufV w = (.ok span, w))
    (hcond : off ≠ 0 ∨ toSizeT len ≠ span.size ∨ position.IsNull = false)
    (hc : w.heap[c]? = some (.Function fn)) :
    ∃ w1 : JS.World,
      JS.FS.Write env self
          [JS.Value.ofNumber dfd, bufV, JS.Value.ofNumber doff, JS.Value.ofNumber dlen, position,
            JS.Value.ofObject (some c)] w = (.ok JS.Value.undefined, w1)
      ∧ w1.cout = w.cout ∧ w1.cerr = w.cerr
      ∧ w1.stdoutBuf = w.stdoutBuf ∧ w1.stderrBuf = w.stderrBuf
      ∧ w1.heap = w.heap ++ [.Enosys "write"]
      ∧ w1.trace = w.trace
          ++ [JS.Event.call fn JS.Value.undefined [JS.Value.ofObject (some w.heap.length)]]
      ∧ JS.Object.Get env w.heap.length "code" w1 = (.ok (JS.Value.ofString "ENOSYS"), w1)
      ∧ JS.Object.Get env w.heap.length "message" w1
          = (.ok (JS.Value.ofString "write not implemented"), w1) := by
  refine ⟨_, JS.fsWrite_rejects env w self bufV position dfd doff dlen fd off len span c fn
    hfd hoff hlen hbuf hcond hc, rfl, rfl, rfl, rfl, rfl, rfl, ?_, ?_⟩
  · simp [JS.Object.Get]
  · simp [JS.Object.Get]

theorem c17_fsWrite_partial_range_enosys_witness :
    ∃ w1 : JS.World,
      JS.FS.Write JS.Env.plain JS.Value.undefined
          [JS.Value.ofNumber (JS.Double.ofNat 1), JS.Value.ofObject (some 3),
            JS.Value.ofNumber (JS.Double.ofNat 1), JS.Value.ofNumber (JS.Double.ofNat 2),
            JS.Value.Null, JS.Value.ofObject (some 2)] JS.World.sample
        = (.ok JS.Value.undefined, w1)
      ∧ w1.cout = JS.World.sample.cout ∧ w1.cerr = JS.World.sample.cerr
      ∧ w1.stdoutBuf = JS.World.sample.stdoutBuf ∧ w1.stderrBuf = JS.World.sample.stderrBuf
      ∧ w1.heap = JS.World.sample.heap ++ [.Enosys "write"]
      ∧ w1.trace = JS.World.sample.trace
          ++ [JS.Event.call (.foreign 7) JS.Value.undefined
            [JS.Value.ofObject (some JS.World.sample.heap.length)]]
      ∧ JS.Object.Get JS.Env.plain JS.World.sample.heap.length "code" w1
          = (.ok (JS.Value.ofString "ENOSYS"), w1)
      ∧ JS.Object.Get JS.Env.plain JS.World.sample.heap.length "message" w1
          = (.ok (JS.Value.ofString "write not implemented"), w1) :=
  c17_fsWrite_partial_range_enosys JS.Env.plain JS.World.sample JS.Value.undefined
    (JS.Value.ofObject (some 3)) JS.Value.Null (JS.Double.ofNat 1) (JS.Double.ofNat 1)
    (JS.Double.ofNat 2) 1 1 2 ⟨some 1, 0, 3⟩ 2 (.foreign 7)
    (by decide!) (by decide!) (by decide!) (by decide!) (Or.inl (by decide)) (by decide!)

/-- C18: `FS::Write` with the descriptor 3, the 3-byte buffer, offset 0,
length 3, a null position and a `Function` callback calls the callback twice:
first with the `Enosys("write")` object, then with `Value::Null()` and the
number 3; the `default` case of the `switch` ends in `break`, so the success
callback after the `switch` is reached. -/
theorem c18_unsupported_fd_calls_back_twice :
    JS.FS.Write JS.Env.plain JS.Value.undefined
        [JS.Value.ofNat 3, JS.Value.ofObject (some 3), JS.Value.ofNat 0, JS.Value.ofNat 3,
          JS.Value.Null, JS.Value.ofObject (some 2)] JS.World.sample
      = (.ok JS.Value.undefined,
        { JS.World.sample with
          heap := JS.World.sample.heap ++ [.Enosys "write"],
          trace :=
            [JS.Event.call (.foreign 7) JS.Value.undefined [JS.Value.ofObject (some 4)],
              JS.Event.call (.foreign 7) JS.Value.undefined
                [JS.Value.Null, JS.Value.ofNat 3]] }) :=
  JS.fsWrite_other_fd JS.Env.plain JS.World.sample JS.Value.undefined
    (JS.Value.ofObject (some 3)) JS.Value.Null (JS.Double.ofNat 3) (JS.Double.ofNat 0)
    (JS.Double.ofNat 3) 3 3 ⟨some 1, 0, 3⟩ 2 (.foreign 7)
    (by decide!) (by decide!) (by decide!) (by decide!) (by decide) (by decide) (by decide!)
    (by decide!) (by decide!)

/-- C19, the example as written: `FS::Write` with descriptor 1, the 3-byte
buffer `"hi\n"`, offset 0, length 2 and a null position writes nothing (the
stream and the writer of standard output stay empty) and calls the callback
once, with the `Enosys("write")` object and not with `(null, 2)`: the guard
`length != buf.size()` rejects the call. -/
theorem c19_length_two_is_rejected :
    JS.FS.Write JS.Env.plain JS.Value.undefined
        [JS.Value.ofNat 1, JS.Value.ofObject (some 3), JS.Value.ofNat 0, JS.Value.ofNat 2,
          JS.Value.Null, JS.Value.ofObject (some 2)] JS.World.sample
      = (.ok JS.Value.undefined,
        { JS.World.sample with
          heap := JS.World.sample.heap ++ [.Enosys "write"],
          cout := [], stdoutBuf := [],
          trace :=
            [JS.Event.call (.foreign 7) JS.Value.undefined [JS.Value.ofObject (some 4)]] }) :=
  JS.fsWrite_rejects JS.Env.plain JS.World.sample JS.Value.undefined
    (JS.Value.ofObject (some 3)) JS.Value.Null (JS.Double.ofNat 1) (JS.Double.ofNat 0)
    (JS.Double.ofNat 2) 1 0 2 ⟨some 1, 0, 3⟩ 2 (.foreign 7)
    (by decide!) (by decide!) (by decide!) (by decide!) (Or.inr (Or.inl (by decide!)))
    (by decide!)

/-- C19, amended: `FS::Write` with descriptor 1, a buffer whose three bytes are
`"hi\n"`, offset 0, a null position, a `Function` callback and an empty writer
of standard output.  With length 3 the line `"hi"` and its newline are
appended to standard output, the writer is empty again and the callback is
called once with `(null, 3)`.  With length 2 nothing is written and the
callback is called once with the `Enosys("write")` object. -/
theorem c19_fsWrite_hi_example (env : JS.Env) (w : JS.World)
    (self bufV position : JS.Value) (span : JS.BytesSpan) (c : Nat) (fn : JS.Func)
    (hbuf : JS.Value.ToBytes env bufV w = (.ok span, w))
    (hbytes : JS.spanBytes w span = some [104, 105, 10])
    (hsize : span.size = 3) (hpos : position.IsNull = true)
    (hempty : w.stdoutBuf = [])
    (hc : w.heap[c]? = some (.Function fn)) :
    JS.FS.Write env self
        [JS.Value.ofNat 1, bufV, JS.Value.ofNat 0, JS.Value.ofNat 3, position,
          JS.Value.ofObject (some c)] w
      = (.ok JS.Value.undefined,
        { w with
          cout := w.cout ++ [104, 105, 10], stdoutBuf := [],
          trace := w.trace
            ++ [JS.Event.call fn JS.Value.undefined [JS.Value.Null, JS.Value.ofNat 3]] })
    ∧ JS.FS.Write env self
        [JS.Value.ofNat 1, bufV, JS.Value.ofNat 0, JS.Value.ofNat 2, position,
          JS.Value.ofObject (some c)] w
      = (.ok JS.Value.undefined,
        { w with
          heap := w.heap ++ [.Enosys "write"],
          trace := w.trace
            ++ [JS.Event.call fn JS.Value.undefined
              [JS.Value.ofObject (some w.heap.length)]] }) := by
  have h1 : (JS.Double.ofNat 1).toInt = some 1 := by decide!
  have h0 : (JS.Double.ofNat 0).toInt = some 0 := by decide!
  have h3 : (JS.Double.ofNat 3).toInt = some 3 := by decide!
  have h2 : (JS.Double.ofNat 2).toInt = some 2 := by decide!
  constructor
  · unfold JS.Value.ofNat
    rw [JS.fsWrite_unfold env w self bufV position _ _ _ _ 1 0 3 span h1 h0 h3 hbuf]
    have hw : JS.Writer.Write w.cout w.stdoutBuf [104, 105, 10]
        = some (w.cout ++ [104, 105, 10], []) := by
      rw [hempty]
      have := JS.writer_one_line w.cout [104, 105] (by decide)
      simpa using this
    have hr := JS.reflectApply_function env
      { w with cout := w.cout ++ [104, 105, 10], stdoutBuf := [] } c fn
      JS.Value.undefined [JS.Value.Null, JS.Value.ofNumber (JS.Double.ofNat span.size)] hc
    have hs : toSizeT 3 = span.size := by rw [hsize]; decide!
    simp only [ne_eq, not_true_eq_false, hs, or_self, if_false, hpos, Bool.not_true,
      Bool.false_eq_true, if_true]
    simp only [JS.Host.bind, JS.FS.writeStdout, hbytes, hw, hr, JS.Host.pure]
    rw [hsize]
  · exact JS.fsWrite_rejects env w self bufV position _ _ _ 1 0 2 span c fn h1 h0 h2 hbuf
      (Or.inr (Or.inl (by rw [hsize]; decide!))) hc

theorem c19_fsWrite_hi_example_witness :
    JS.FS.Write JS.Env.plain JS.Value.undefined
        [JS.Value.ofNat 1, JS.Value.ofObject (some 3), JS.Value.ofNat 0, JS.Value.ofNat 3,
          JS.Value.Null, JS.Value.ofObject (some 2)] JS.World.sample
      = (.ok JS.Value.undefined,
        { JS.World.sample with
          cout := JS.World.sample.cout ++ [104, 105, 10], stdoutBuf := [],
          trace := JS.World.sample.trace
            ++ [JS.Event.call (.foreign 7) JS.Value.undefined
              [JS.Value.Null, JS.Value.ofNat 3]] })
    ∧ JS.FS.Write JS.Env.plain JS.Value.undefined
        [JS.Value.ofNat 1, JS.Value.ofObject (some 3), JS.Value.ofNat 0, JS.Value.ofNat 2,
          JS.Value.Null, JS.Value.ofObject (some 2)] JS.World.sample
      = (.ok JS.Value.undefined,
        { JS.World.sample with
          heap := JS.World.sample.heap ++ [.Enosys "write"],
          trace := JS.World.sample.trace
            ++ [JS.Event.call (.foreign 7) JS.Value.undefined
              [JS.Value.ofObject (some JS.World.sample.heap.length)]] }) :=
  c19_fsWrite_hi_example JS.Env.plain JS.World.sample JS.Value.undefined
    (JS.Value.ofObject (some 3)) JS.Value.Null ⟨some 1, 0, 3⟩ 2 (.foreign 7)
    (by decide!) (by decide!) rfl (by decide!) rfl (by decide!)

/-- C20: for every bool `b`, number `d` and string `s`, `Value(b).ToBool()`
returns `b`, `Value(d).ToNumber()` returns `d` and `Value(s).ToString()`
returns `s`, without a host fault and without changing the world; and for
every value, `ToBool`, `ToNumber`, `ToString` call `panic` exactly when the
tag is not `Bool`, `Number`, `String` respectively. -/
theorem c20_scalar_narrowing (env : JS.Env) (w : JS.World) (b : Bool) (d : JS.Double)
    (s : String) (v : JS.Value) :
    JS.Value.ToBool env (JS.Value.ofBool b) w = (.ok b, w)
      ∧ JS.Value.ToNumber env (JS.Value.ofNumber d) w = (.ok d, w)
      ∧ JS.Value.ToString env (JS.Value.ofString s) w = (.ok s, w)
      ∧ (JS.faults (JS.Value.ToBool env v) w ↔ v.type_ ≠ .Bool)
      ∧ (JS.faults (JS.Value.ToNumber env v) w ↔ v.type_ ≠ .Number)
      ∧ (JS.faults (JS.Value.ToString env v) w ↔ v.type_ ≠ .String) := by
  refine ⟨?_, ?_, ?_, ?_, ?_, ?_⟩
  · rw [JS.toBool_eq]
    simp only [JS.Value.ofBool, ne_eq, not_true_eq_false, if_false, JS.toBool_ofBool]
    rfl
  · rw [JS.toNumber_eq]
    simp only [JS.Value.ofNumber, ne_eq, not_true_eq_false, if_false]
    rfl
  · rw [JS.toString_eq]
    simp only [JS.Value.ofString, ne_eq, not_true_eq_false, if_false]
    rfl
  · rw [JS.toBool_eq]
    by_cases h : v.type_ = .Bool
    · simp only [h, ne_eq, not_true_eq_false, if_false, iff_false]
      exact JS.not_faults_pure _ w
    · simp only [ne_eq, h, not_false_eq_true, if_true, iff_true]
      exact JS.faults_panic_then _ _ w
  · rw [JS.toNumber_eq]
    by_cases h : v.type_ = .Number
    · simp only [h, ne_eq, not_true_eq_false, if_false, iff_false]
      exact JS.not_faults_pure _ w
    · simp only [ne_eq, h, not_false_eq_true, if_true, iff_true]
      exact JS.faults_panic_then _ _ w
  · rw [JS.toString_eq]
    by_cases h : v.type_ = .String
    · simp only [h, ne_eq, not_true_eq_false, if_false, iff_false]
      exact JS.not_faults_pure _ w
    · simp only [ne_eq, h, not_false_eq_true, if_true, iff_true]
      exact JS.faults_panic_then _ _ w

/-! ### Lemmas on faults and on what an operation changes -/

namespace JS

theorem onlyReports_pure {α : Type} (a : α) : onlyReports (Host.pure a) := by
  intro w
  exact ⟨rfl, rfl, rfl, rfl, rfl, rfl, [], by simp [Host.pure]⟩

theorem onlyReports_stop {α : Type} (r : Res α) : onlyReports (Host.stop r) := by
  intro w
  exact ⟨rfl, rfl, rfl, rfl, rfl, rfl, [], by simp [Host.stop]⟩

theorem onlyReports_panic (msg : String) : onlyReports (panic msg) := by
  intro w
  obtain ⟨rest, hrest⟩ := panic_trace msg w
  refine ⟨?_, ?_, ?_, ?_, ?_, ?_, _, hrest⟩ <;>
  · unfold panic
    simp only
    split
    · split
      · rfl
      · split
        · split <;> rfl
        · rfl
    · rfl

theorem onlyReports_bind {α β : Type} (x : Host α) (f : α → Host β) (hx : onlyReports x)
    (hf : ∀ a, onlyReports (f a)) : onlyReports (Host.bind x f) := by
  intro w
  obtain ⟨h1, h2, h3, h4, h5, h6, r1, h7⟩ := hx w
  unfold Host.bind
  rcases hxw : x w with ⟨r, w1⟩
  rw [hxw] at h1 h2 h3 h4 h5 h6 h7
  simp only at h1 h2 h3 h4 h5 h6 h7
  cases r with
  | ok a =>
    obtain ⟨g1, g2, g3, g4, g5, g6, r2, g7⟩ := hf a w1
    simp only
    exact ⟨g1.trans h1, g2.trans h2, g3.trans h3, g4.trans h4, g5.trans h5, g6.trans h6,
      r1 ++ r2, by rw [g7, h7, List.append_assoc]⟩
  | exited => exact ⟨h1, h2, h3, h4, h5, h6, r1, h7⟩
  | diverged => exact ⟨h1, h2, h3, h4, h5, h6, r1, h7⟩
  | undefined => exact ⟨h1, h2, h3, h4, h5, h6, r1, h7⟩

theorem faults_panic (msg : String) (w : World) : faults (panic msg) w := by
  unfold faults
  obtain ⟨rest, h⟩ := panic_trace msg w
  rw [h]
  exact ⟨msg, by simp⟩

/-- A fault of the first operation of a sequence is a fault of the sequence,
when what follows only adds to the trace. -/
theorem faults_bind_left {α β : Type} (x : Host α) (f : α → Host β) (w : World)
    (hx : onlyReports x) (hf : ∀ a, onlyReports (f a)) (h : faults x w) :
    faults (Host.bind x f) w := by
  unfold faults at h ⊢
  obtain ⟨msg, hmsg⟩ := h
  refine ⟨msg, ?_⟩
  obtain ⟨_, _, _, _, _, _, r1, h7⟩ := hx w
  rw [h7] at hmsg
  simp only [List.drop_left] at hmsg
  unfold Host.bind
  rcases hxw : x w with ⟨r, w1⟩
  rw [hxw] at h7
  simp only at h7
  cases r with
  | ok a =>
    obtain ⟨_, _, _, _, _, _, r2, g7⟩ := hf a w1
    simp only
    rw [g7, h7, List.append_assoc, List.drop_left]
    exact List.mem_append_left _ hmsg
  | exited => simp only; rw [h7, List.drop_left]; exact hmsg
  | diverged => simp only; rw [h7, List.drop_left]; exact hmsg
  | undefined => simp only; rw [h7, List.drop_left]; exact hmsg

theorem faults_bind_panic {β : Type} (msg : String) (f : Unit → Host β) (w : World)
    (hf : ∀ a, onlyReports (f a)) : faults (Host.bind (panic msg) f) w :=
  faults_bind_left (panic msg) f w (onlyReports_panic msg) hf (faults_panic msg w)

theorem not_faults_of_same {α : Type} (x : Host α) (w : World) (r : Res α) (h : x w = (r, w)) :
    ¬ faults x w := by
  unfold faults
  rw [h]
  simp

/-- The way `panic` ends depends on the heap and the global object only. -/
theorem panic_fst (msg1 msg2 : String) (w1 w2 : World) (hh : w2.heap = w1.heap)
    (hg : w2.global = w1.global) : (panic msg2 w2).1 = (panic msg1 w1).1 := by
  unfold panic
  simp only [hh, hg]
  split
  · split
    · rfl
    · split
      · split <;> rfl
      · rfl
  · rfl

end JS

namespace JS

theorem toObject_some (env : Env) (v : Value) (o : Nat) (w : World) (ht : v.type_ = .Object)
    (ho : v.object_value_ = some o) : Value.ToObject env v w = (.ok o, w) := by
  simp [Value.ToObject, ht, ho, bind, Host.bind, pure, Host.pure]

theorem toArray_some (env : Env) (v : Value) (a : Nat) (w : World) (ht : v.type_ = .Object)
    (ha : v.array_value_ = some a) : Value.ToArray env v w = (.ok a, w) := by
  simp [Value.ToArray, ht, ha, bind, Host.bind, pure, Host.pure]

theorem toObject_faults (env : Env) (v : Value) (w : World) (h : v.IsObject = false) :
    faults (Value.ToObject env v) w := by
  by_cases ht : v.type_ = .Object
  · have ho : v.object_value_ = none := by
      cases hov : v.object_value_ with
      | none => rfl
      | some o => simp [Value.IsObject, ht, hov] at h
    have e : Value.ToObject env v
        = Host.bind (Host.pure ()) (fun _ =>
            Host.bind (panic "Value::ToObject: object_value_ must not be null")
              (fun _ => Host.stop .undefined)) := by
      simp [Value.ToObject, ht, ho, bind, pure]
    rw [e, pure_bind]
    exact faults_bind_panic _ _ w (fun _ => onlyReports_stop _)
  · have e : Value.ToObject env v
        = Host.bind
            (panic ("Value::ToObject: the type must be Type::Object but not: " ++ env.inspect v))
            (fun _ =>
              if v.object_value_.isNone = true then
                Host.bind (panic "Value::ToObject: object_value_ must not be null")
                  (fun _ =>
                    match v.object_value_ with
                    | some o => Host.pure o
                    | none => Host.stop .undefined)
              else
                Host.bind (Host.pure ())
                  (fun _ =>
                    match v.object_value_ with
                    | some o => Host.pure o
                    | none => Host.stop .undefined)) := by
      simp only [Value.ToObject, ne_eq, ht, not_false_eq_true, if_true, bind, pure]
    rw [e]
    have hk : onlyReports (match v.object_value_ with
        | some o => Host.pure o
        | none => Host.stop .undefined) := by
      split
      · exact onlyReports_pure _
      · exact onlyReports_stop _
    refine faults_bind_panic _ _ w (fun _ => ?_)
    split
    · exact onlyReports_bind _ _ (onlyReports_panic _) (fun _ => hk)
    · exact onlyReports_bind _ _ (onlyReports_pure _) (fun _ => hk)

theorem toArray_faults (env : Env) (v : Value) (w : World) (h : v.IsArray = false) :
    faults (Value.ToArray env v) w := by
  by_cases ht : v.type_ = .Object
  · have ho : v.array_value_ = none := by
      cases hov : v.array_value_ with
      | none => rfl
      | some o => simp [Value.IsArray, ht, hov] at h
    have e : Value.ToArray env v
        = Host.bind (Host.pure ()) (fun _ =>
            Host.bind (panic "Value::ToArray: array_value_ must not be null")
              (fun _ => Host.stop .undefined)) := by
      simp [Value.ToArray, ht, ho, bind, pure]
    rw [e, pure_bind]
    exact faults_bind_panic _ _ w (fun _ => onlyReports_stop _)
  · have e : Value.ToArray env v
        = Host.bind
            (panic ("Value::ToArray: the type must be Type::Object but not: " ++ env.inspect v))
            (fun _ =>
              if v.array_value_.isNone = true then
                Host.bind (panic "Value::ToArray: array_value_ must not be null")
                  (fun _ =>
                    match v.array_value_ with
                    | some a => Host.pure a
                    | none => Host.stop .undefined)
              else
                Host.bind (Host.pure ())
                  (fun _ =>
                    match v.array_value_ with
                    | some a => Host.pure a
                    | none => Host.stop .undefined)) := by
      simp only [Value.ToArray, ne_eq, ht, not_false_eq_true, if_true, bind, pure]
    rw [e]
    have hk : onlyReports (match v.array_value_ with
        | some a => Host.pure a
        | none => Host.stop .undefined) := by
      split
      · exact onlyReports_pure _
      · exact onlyReports_stop _
    refine faults_bind_panic _ _ w (fun _ => ?_)
    split
    · exact onlyReports_bind _ _ (onlyReports_panic _) (fun _ => hk)
    · exact onlyReports_bind _ _ (onlyReports_pure _) (fun _ => hk)

theorem isObject_true (v : Value) (h : v.IsObject = true) :
    v.type_ = .Object ∧ ∃ o, v.object_value_ = some o := by
  unfold Value.IsObject at h
  simp only [Bool.and_eq_true, decide_eq_true_eq, Option.isSome_iff_exists] at h
  exact h

theorem isArray_true (v : Value) (h : v.IsArray = true) :
    v.type_ = .Object ∧ ∃ a, v.array_value_ = some a := by
  unfold Value.IsArray at h
  simp only [Bool.and_eq_true, decide_eq_true_eq, Option.isSome_iff_exists] at h
  exact h

end JS

/-! ### Claims on narrowing, reflection and the panic handler -/

/-- C21: for every value, `ToObject` calls `panic` exactly when `IsObject` is
false and `ToArray` calls `panic` exactly when `IsArray` is false.  A value
built from a vector is `IsArray` and not `IsObject`, and `ToObject` faults on
it; a value built from a pointer to an object is `IsObject` and not `IsArray`,
and `ToArray` faults on it; both have the tag `Object`. -/
theorem c21_object_array_narrowing (env : JS.Env) (w : JS.World) (v : JS.Value) (a o : Nat) :
    (JS.faults (JS.Value.ToObject env v) w ↔ v.IsObject = false)
      ∧ (JS.faults (JS.Value.ToArray env v) w ↔ v.IsArray = false)
      ∧ ((JS.Value.ofArray a).IsArray = true ∧ (JS.Value.ofArray a).IsObject = false
          ∧ JS.faults (JS.Value.ToObject env (JS.Value.ofArray a)) w)
      ∧ ((JS.Value.ofObject (some o)).IsObject = true
          ∧ (JS.Value.ofObject (some o)).IsArray = false
          ∧ JS.faults (JS.Value.ToArray env (JS.Value.ofObject (some o))) w)
      ∧ (JS.Value.ofArray a).type_ = .Object ∧ (JS.Value.ofObject (some o)).type_ = .Object := by
  refine ⟨?_, ?_, ⟨rfl, rfl, JS.toObject_faults env _ w rfl⟩,
    ⟨rfl, rfl, JS.toArray_faults env _ w rfl⟩, rfl, rfl⟩
  · constructor
    · intro hf
      cases hio : v.IsObject with
      | false => rfl
      | true =>
        obtain ⟨ht, o1, ho⟩ := JS.isObject_true v hio
        exact absurd hf (JS.not_faults_of_same _ w _ (JS.toObject_some env v o1 w ht ho))
    · exact JS.toObject_faults env v w
  · constructor
    · intro hf
      cases hia : v.IsArray with
      | false => rfl
      | true =>
        obtain ⟨ht, a1, ha⟩ := JS.isArray_true v hia
        exact absurd hf (JS.not_faults_of_same _ w _ (JS.toArray_some env v a1 w ht ha))
    · exact JS.toArray_faults env v w

namespace JS

theorem tag_of_undefined_or_null (target : Value)
    (h : target.IsUndefined = true ∨ target.IsNull = true) :
    target.IsObject = false ∧ (target.IsUndefined = true → target.IsNull = false) := by
  unfold Value.IsUndefined Value.IsNull at h
  unfold Value.IsObject Value.IsNull
  rcases h with h | h
  · simp only [decide_eq_true_eq] at h
    simp [Value.IsUndefined, h]
  · simp only [decide_eq_true_eq] at h
    simp [Value.IsUndefined, h]

theorem reflectGet_undefined_or_null (env : Env) (target : Value) (key : String)
    (h : target.IsUndefined = true ∨ target.IsNull = true) :
    Value.ReflectGet env target key
      = if target.IsUndefined = true then
          Host.bind (panic ("get on undefined (key: " ++ key ++ ") is forbidden"))
            (fun _ => Host.pure Value.undefined)
        else
          Host.bind (panic ("get on null (key: " ++ key ++ ") is forbidden"))
            (fun _ => Host.pure Value.undefined) := by
  unfold Value.ReflectGet
  by_cases hu : target.IsUndefined = true
  · simp only [hu, if_true]
    rfl
  · have hn : target.IsNull = true := h.resolve_left hu
    simp only [hu, hn, if_true, if_false, Bool.false_eq_true]
    rfl

theorem reflectConstruct_undefined_or_null (env : Env) (target : Value) (args : List Value)
    (h : target.IsUndefined = true ∨ target.IsNull = true) :
    Value.ReflectConstruct env target args
      = if target.IsUndefined = true then
          Host.bind (panic "new on undefined is forbidden") (fun _ => Host.pure Value.undefined)
        else
          Host.bind (panic "new on null is forbidden") (fun _ => Host.pure Value.undefined) := by
  unfold Value.ReflectConstruct
  by_cases hu : target.IsUndefined = true
  · simp only [hu, if_true]
    rfl
  · have hn : target.IsNull = true := h.resolve_left hu
    simp only [hu, hn, if_true, if_false, Bool.false_eq_true]
    rfl

theorem reflectApply_undefined_or_null (env : Env) (target self : Value) (args : List Value)
    (h : target.IsUndefined = true ∨ target.IsNull = true) :
    Value.ReflectApply env target self args
      = if target.IsUndefined = true then
          Host.bind (panic "apply on undefined is forbidden") (fun _ => Host.pure Value.undefined)
        else
          Host.bind (panic "apply on null is forbidden") (fun _ => Host.pure Value.undefined) := by
  unfold Value.ReflectApply
  by_cases hu : target.IsUndefined = true
  · simp only [hu, if_true]
    rfl
  · have hn : target.IsNull = true := h.resolve_left hu
    simp only [hu, hn, if_true, if_false, Bool.false_eq_true]
    rfl

theorem reflectSet_undefined_or_null (env : Env) (target : Value) (key : String) (value : Value)
    (h : target.IsUndefined = true ∨ target.IsNull = true) :
    Value.ReflectSet env target key value
      = if target.IsUndefined = true then
          Host.bind (panic ("set on undefined (key: " ++ key ++ ") is forbidden"))
            (fun _ => panic (env.inspect target ++ "." ++ key ++ " cannot be set"))
        else
          Host.bind (panic ("set on null (key: " ++ key ++ ") is forbidden"))
            (fun _ => panic (env.inspect target ++ "." ++ key ++ " cannot be set")) := by
  obtain ⟨ho, hun⟩ := tag_of_undefined_or_null target h
  unfold Value.ReflectSet
  by_cases hu : target.IsUndefined = true
  · have hn := hun hu
    simp only [hu, hn, ho, if_true, if_false, Bool.false_eq_true]
    rfl
  · have hn : target.IsNull = true := h.resolve_left hu
    simp only [hu, hn, ho, if_true, if_false, Bool.false_eq_true]
    rfl

theorem reflectDelete_undefined_or_null (env : Env) (target : Value) (key : String)
    (h : target.IsUndefined = true ∨ target.IsNull = true) :
    Value.ReflectDelete env target key
      = if target.IsUndefined = true then
          Host.bind (panic ("delete on undefined (key: " ++ key ++ ") is forbidden"))
            (fun _ => panic (env.inspect target ++ "." ++ key ++ " cannot be deleted"))
        else
          Host.bind (panic ("delete on null (key: " ++ key ++ ") is forbidden"))
            (fun _ => panic (env.inspect target ++ "." ++ key ++ " cannot be deleted")) := by
  obtain ⟨ho, hun⟩ := tag_of_undefined_or_null target h
  unfold Value.ReflectDelete
  by_cases hu : target.IsUndefined = true
  · have hn := hun hu
    simp only [hu, hn, ho, if_true, if_false, Bool.false_eq_true]
    rfl
  · have hn : target.IsNull = true := h.resolve_left hu
    simp only [hu, hn, ho, if_true, if_false, Bool.false_eq_true]
    rfl

end JS

/-- C22: for a target that is undefined or null, each of `ReflectGet`,
`ReflectSet`, `ReflectDelete`, `ReflectConstruct` and `ReflectApply` consists
of calls of `panic` only (one for `ReflectGet`, `ReflectConstruct` and
`ReflectApply`, which return `Value{}` after it; two for `ReflectSet` and
`ReflectDelete`, which go on to their last statement when the first call
returns): it calls `panic`, it calls no `Get`, `Set`, `Delete`, `New` or
`Invoke` of an object, and it leaves every object, every array and the output
streams of `FS` as they are. -/
theorem c22_reflect_on_undefined_or_null (env : JS.Env) (w : JS.World)
    (target self value : JS.Value) (key : String) (args : List JS.Value)
    (h : target.IsUndefined = true ∨ target.IsNull = true) :
    (JS.Value.ReflectGet env target key
        = if target.IsUndefined = true then
            JS.Host.bind (JS.panic ("get on undefined (key: " ++ key ++ ") is forbidden"))
              (fun _ => JS.Host.pure JS.Value.undefined)
          else
            JS.Host.bind (JS.panic ("get on null (key: " ++ key ++ ") is forbidden"))
              (fun _ => JS.Host.pure JS.Value.undefined))
      ∧ (JS.Value.ReflectSet env target key value
        = if target.IsUndefined = true then
            JS.Host.bind (JS.panic ("set on undefined (key: " ++ key ++ ") is forbidden"))
              (fun _ => JS.panic (env.inspect target ++ "." ++ key ++ " cannot be set"))
          else
            JS.Host.bind (JS.panic ("set on null (key: " ++ key ++ ") is forbidden"))
              (fun _ => JS.panic (env.inspect target ++ "." ++ key ++ " cannot be set")))
      ∧ (JS.Value.ReflectDelete env target key
        = if target.IsUndefined = true then
            JS.Host.bind (JS.panic ("delete on undefined (key: " ++ key ++ ") is forbidden"))
              (fun _ => JS.panic (env.inspect target ++ "." ++ key ++ " cannot be deleted"))
          else
            JS.Host.bind (JS.panic ("delete on null (key: " ++ key ++ ") is forbidden"))
              (fun _ => JS.panic (env.inspect target ++ "." ++ key ++ " cannot be deleted")))
      ∧ (JS.Value.ReflectConstruct env target args
        = if target.IsUndefined = true then
            JS.Host.bind (JS.panic "new on undefined is forbidden")
              (fun _ => JS.Host.pure JS.Value.undefined)
          else
            JS.Host.bind (JS.panic "new on null is forbidden")
              (fun _ => JS.Host.pure JS.Value.undefined))
      ∧ (JS.Value.ReflectApply env target self args
        = if target.IsUndefined = true then
            JS.Host.bind (JS.panic "apply on undefined is forbidden")
              (fun _ => JS.Host.pure JS.Value.undefined)
          else
            JS.Host.bind (JS.panic "apply on null is forbidden")
              (fun _ => JS.Host.pure JS.Value.undefined))
      ∧ (JS.faults (JS.Value.ReflectGet env target key) w
        ∧ JS.faults (JS.Value.ReflectSet env target key value) w
        ∧ JS.faults (JS.Value.ReflectDelete env target key) w
        ∧ JS.faults (JS.Value.ReflectConstruct env target args) w
        ∧ JS.faults (JS.Value.ReflectApply env target self args) w)
      ∧ (JS.onlyReports (JS.Value.ReflectGet env target key)
        ∧ JS.onlyReports (JS.Value.ReflectSet env target key value)
        ∧ JS.onlyReports (JS.Value.ReflectDelete env target key)
        ∧ JS.onlyReports (JS.Value.ReflectConstruct env target args)
        ∧ JS.onlyReports (JS.Value.ReflectApply env target self args)) := by
  have e1 := JS.reflectGet_undefined_or_null env target key h
  have e2 := JS.reflectSet_undefined_or_null env target key value h
  have e3 := JS.reflectDelete_undefined_or_null env target key h
  have e4 := JS.reflectConstruct_undefined_or_null env target args h
  have e5 := JS.reflectApply_undefined_or_null env target self args h
  refine ⟨e1, e2, e3, e4, e5, ⟨?_, ?_, ?_, ?_, ?_⟩, ⟨?_, ?_, ?_, ?_, ?_⟩⟩
  · rw [e1]; split <;> exact JS.faults_bind_panic _ _ w (fun _ => JS.onlyReports_pure _)
  · rw [e2]; split <;> exact JS.faults_bind_panic _ _ w (fun _ => JS.onlyReports_panic _)
  · rw [e3]; split <;> exact JS.faults_bind_panic _ _ w (fun _ => JS.onlyReports_panic _)
  · rw [e4]; split <;> exact JS.faults_bind_panic _ _ w (fun _ => JS.onlyReports_pure _)
  · rw [e5]; split <;> exact JS.faults_bind_panic _ _ w (fun _ => JS.onlyReports_pure _)
  · rw [e1]
    split <;>
      exact JS.onlyReports_bind _ _ (JS.onlyReports_panic _) (fun _ => JS.onlyReports_pure _)
  · rw [e2]
    split <;>
      exact JS.onlyReports_bind _ _ (JS.onlyReports_panic _) (fun _ => JS.onlyReports_panic _)
  · rw [e3]
    split <;>
      exact JS.onlyReports_bind _ _ (JS.onlyReports_panic _) (fun _ => JS.onlyReports_panic _)
  · rw [e4]
    split <;>
      exact JS.onlyReports_bind _ _ (JS.onlyReports_panic _) (fun _ => JS.onlyReports_pure _)
  · rw [e5]
    split <;>
      exact JS.onlyReports_bind _ _ (JS.onlyReports_panic _) (fun _ => JS.onlyReports_pure _)

theorem c22_reflect_on_undefined_or_null_witness :
    (JS.Value.Null.IsUndefined = true ∨ JS.Value.Null.IsNull = true)
      ∧ ((JS.Value.ReflectGet JS.Env.plain JS.Value.Null "k"
        = if JS.Value.Null.IsUndefined = true then
            JS.Host.bind (JS.panic ("get on undefined (key: " ++ "k" ++ ") is forbidden"))
              (fun _ => JS.Host.pure JS.Value.undefined)
          else
            JS.Host.bind (JS.panic ("get on null (key: " ++ "k" ++ ") is forbidden"))
              (fun _ => JS.Host.pure JS.Value.undefined))
      ∧ (JS.Value.ReflectSet JS.Env.plain JS.Value.Null "k" (JS.Value.ofNat 1)
        = if JS.Value.Null.IsUndefined = true then
            JS.Host.bind (JS.panic ("set on undefined (key: " ++ "k" ++ ") is forbidden"))
              (fun _ =>
                JS.panic (JS.Env.plain.inspect JS.Value.Null ++ "." ++ "k" ++ " cannot be set"))
          else
            JS.Host.bind (JS.panic ("set on null (key: " ++ "k" ++ ") is forbidden"))
              (fun _ =>
                JS.panic (JS.Env.plain.inspect JS.Value.Null ++ "." ++ "k" ++ " cannot be set")))
      ∧ (JS.Value.ReflectDelete JS.Env.plain JS.Value.Null "k"
        = if JS.Value.Null.IsUndefined = true then
            JS.Host.bind (JS.panic ("delete on undefined (key: " ++ "k" ++ ") is forbidden"))
              (fun _ =>
                JS.panic (JS.Env.plain.inspect JS.Value.Null ++ "." ++ "k" ++ " cannot be deleted"))
          else
            JS.Host.bind (JS.panic ("delete on null (key: " ++ "k" ++ ") is forbidden"))
              (fun _ =>
                JS.panic (JS.Env.plain.inspect JS.Value.Null ++ "." ++ "k"
                    ++ " cannot be deleted")))
      ∧ (JS.Value.ReflectConstruct JS.Env.plain JS.Value.Null []
        = if JS.Value.Null.IsUndefined = true then
            JS.Host.bind (JS.panic "new on undefined is forbidden")
              (fun _ => JS.Host.pure JS.Value.undefined)
          else
            JS.Host.bind (JS.panic "new on null is forbidden")
              (fun _ => JS.Host.pure JS.Value.undefined))
      ∧ (JS.Value.ReflectApply JS.Env.plain JS.Value.Null JS.Value.undefined []
        = if JS.Value.Null.IsUndefined = true then
            JS.Host.bind (JS.panic "apply on undefined is forbidden")
              (fun _ => JS.Host.pure JS.Value.undefined)
          else
            JS.Host.bind (JS.panic "apply on null is forbidden")
              (fun _ => JS.Host.pure JS.Value.undefined))
      ∧ (JS.faults (JS.Value.ReflectGet JS.Env.plain JS.Value.Null "k") JS.World.withHandler
        ∧ JS.faults (JS.Value.ReflectSet JS.Env.plain JS.Value.Null "k" (JS.Value.ofNat 1))
            JS.World.withHandler
        ∧ JS.faults (JS.Value.ReflectDelete JS.Env.plain JS.Value.Null "k") JS.World.withHandler
        ∧ JS.faults (JS.Value.ReflectConstruct JS.Env.plain JS.Value.Null []) JS.World.withHandler
        ∧ JS.faults (JS.Value.ReflectApply JS.Env.plain JS.Value.Null JS.Value.undefined [])
            JS.World.withHandler)
      ∧ (JS.onlyReports (JS.Value.ReflectGet JS.Env.plain JS.Value.Null "k")
        ∧ JS.onlyReports (JS.Value.ReflectSet JS.Env.plain JS.Value.Null "k" (JS.Value.ofNat 1))
        ∧ JS.onlyReports (JS.Value.ReflectDelete JS.Env.plain JS.Value.Null "k")
        ∧ JS.onlyReports (JS.Value.ReflectConstruct JS.Env.plain JS.Value.Null [])
        ∧ JS.onlyReports (JS.Value.ReflectApply JS.Env.plain JS.Value.Null JS.Value.undefined [])))
            :=
  ⟨Or.inr rfl,
    c22_reflect_on_undefined_or_null JS.Env.plain JS.World.withHandler JS.Value.Null
      JS.Value.undefined (JS.Value.ofNat 1) "k" [] (Or.inr rfl)⟩

namespace JS

theorem isObject_of (target : Value) (t : Nat) (ht : target.type_ = .Object)
    (hp : target.object_value_ = some t) :
    target.IsUndefined = false ∧ target.IsNull = false ∧ target.IsObject = true := by
  simp [Value.IsUndefined, Value.IsNull, Value.IsObject, ht, hp]

theorem reflectApply_on_function (env : Env) (w : World) (target self : Value) (t : Nat)
    (fn : Func) (args : List Value) (ht : target.type_ = .Object)
    (hp : target.object_value_ = some t) (hobj : w.heap[t]? = some (.Function fn)) :
    Value.ReflectApply env target self args w
      = (.ok (env.result fn args),
          { w with trace := w.trace ++ [Event.call fn Value.undefined args] }) := by
  obtain ⟨h1, h2, h3⟩ := isObject_of target t ht hp
  simp [Value.ReflectApply, h1, h2, h3, Value.ToObject, ht, hp, bind, Host.bind, pure, Host.pure,
    Object.Invoke, hobj, Object.IsConstructor]

theorem reflectApply_on_constructor (env : Env) (w : World) (target self : Value) (t : Nat)
    (name : String) (fn : Func) (args : List Value) (ht : target.type_ = .Object)
    (hp : target.object_value_ = some t) (hobj : w.heap[t]? = some (.Constructor name fn)) :
    Value.ReflectApply env target self args w
      = Host.bind (panic (name ++ " is a constructor")) (fun _ => Host.pure Value.undefined) w := by
  obtain ⟨h1, h2, h3⟩ := isObject_of target t ht hp
  simp [Value.ReflectApply, h1, h2, h3, Value.ToObject, ht, hp, bind, Host.bind, pure, Host.pure,
    hobj, Object.IsConstructor, Object.ToString]

theorem reflectConstruct_on_constructor (env : Env) (w : World) (target : Value) (t : Nat)
    (name : String) (fn : Func) (args : List Value) (ht : target.type_ = .Object)
    (hp : target.object_value_ = some t) (hobj : w.heap[t]? = some (.Constructor name fn)) :
    Value.ReflectConstruct env target args w
      = (.ok (env.result fn args),
          { w with trace := w.trace ++ [Event.call fn Value.undefined args] }) := by
  obtain ⟨h1, h2, h3⟩ := isObject_of target t ht hp
  simp [Value.ReflectConstruct, h1, h2, h3, Value.ToObject, ht, hp, bind, Host.bind, pure,
    Host.pure, Object.New, hobj, Object.IsConstructor]

theorem reflectConstruct_on_other (env : Env) (w : World) (target : Value) (t : Nat)
    (obj : Object) (args : List Value) (ht : target.type_ = .Object)
    (hp : target.object_value_ = some t) (hobj : w.heap[t]? = some obj)
    (hc : obj.IsConstructor = false) :
    Value.ReflectConstruct env target args w
      = Host.bind (panic (obj.ToString ++ " is not a constructor"))
          (fun _ => Host.pure Value.undefined) w := by
  obtain ⟨h1, h2, h3⟩ := isObject_of target t ht hp
  simp [Value.ReflectConstruct, h1, h2, h3, Value.ToObject, ht, hp, bind, Host.bind, pure,
    Host.pure, hobj, hc]

end JS

/-- C23: for targets that are objects.  On a `Constructor`, `ReflectApply` is
the call `panic(name + " is a constructor")` followed by `return Value{}`: it
faults and the wrapped function is not called by it.  On an object that is not
a constructor, `ReflectConstruct` is the call
`panic(ToString() + " is not a constructor")` followed by `return Value{}`: it
faults and `New` is not called.  On a `Constructor`, `ReflectConstruct` calls
the wrapped function once, with `Value{}` and the arguments, and returns its
result; on a `Function`, `ReflectApply` calls the wrapped function once, with
`Value{}` and the arguments, and returns its result. -/
theorem c23_constructor_function_separation (env : JS.Env) (w : JS.World)
    (tc tf tn : JS.Value) (c f n : Nat) (name : String) (fc ff : JS.Func) (other : JS.Object)
    (self : JS.Value) (args : List JS.Value)
    (hc1 : tc.type_ = .Object) (hc2 : tc.object_value_ = some c)
    (hc3 : w.heap[c]? = some (.Constructor name fc))
    (hf1 : tf.type_ = .Object) (hf2 : tf.object_value_ = some f)
    (hf3 : w.heap[f]? = some (.Function ff))
    (hn1 : tn.type_ = .Object) (hn2 : tn.object_value_ = some n)
    (hn3 : w.heap[n]? = some other) (hn4 : other.IsConstructor = false) :
    (JS.Value.ReflectApply env tc self args w
        = JS.Host.bind (JS.panic (name ++ " is a constructor"))
            (fun _ => JS.Host.pure JS.Value.undefined) w
      ∧ JS.faults (JS.Value.ReflectApply env tc self args) w)
    ∧ (JS.Value.ReflectConstruct env tn args w
        = JS.Host.bind (JS.panic (other.ToString ++ " is not a constructor"))
            (fun _ => JS.Host.pure JS.Value.undefined) w
      ∧ JS.faults (JS.Value.ReflectConstruct env tn args) w)
    ∧ (JS.Value.ReflectConstruct env tf args w
        = JS.Host.bind (JS.panic ("(function) is not a constructor"))
            (fun _ => JS.Host.pure JS.Value.undefined) w
      ∧ JS.faults (JS.Value.ReflectConstruct env tf args) w)
    ∧ JS.Value.ReflectConstruct env tc args w
        = (.ok (env.result fc args),
            { w with trace := w.trace ++ [JS.Event.call fc JS.Value.undefined args] })
    ∧ JS.Value.ReflectApply env tf self args w
        = (.ok (env.result ff args),
            { w with trace := w.trace ++ [JS.Event.call ff JS.Value.undefined args] }) := by
  have e1 := JS.reflectApply_on_constructor env w tc self c name fc args hc1 hc2 hc3
  have e2 := JS.reflectConstruct_on_other env w tn n other args hn1 hn2 hn3 hn4
  have e3 := JS.reflectConstruct_on_other env w tf f (.Function ff) args hf1 hf2 hf3 rfl
  have hfault : ∀ msg, JS.faults
      (JS.Host.bind (JS.panic msg) (fun _ => JS.Host.pure JS.Value.undefined)) w :=
    fun msg => JS.faults_bind_panic msg _ w (fun _ => JS.onlyReports_pure _)
  refine ⟨⟨e1, ?_⟩, ⟨e2, ?_⟩, ⟨e3, ?_⟩,
    JS.reflectConstruct_on_constructor env w tc c name fc args hc1 hc2 hc3,
    JS.reflectApply_on_function env w tf self f ff args hf1 hf2 hf3⟩
  · have := hfault (name ++ " is a constructor")
    unfold JS.faults at this ⊢
    rw [e1]
    exact this
  · have := hfault (other.ToString ++ " is not a constructor")
    unfold JS.faults at this ⊢
    rw [e2]
    exact this
  · have := hfault ("(function) is not a constructor")
    unfold JS.faults at this ⊢
    rw [e3]
    exact this

theorem c23_constructor_function_separation_witness :
    (JS.Value.ReflectApply JS.Env.plain (JS.Value.ofObject (some 2)) JS.Value.undefined
        [JS.Value.ofNat 4] JS.World.withHandler
        = JS.Host.bind (JS.panic ("Thing" ++ " is a constructor"))
            (fun _ => JS.Host.pure JS.Value.undefined) JS.World.withHandler
      ∧ JS.faults (JS.Value.ReflectApply JS.Env.plain (JS.Value.ofObject (some 2))
          JS.Value.undefined [JS.Value.ofNat 4]) JS.World.withHandler)
    ∧ (JS.Value.ReflectConstruct JS.Env.plain (JS.Value.ofObject (some 3)) [JS.Value.ofNat 4]
        JS.World.withHandler
        = JS.Host.bind (JS.panic ((JS.Object.ArrayBuffer [1, 2, 3, 4, 5, 6, 7, 8]).ToString
            ++ " is not a constructor"))
            (fun _ => JS.Host.pure JS.Value.undefined) JS.World.withHandler
      ∧ JS.faults (JS.Value.ReflectConstruct JS.Env.plain (JS.Value.ofObject (some 3))
          [JS.Value.ofNat 4]) JS.World.withHandler)
    ∧ (JS.Value.ReflectConstruct JS.Env.plain (JS.Value.ofObject (some 1)) [JS.Value.ofNat 4]
        JS.World.withHandler
        = JS.Host.bind (JS.panic ("(function) is not a constructor"))
            (fun _ => JS.Host.pure JS.Value.undefined) JS.World.withHandler
      ∧ JS.faults (JS.Value.ReflectConstruct JS.Env.plain (JS.Value.ofObject (some 1))
          [JS.Value.ofNat 4]) JS.World.withHandler)
    ∧ JS.Value.ReflectConstruct JS.Env.plain (JS.Value.ofObject (some 2)) [JS.Value.ofNat 4]
        JS.World.withHandler
        = (.ok (JS.Env.plain.result (.foreign 5) [JS.Value.ofNat 4]),
            { JS.World.withHandler with trace := JS.World.withHandler.trace
                ++ [JS.Event.call (.foreign 5) JS.Value.undefined [JS.Value.ofNat 4]] })
    ∧ JS.Value.ReflectApply JS.Env.plain (JS.Value.ofObject (some 1)) JS.Value.undefined
        [JS.Value.ofNat 4] JS.World.withHandler
        = (.ok (JS.Env.plain.result (.foreign 9) [JS.Value.ofNat 4]),
            { JS.World.withHandler with trace := JS.World.withHandler.trace
                ++ [JS.Event.call (.foreign 9) JS.Value.undefined [JS.Value.ofNat 4]] }) :=
  c23_constructor_function_separation JS.Env.plain JS.World.withHandler
    (JS.Value.ofObject (some 2)) (JS.Value.ofObject (some 1)) (JS.Value.ofObject (some 3)) 2 1 3
    "Thing" (.foreign 5) (.foreign 9) (.ArrayBuffer [1, 2, 3, 4, 5, 6, 7, 8]) JS.Value.undefined
    [JS.Value.ofNat 4] rfl rfl rfl rfl rfl rfl rfl rfl rfl rfl

namespace JS

/-- When `panic` is modelled as ending without end, the recursion spelled out
in `panicRec` reaches every bound. -/
theorem panicRec_diverged (env : Env) : ∀ (fuel : Nat) (msg : String) (w : World),
    (panic msg w).1 = .diverged → (panicRec env fuel msg w).1 = .diverged := by
  intro fuel
  induction fuel with
  | zero => intro msg w _; rfl
  | succ fuel ih =>
    intro msg w h
    have hrec : ∀ (m : String) (w1 : World), w1.heap = w.heap → w1.global = w.global →
        (panicRec env fuel m w1).1 = .diverged := by
      intro m w1 hh hg
      apply ih
      rw [panic_fst msg m w w1 hh hg]
      exact h
    have hbind : ∀ {β : Type} (m : String) (w1 : World) (f : Unit → Host β),
        w1.heap = w.heap → w1.global = w.global →
        (Host.bind (panicRec env fuel m) f w1).1 = .diverged := by
      intro β m w1 f hh hg
      have h1 := hrec m w1 hh hg
      unfold Host.bind
      rcases hx : panicRec env fuel m w1 with ⟨r, w2⟩
      rw [hx] at h1
      simp only at h1
      subst h1
      rfl
    unfold panic at h
    unfold panicRec
    simp only at h ⊢
    cases hg : w.heap[w.global]? with
    | none => rw [hg] at h; simp at h
    | some g =>
      cases g with
      | DictionaryValues dict =>
        rw [hg] at h
        simp only at h ⊢
        by_cases hu : (dictGet dict "_panic").IsUndefined = true
        · rw [if_pos hu] at h
          simp at h
        · rw [if_neg hu] at h
          rw [if_neg hu]
          by_cases ht : (dictGet dict "_panic").type_ = .Object
          · cases ho : (dictGet dict "_panic").object_value_ with
            | none =>
              simp only [ne_eq, ht, not_true_eq_false, if_false, ho, Option.isNone_none, if_true,
                bind, pure, pure_bind]
              exact hbind _ _ _ rfl rfl
            | some hd =>
              simp only [ne_eq, ht, not_true_eq_false, if_false, ho, Option.isNone_some,
                Bool.false_eq_true, bind, pure, pure_bind]
              rw [ht, ho] at h
              simp only at h
              cases hh : w.heap[hd]? with
              | none => rw [hh] at h; simp at h
              | some obj =>
                rw [hh] at h
                cases obj with
                | Function fn => simp at h
                | ArrayBuffer d => exact hrec _ _ rfl rfl
                | DictionaryValues d => exact hrec _ _ rfl rfl
                | Constructor nm fn => exact hrec _ _ rfl rfl
                | TypedArray cn ab off len => exact hrec _ _ rfl rfl
                | Enosys nm => exact hrec _ _ rfl rfl
          · simp only [ne_eq, ht, not_false_eq_true, if_true, bind]
            exact hbind _ _ _ rfl rfl
      | ArrayBuffer d => rw [hg] at h; simp at h
      | Function fn => rw [hg] at h; simp at h
      | Constructor nm fn => rw [hg] at h; simp at h
      | TypedArray cn ab off len => rw [hg] at h; simp at h
      | Enosys nm => rw [hg] at h; simp at h

/-- When `panic` is modelled as ending (with a return, with the exit of the
process, or undefined), the recursion spelled out in `panicRec` ends in the
same way and in the same world, under every bound but 0. -/
theorem panicRec_eq_panic (env : Env) (fuel : Nat) (msg : String) (w : World)
    (h : (panic msg w).1 ≠ .diverged) : panicRec env (fuel + 1) msg w = panic msg w := by
  unfold panic at h ⊢
  unfold panicRec
  simp only at h ⊢
  cases hg : w.heap[w.global]? with
  | none => rfl
  | some g =>
    cases g with
    | DictionaryValues dict =>
      rw [hg] at h
      simp only at h ⊢
      by_cases hu : (dictGet dict "_panic").IsUndefined = true
      · rw [if_pos hu, if_pos hu]
      · rw [if_neg hu] at h
        rw [if_neg hu, if_neg hu]
        by_cases ht : (dictGet dict "_panic").type_ = .Object
        · cases ho : (dictGet dict "_panic").object_value_ with
          | none =>
            rw [ht, ho] at h
            simp at h
          | some hd =>
            simp only [ne_eq, ht, not_true_eq_false, if_false, ho, Option.isNone_some,
              Bool.false_eq_true, bind, pure, pure_bind]
            rw [ht, ho] at h
            simp only at h
            cases hh : w.heap[hd]? with
            | none => rfl
            | some obj =>
              rw [hh] at h
              cases obj with
              | Function fn => rfl
              | ArrayBuffer d => simp at h
              | DictionaryValues d => simp at h
              | Constructor nm fn => simp at h
              | TypedArray cn ab off len => simp at h
              | Enosys nm => simp at h
        · exfalso
          apply h
          split
          · rename_i heq _
            exact absurd heq ht
          · rfl
    | ArrayBuffer d => rfl
    | Function fn => rfl
    | Constructor nm fn => rfl
    | TypedArray cn ab off len => rfl
    | Enosys nm => rfl

end JS

/-- C24, as stated, fails: with the number 1 stored under `_panic` the handler
is not undefined, `handler.ToObject()` faults, the fault calls `panic`, which
finds the same handler: the recursion reaches every bound, no function is
invoked and `panic` does not return.  Under the bound 3 the trace holds three
calls of `panic` and nothing else. -/
theorem c24_number_handler_never_returns :
    ((JS.dictGet [("_panic", JS.Value.ofNat 1)] "_panic").IsUndefined = false
      ∧ JS.World.numberHandler.heap[JS.World.numberHandler.global]?
        = some (.DictionaryValues [("_panic", JS.Value.ofNat 1)]))
      ∧ (JS.panic "boom" JS.World.numberHandler).1 = .diverged
      ∧ (∀ fuel, (JS.panicRec JS.Env.plain fuel "boom" JS.World.numberHandler).1 = .diverged)
      ∧ JS.panicRec JS.Env.plain 3 "boom" JS.World.numberHandler
        = (.diverged,
          { JS.World.numberHandler with
            trace := [JS.Event.panic "boom",
              JS.Event.panic "Value::ToObject: the type must be Type::Object but not: ?",
              JS.Event.panic "Value::ToObject: the type must be Type::Object but not: ?"] }) := by
  have h : (JS.panic "boom" JS.World.numberHandler).1 = .diverged := by decide!
  exact ⟨⟨by decide!, rfl⟩, h,
    fun fuel => JS.panicRec_diverged JS.Env.plain fuel "boom" JS.World.numberHandler h,
    by decide!⟩

/-- C24, amended: in every state in which the global object holds a `Function`
object under `_panic`, `panic(msg)` calls the wrapped function exactly once,
with `Value{}` and the single argument `Value{msg}`, and returns: the process
does not exit, nothing else is called and nothing but the trace changes.  The
recursion spelled out gives the same under every bound but 0. -/
theorem c24_function_handler_called_once (env : JS.Env) (w : JS.World)
    (dict : List (String × JS.Value)) (hd : Nat) (fn : JS.Func) (msg : String)
    (hg : w.heap[w.global]? = some (.DictionaryValues dict))
    (ht : (JS.dictGet dict "_panic").type_ = .Object)
    (ho : (JS.dictGet dict "_panic").object_value_ = some hd)
    (hf : w.heap[hd]? = some (.Function fn)) :
    JS.panic msg w
        = (.ok (),
          { w with
            trace := w.trace
              ++ [JS.Event.panic msg,
                JS.Event.call fn JS.Value.undefined [JS.Value.ofString msg]] })
      ∧ ∀ fuel, JS.panicRec env (fuel + 1) msg w
        = (.ok (),
          { w with
            trace := w.trace
              ++ [JS.Event.panic msg,
                JS.Event.call fn JS.Value.undefined [JS.Value.ofString msg]] }) := by
  have hu : (JS.dictGet dict "_panic").IsUndefined = false := by
    simp [JS.Value.IsUndefined, ht]
  have h : JS.panic msg w
      = (.ok (),
        { w with
          trace := w.trace
            ++ [JS.Event.panic msg,
              JS.Event.call fn JS.Value.undefined [JS.Value.ofString msg]] }) := by
    unfold JS.panic
    simp only [hg, hu, Bool.false_eq_true, if_false, ht, ho, hf, List.append_assoc,
      List.singleton_append]
  refine ⟨h, fun fuel => ?_⟩
  rw [JS.panicRec_eq_panic env fuel msg w (by rw [h]; simp), h]

theorem c24_function_handler_called_once_witness :
    JS.panic "boom" JS.World.withHandler
        = (.ok (),
          { JS.World.withHandler with
            trace := JS.World.withHandler.trace
              ++ [JS.Event.panic "boom",
                JS.Event.call (.foreign 9) JS.Value.undefined [JS.Value.ofString "boom"]] })
      ∧ ∀ fuel, JS.panicRec JS.Env.plain (fuel + 1) "boom" JS.World.withHandler
        = (.ok (),
          { JS.World.withHandler with
            trace := JS.World.withHandler.trace
              ++ [JS.Event.panic "boom",
                JS.Event.call (.foreign 9) JS.Value.undefined [JS.Value.ofString "boom"]] }) :=
  c24_function_handler_called_once JS.Env.plain JS.World.withHandler
    [("_panic", JS.Value.ofObject (some 1))] 1 (.foreign 9) "boom" rfl (by decide!) (by decide!) rfl

namespace JS

/-- The byte view of a typed array over an array buffer, in a heap that holds
both. -/
theorem typedArray_toBytes (w : World) (v ab : Nat) (cn : String) (data : List Nat)
    (off len : Nat) (hv : w.heap[v]? = some (.TypedArray cn (some ab) off len))
    (hab : w.heap[ab]? = some (.ArrayBuffer data)) :
    Object.ToBytes v w = (.ok ⟨some ab, off, len⟩, w) := by
  have hlt : ab < w.heap.length := by
    by_contra hcon
    rw [List.getElem?_eq_none (by omega)] at hab
    simp at hab
  obtain ⟨k, hk⟩ : ∃ k, w.heap.length + 1 = (k + 1) + 1 := ⟨w.heap.length - 1, by omega⟩
  unfold Object.ToBytes
  rw [hk]
  simp [objectToBytes, hv, hab]

theorem arrayBuffer_toBytes (w : World) (ab : Nat) (data : List Nat)
    (hab : w.heap[ab]? = some (.ArrayBuffer data)) :
    Object.ToBytes ab w = (.ok ⟨some ab, 0, data.length⟩, w) := by
  unfold Object.ToBytes
  simp [objectToBytes, hab]

/-- What a typed array constructed over `ab` with the byte window
`[off, off + len)` shows, once it is in the heap at the fresh address. -/
theorem typedArray_window (env : Env) (w : World) (ab : Nat) (cn : String) (data : List Nat)
    (off len : Nat) (hab : w.heap[ab]? = some (.ArrayBuffer data))
    (hin : off + len ≤ data.length) :
    Object.ToBytes w.heap.length { w with heap := w.heap ++ [.TypedArray cn (some ab) off len] }
        = (.ok ⟨some ab, off, len⟩,
          { w with heap := w.heap ++ [.TypedArray cn (some ab) off len] })
      ∧ spanBytes { w with heap := w.heap ++ [.TypedArray cn (some ab) off len] }
          ⟨some ab, off, len⟩ = some ((data.drop off).take len)
      ∧ Object.Get env w.heap.length "byteOffset"
          { w with heap := w.heap ++ [.TypedArray cn (some ab) off len] }
        = (.ok (Value.ofNumber (Double.ofNat off)),
          { w with heap := w.heap ++ [.TypedArray cn (some ab) off len] })
      ∧ Object.Get env w.heap.length "byteLength"
          { w with heap := w.heap ++ [.TypedArray cn (some ab) off len] }
        = (.ok (Value.ofNumber (Double.ofNat len)),
          { w with heap := w.heap ++ [.TypedArray cn (some ab) off len] })
      ∧ ∀ i x, i < len →
          ∃ w2, spanWrite { w with heap := w.heap ++ [.TypedArray cn (some ab) off len] }
              ⟨some ab, off, len⟩ i x = some w2
            ∧ Object.ToBytes ab w2 = (.ok ⟨some ab, 0, data.length⟩, w2)
            ∧ spanBytes w2 ⟨some ab, 0, data.length⟩ = some (data.set (off + i) x)
            ∧ (data.set (off + i) x)[off + i]? = some x := by
  have hlt : ab < w.heap.length := by
    by_contra hcon
    rw [List.getElem?_eq_none (by omega)] at hab
    simp at hab
  have hab1 : (w.heap ++ [Object.TypedArray cn (some ab) off len])[ab]?
      = some (.ArrayBuffer data) := by
    rw [List.getElem?_append_left hlt]
    exact hab
  have hv1 : (w.heap ++ [Object.TypedArray cn (some ab) off len])[w.heap.length]?
      = some (.TypedArray cn (some ab) off len) := by
    simp
  refine ⟨?_, ?_, ?_, ?_, ?_⟩
  · exact typedArray_toBytes { w with heap := w.heap ++ [.TypedArray cn (some ab) off len] }
      w.heap.length ab cn data off len hv1 hab1
  · simp [spanBytes, hab1, hin]
  · simp [Object.Get, hv1]
  · simp [Object.Get, hv1]
  · intro i x hi
    have hset : ((w.heap ++ [Object.TypedArray cn (some ab) off len]).set ab
        (.ArrayBuffer (data.set (off + i) x)))[ab]? = some (.ArrayBuffer (data.set (off + i) x)) := by
      rw [List.getElem?_set_self (by simp; omega)]
    refine ⟨{ w with
      heap := ((w.heap ++ [Object.TypedArray cn (some ab) off len]).set ab
        (.ArrayBuffer (data.set (off + i) x))) }, ?_, ?_, ?_, ?_⟩
    · have h2 : i < len ∧ off + i < data.length := ⟨hi, by omega⟩
      simp [spanWrite, hab1, h2]
    · have := arrayBuffer_toBytes
        { w with
          heap := ((w.heap ++ [Object.TypedArray cn (some ab) off len]).set ab
            (.ArrayBuffer (data.set (off + i) x))) } ab (data.set (off + i) x) hset
      simpa using this
    · simp [spanBytes, hset]
    · rw [List.getElem?_set_self (by omega)]

end JS

/-! ### Claims on typed arrays and on the fields of a value -/

/-- C25: let `view` be built over the array buffer `ab` by the three-argument
constructor of `Uint8Array` (`s = 1`), `Uint16Array` (`s = 2`) or
`Float32Array` (`s = 4`), the window `[s * offset, s * offset + s * length)`
lying inside the buffer.  Then `ToBytes` of the view is the window, the bytes
it shows are the bytes of `ab` in the window, `Get("byteOffset")` and
`Get("byteLength")` are the numbers `s * offset` and `s * length`, and a byte
written at index `i` of the view is the byte `s * offset + i` of what `ab`
shows afterwards. -/
theorem c25_typed_array_windows (env : JS.Env) (w : JS.World) (ab : Nat) (data : List Nat)
    (offset length s : Nat) (view : JS.Object)
    (hab : w.heap[ab]? = some (.ArrayBuffer data))
    (hview : (s = 1 ∧ view = JS.Uint8Array.new (some ab) offset length)
      ∨ (s = 2 ∧ view = JS.Uint16Array.new (some ab) offset length)
      ∨ (s = 4 ∧ view = JS.Float32Array.new (some ab) offset length))
    (hin : s * offset + s * length ≤ data.length) (hlen : data.length < 2 ^ 64) :
    JS.Object.ToBytes w.heap.length { w with heap := w.heap ++ [view] }
        = (.ok ⟨some ab, s * offset, s * length⟩, { w with heap := w.heap ++ [view] })
      ∧ JS.spanBytes { w with heap := w.heap ++ [view] } ⟨some ab, s * offset, s * length⟩
        = some ((data.drop (s * offset)).take (s * length))
      ∧ JS.Object.Get env w.heap.length "byteOffset" { w with heap := w.heap ++ [view] }
        = (.ok (JS.Value.ofNumber (JS.Double.ofNat (s * offset))),
          { w with heap := w.heap ++ [view] })
      ∧ JS.Object.Get env w.heap.length "byteLength" { w with heap := w.heap ++ [view] }
        = (.ok (JS.Value.ofNumber (JS.Double.ofNat (s * length))),
          { w with heap := w.heap ++ [view] })
      ∧ ∀ i x, i < s * length →
          ∃ w2, JS.spanWrite { w with heap := w.heap ++ [view] }
              ⟨some ab, s * offset, s * length⟩ i x = some w2
            ∧ JS.Object.ToBytes ab w2 = (.ok ⟨some ab, 0, data.length⟩, w2)
            ∧ JS.spanBytes w2 ⟨some ab, 0, data.length⟩ = some (data.set (s * offset + i) x)
            ∧ (data.set (s * offset + i) x)[s * offset + i]? = some x := by
  rcases hview with ⟨hs, hv⟩ | ⟨hs, hv⟩ | ⟨hs, hv⟩
  · subst hs hv
    have e1 : 1 * offset = offset := Nat.one_mul _
    have e2 : 1 * length = length := Nat.one_mul _
    rw [e1, e2] at hin ⊢
    exact JS.typedArray_window env w ab "Uint8Array" data offset length hab hin
  · subst hs hv
    have e1 : offset * 2 % 2 ^ 64 = 2 * offset := by omega
    have e2 : length * 2 % 2 ^ 64 = 2 * length := by omega
    unfold JS.Uint16Array.new JS.TypedArray.new
    rw [e1, e2]
    exact JS.typedArray_window env w ab "Uint16Array" data (2 * offset) (2 * length) hab hin
  · subst hs hv
    have e1 : offset * 4 % 2 ^ 64 = 4 * offset := by omega
    have e2 : length * 4 % 2 ^ 64 = 4 * length := by omega
    unfold JS.Float32Array.new JS.TypedArray.new
    rw [e1, e2]
    exact JS.typedArray_window env w ab "Float32Array" data (4 * offset) (4 * length) hab hin

theorem c25_typed_array_windows_witness :
    JS.Object.ToBytes JS.World.withHandler.heap.length
        { JS.World.withHandler with heap := JS.World.withHandler.heap
        ++ [JS.Uint16Array.new (some 3) 1 2] }
        = (.ok ⟨some 3, 2 * 1, 2 * 2⟩,
            { JS.World.withHandler with heap := JS.World.withHandler.heap
            ++ [JS.Uint16Array.new (some 3) 1 2] })
      ∧ JS.spanBytes { JS.World.withHandler with heap := JS.World.withHandler.heap
          ++ [JS.Uint16Array.new (some 3) 1 2] } ⟨some 3, 2 * 1, 2 * 2⟩
        = some (([1, 2, 3, 4, 5, 6, 7, 8].drop (2 * 1)).take (2 * 2))
      ∧ JS.Object.Get JS.Env.plain JS.World.withHandler.heap.length "byteOffset"
          { JS.World.withHandler with heap := JS.World.withHandler.heap
          ++ [JS.Uint16Array.new (some 3) 1 2] }
        = (.ok (JS.Value.ofNumber (JS.Double.ofNat (2 * 1))),
          { JS.World.withHandler with heap := JS.World.withHandler.heap
              ++ [JS.Uint16Array.new (some 3) 1 2] })
      ∧ JS.Object.Get JS.Env.plain JS.World.withHandler.heap.length "byteLength"
          { JS.World.withHandler with heap := JS.World.withHandler.heap
          ++ [JS.Uint16Array.new (some 3) 1 2] }
        = (.ok (JS.Value.ofNumber (JS.Double.ofNat (2 * 2))),
          { JS.World.withHandler with heap := JS.World.withHandler.heap
              ++ [JS.Uint16Array.new (some 3) 1 2] })
      ∧ ∀ i x, i < 2 * 2 →
          ∃ w2, JS.spanWrite { JS.World.withHandler with heap := JS.World.withHandler.heap
              ++ [JS.Uint16Array.new (some 3) 1 2] }
              ⟨some 3, 2 * 1, 2 * 2⟩ i x = some w2
            ∧ JS.Object.ToBytes 3 w2 = (.ok ⟨some 3, 0, [1, 2, 3, 4, 5, 6, 7, 8].length⟩, w2)
            ∧ JS.spanBytes w2 ⟨some 3, 0, [1, 2, 3, 4, 5, 6, 7, 8].length⟩
                = some ([1, 2, 3, 4, 5, 6, 7, 8].set (2 * 1 + i) x)
            ∧ ([1, 2, 3, 4, 5, 6, 7, 8].set (2 * 1 + i) x)[2 * 1 + i]? = some x :=
  c25_typed_array_windows JS.Env.plain JS.World.withHandler 3 [1, 2, 3, 4, 5, 6, 7, 8] 1 2 2
    (JS.Uint16Array.new (some 3) 1 2) rfl (Or.inr (Or.inl ⟨rfl, rfl⟩)) (by decide) (by decide)

/-- C26: the value of the default constructor, `Value::Null()` and the values
of the constructors from a `bool`, a `double`, a string, an object pointer and
a vector have at most one payload field that differs from its default, and
that field belongs to the tag (`num_value_` for Bool and Number, `str_value_`
for String, `object_value_` or `array_value_` for Object); the memberwise copy
of a value is the value, so copying keeps this. -/
theorem c26_payload_invariant (b : Bool) (d : JS.Double) (s : String) (o : Option Nat)
    (a : Nat) (v : JS.Value) :
    JS.Value.undefined.payloadOk ∧ JS.Value.Null.payloadOk
      ∧ (JS.Value.ofBool b).payloadOk ∧ (JS.Value.ofNumber d).payloadOk
      ∧ (JS.Value.ofString s).payloadOk ∧ (JS.Value.ofObject o).payloadOk
      ∧ (JS.Value.ofArray a).payloadOk
      ∧ v.copy = v ∧ (v.payloadOk → v.copy.payloadOk) := by
  refine ⟨?_, ?_, ?_, ?_, ?_, ?_, ?_, rfl, fun h => h⟩
  · simp [JS.Value.payloadOk, JS.Value.nonDefault, JS.Value.undefined]
  · simp [JS.Value.payloadOk, JS.Value.nonDefault, JS.Value.Null]
  · cases b <;>
      simp [JS.Value.payloadOk, JS.Value.nonDefault, JS.Value.ofBool, JS.Double.ofBool,
        JS.tagFields]
  · by_cases hd : d = ⟨0⟩ <;>
      simp [JS.Value.payloadOk, JS.Value.nonDefault, JS.Value.ofNumber, JS.tagFields, hd]
  · by_cases hs : s = "" <;>
      simp [JS.Value.payloadOk, JS.Value.nonDefault, JS.Value.ofString, JS.tagFields, hs]
  · cases o <;>
      simp [JS.Value.payloadOk, JS.Value.nonDefault, JS.Value.ofObject, JS.tagFields]
  · simp [JS.Value.payloadOk, JS.Value.nonDefault, JS.Value.ofArray, JS.tagFields]

/-! ### Lemmas on single steps of the translator -/

theorem storeOps_case : ∀ c ∈ storeOps, caseOf c = .pop 2 := by decide

theorem loadOps_case : ∀ c ∈ loadOps, caseOf c = .skip := by decide

theorem comparisonOps_case : ∀ c ∈ comparisonOps, caseOf c = .pop 1 := by decide

theorem arithmeticOps_case : ∀ c ∈ arithmeticOps, caseOf c = .pop 1 := by decide

theorem unaryOps_case : ∀ c ∈ unaryOps, caseOf c = .skip := by decide

theorem step_of_pop (st : TransState) (instr : Instr) (k : Nat)
    (h : caseOf instr.Op.Code = .pop k) : step st instr = popK k st := by
  unfold step
  rw [h]

theorem step_of_skip (st : TransState) (instr : Instr) (h : caseOf instr.Op.Code = .skip) :
    step st instr = .ok st := by
  unfold step
  rw [h]

theorem popK_one (st : TransState) (s : List Nat) (t : Nat) (h : st.idxStack = s ++ [t]) :
    popK 1 st = .ok { st with idxStack := s } := by
  unfold popK sliceOff
  rw [h]
  simp

theorem popK_two (st : TransState) (s : List Nat) (a b : Nat) (h : st.idxStack = s ++ [a, b]) :
    popK 2 st = .ok { st with idxStack := s } := by
  unfold popK sliceOff
  rw [h]
  simp

theorem topOf_snoc (s : List Nat) (t : Nat) : topOf (s ++ [t]) = .ok t := by
  unfold topOf
  simp

/-- The `%d` rendering of an integer: its decimal digits, after a minus sign
when it is negative. -/
theorem fmtD_decimal (v : Int) :
    fmtD v = if v < 0 then "-" ++ Nat.repr v.natAbs else Nat.repr v.natAbs := by
  unfold fmtD
  cases v with
  | ofNat n =>
    have h : ¬ ((Int.ofNat n) < 0) := by simp
    rw [if_neg h]
    rfl
  | negSucc n =>
    have h : (Int.negSucc n) < 0 := Int.negSucc_lt_zero n
    rw [if_pos h]
    rfl

/-! ### Claims on single instructions of the translator -/

/-- C27: from every state whose live stack is not empty and has the slot `t`
on top, with `n` the current counter: `get_local i` (`get_global i`) emits
`dynamic stack<n> = local<i>;` (`global<i>`), pushes `n` and increments the
counter; `set_local i` (`set_global i`) emits `local<i> = stack<t>;`
(`global<i>`) and removes `t`; `tee_local i` emits `local<i> = stack<t>;` and
leaves the live stack and the counter as they are. -/
theorem c27_local_global_access (st : TransState) (s : List Nat) (t : Nat) (text : String)
    (i : Int) (rest : List Int) (hs : st.idxStack = s ++ [t]) :
    step st (mkInstr .GetLocal text (i :: rest))
        = .ok { body := st.body ++ ["dynamic stack" ++ fmtD st.newIdx ++ " = local" ++ fmtD i ++ ";"],
                newIdx := st.newIdx + 1, idxStack := s ++ [t] ++ [st.newIdx] }
      ∧ step st (mkInstr .GetGlobal text (i :: rest))
        = .ok { body := st.body ++ ["dynamic stack" ++ fmtD st.newIdx ++ " = global" ++ fmtD i ++ ";"],
                newIdx := st.newIdx + 1, idxStack := s ++ [t] ++ [st.newIdx] }
      ∧ step st (mkInstr .SetLocal text (i :: rest))
        = .ok { body := st.body ++ ["local" ++ fmtD i ++ " = stack" ++ fmtD t ++ ";"],
                newIdx := st.newIdx, idxStack := s }
      ∧ step st (mkInstr .SetGlobal text (i :: rest))
        = .ok { body := st.body ++ ["global" ++ fmtD i ++ " = stack" ++ fmtD t ++ ";"],
                newIdx := st.newIdx, idxStack := s }
      ∧ step st (mkInstr .TeeLocal text (i :: rest))
        = .ok { body := st.body ++ ["local" ++ fmtD i ++ " = stack" ++ fmtD t ++ ";"],
                newIdx := st.newIdx, idxStack := s ++ [t] } := by
  have htop : topOf st.idxStack = .ok t := by rw [hs]; exact topOf_snoc s t
  have c1 : caseOf (mkInstr .GetLocal text (i :: rest)).Op.Code = .getLocal := rfl
  have c2 : caseOf (mkInstr .GetGlobal text (i :: rest)).Op.Code = .getGlobal := rfl
  have c3 : caseOf (mkInstr .SetLocal text (i :: rest)).Op.Code = .setLocal := rfl
  have c4 : caseOf (mkInstr .SetGlobal text (i :: rest)).Op.Code = .setGlobal := rfl
  have c5 : caseOf (mkInstr .TeeLocal text (i :: rest)).Op.Code = .teeLocal := rfl
  refine ⟨?_, ?_, ?_, ?_, ?_⟩
  · unfold step
    rw [c1]
    simp only [mkInstr, nextIdx, imm0, emit, push, hs]
  · unfold step
    rw [c2]
    simp only [mkInstr, nextIdx, imm0, emit, push, hs]
  · unfold step
    rw [c3]
    simp only [mkInstr, imm0, htop]
    rw [popK_one (emit st _) s t (by simpa [emit] using hs)]
    rfl
  · unfold step
    rw [c4]
    simp only [mkInstr, imm0, htop]
    rw [popK_one (emit st _) s t (by simpa [emit] using hs)]
    rfl
  · unfold step
    rw [c5]
    simp only [mkInstr, imm0, htop, emit]
    rw [hs]

theorem c27_local_global_access_witness :
    step ⟨["dynamic stack0 = 7;"], 1, [] ++ [0]⟩ (mkInstr .GetLocal "get_local" (3 :: []))
        = .ok { body := ["dynamic stack0 = 7;"]
                  ++ ["dynamic stack" ++ fmtD ((1 : Nat) : Int) ++ " = local" ++ fmtD 3 ++ ";"],
                newIdx := 1 + 1, idxStack := [] ++ [0] ++ [1] }
      ∧ step ⟨["dynamic stack0 = 7;"], 1, [] ++ [0]⟩ (mkInstr .GetGlobal "get_local" (3 :: []))
        = .ok { body := ["dynamic stack0 = 7;"]
                  ++ ["dynamic stack" ++ fmtD ((1 : Nat) : Int) ++ " = global" ++ fmtD 3 ++ ";"],
                newIdx := 1 + 1, idxStack := [] ++ [0] ++ [1] }
      ∧ step ⟨["dynamic stack0 = 7;"], 1, [] ++ [0]⟩ (mkInstr .SetLocal "get_local" (3 :: []))
        = .ok { body := ["dynamic stack0 = 7;"]
                  ++ ["local" ++ fmtD 3 ++ " = stack" ++ fmtD ((0 : Nat) : Int) ++ ";"],
                newIdx := 1, idxStack := [] }
      ∧ step ⟨["dynamic stack0 = 7;"], 1, [] ++ [0]⟩ (mkInstr .SetGlobal "get_local" (3 :: []))
        = .ok { body := ["dynamic stack0 = 7;"]
                  ++ ["global" ++ fmtD 3 ++ " = stack" ++ fmtD ((0 : Nat) : Int) ++ ";"],
                newIdx := 1, idxStack := [] }
      ∧ step ⟨["dynamic stack0 = 7;"], 1, [] ++ [0]⟩ (mkInstr .TeeLocal "get_local" (3 :: []))
        = .ok { body := ["dynamic stack0 = 7;"]
                  ++ ["local" ++ fmtD 3 ++ " = stack" ++ fmtD ((0 : Nat) : Int) ++ ";"],
                newIdx := 1, idxStack := [] ++ [0] } :=
  c27_local_global_access ⟨["dynamic stack0 = 7;"], 1, [] ++ [0]⟩ [] 0 "get_local" 3 [] rfl

/-- C28: for `i32.const` and `i64.const` with the immediate `v`, from every
state with counter `n`: the step emits the one statement
`dynamic stack<n> = <v>;`, pushes `n`, increments the counter, and the live
stack is one deeper; `<v>` is `v` in decimal digits, after a minus sign when
`v` is negative. -/
theorem c28_integer_constants (st : TransState) (text : String) (v : Int) (rest : List Int) :
    (∀ c ∈ [Opcode.I32Const, Opcode.I64Const],
        step st (mkInstr c text (v :: rest))
          = .ok { body := st.body ++ ["dynamic stack" ++ fmtD st.newIdx ++ " = " ++ fmtD v ++ ";"],
                  newIdx := st.newIdx + 1, idxStack := st.idxStack ++ [st.newIdx] })
      ∧ (st.idxStack ++ [st.newIdx]).length = st.idxStack.length + 1
      ∧ fmtD v = (if v < 0 then "-" ++ Nat.repr v.natAbs else Nat.repr v.natAbs) := by
  refine ⟨?_, by simp, fmtD_decimal v⟩
  intro c hc
  simp only [List.mem_cons, List.mem_singleton, List.not_mem_nil, or_false] at hc
  have c1 : caseOf (mkInstr .I32Const text (v :: rest)).Op.Code = .intConst := rfl
  have c2 : caseOf (mkInstr .I64Const text (v :: rest)).Op.Code = .intConst := rfl
  rcases hc with rfl | rfl
  · unfold step
    rw [c1]
    simp only [mkInstr, nextIdx, imm0, emit, push]
  · unfold step
    rw [c2]
    simp only [mkInstr, nextIdx, imm0, emit, push]

/-- C29: for each of the nine store opcodes, from every state whose live stack
has two slots `a`, `b` on top of `s`, the step leaves the live stack `s` and
changes nothing else; for each of the fourteen load opcodes the step changes
nothing, so the depth of the live stack is the same. -/
theorem c29_memory_access_stack_effect (st : TransState) (s : List Nat) (a b : Nat)
    (text : String) (imms : List Int) (hs : st.idxStack = s ++ [a, b]) :
    (∀ c ∈ storeOps, step st (mkInstr c text imms) = .ok { st with idxStack := s })
      ∧ (∀ c ∈ loadOps, ∃ st1, step st (mkInstr c text imms) = .ok st1 ∧ st1 = st
          ∧ st1.idxStack.length = st.idxStack.length)
      ∧ storeOps.length = 9 ∧ loadOps.length = 14 := by
  refine ⟨?_, ?_, rfl, rfl⟩
  · intro c h
    rw [step_of_pop st (mkInstr c text imms) 2 (storeOps_case _ h)]
    exact popK_two st s a b hs
  · intro c h
    exact ⟨st, step_of_skip st (mkInstr c text imms) (loadOps_case _ h), rfl, rfl⟩

theorem c29_memory_access_stack_effect_witness :
    (∀ c ∈ storeOps, step ⟨[], 3, [0] ++ [1, 2]⟩ (mkInstr c "store" [1, 0])
        = .ok { (⟨[], 3, [0] ++ [1, 2]⟩ : TransState) with idxStack := [0] })
      ∧ (∀ c ∈ loadOps, ∃ st1, step ⟨[], 3, [0] ++ [1, 2]⟩ (mkInstr c "store" [1, 0]) = .ok st1
          ∧ st1 = ⟨[], 3, [0] ++ [1, 2]⟩
          ∧ st1.idxStack.length = (⟨[], 3, [0] ++ [1, 2]⟩ : TransState).idxStack.length)
      ∧ storeOps.length = 9 ∧ loadOps.length = 14 :=
  c29_memory_access_stack_effect ⟨[], 3, [0] ++ [1, 2]⟩ [0] 1 2 "store" [1, 0] rfl

/-- C30: for every binary comparison and binary arithmetic opcode, from every
state whose live stack has at least two slots, the step removes the top slot
and changes nothing else, so the live stack is one slot shallower; for every
unary opcode the step changes nothing, so the depth is the same. -/
theorem c30_numeric_stack_effect (st : TransState) (text : String) (imms : List Int)
    (hd : 2 ≤ st.idxStack.length) :
    (∀ c ∈ comparisonOps ++ arithmeticOps,
        ∃ st1, step st (mkInstr c text imms) = .ok st1
          ∧ st1 = { st with idxStack := st.idxStack.dropLast }
          ∧ st1.idxStack.length + 1 = st.idxStack.length)
      ∧ (∀ c ∈ unaryOps, ∃ st1, step st (mkInstr c text imms) = .ok st1 ∧ st1 = st
          ∧ st1.idxStack.length = st.idxStack.length) := by
  constructor
  · intro c h
    have hcase : caseOf (mkInstr c text imms).Op.Code = .pop 1 := by
      rcases List.mem_append.1 h with h1 | h1
      · exact comparisonOps_case _ h1
      · exact arithmeticOps_case _ h1
    have hne : st.idxStack ≠ [] := by
      intro h0
      rw [h0] at hd
      simp at hd
    refine ⟨_, ?_, rfl, ?_⟩
    · rw [step_of_pop st (mkInstr c text imms) 1 hcase]
      have hsplit := List.dropLast_append_getLast hne
      exact popK_one st st.idxStack.dropLast (st.idxStack.getLast hne) hsplit.symm
    · show st.idxStack.dropLast.length + 1 = st.idxStack.length
      rw [List.length_dropLast]
      omega
  · intro c h
    exact ⟨st, step_of_skip st (mkInstr c text imms) (unaryOps_case _ h), rfl, rfl⟩

theorem c30_numeric_stack_effect_witness :
    (∀ c ∈ comparisonOps ++ arithmeticOps,
        ∃ st1, step ⟨[], 3, [0, 1, 2]⟩ (mkInstr c "op" []) = .ok st1
          ∧ st1 = { (⟨[], 3, [0, 1, 2]⟩ : TransState) with
                    idxStack := (⟨[], 3, [0, 1, 2]⟩ : TransState).idxStack.dropLast }
          ∧ st1.idxStack.length + 1 = (⟨[], 3, [0, 1, 2]⟩ : TransState).idxStack.length)
      ∧ (∀ c ∈ unaryOps, ∃ st1, step ⟨[], 3, [0, 1, 2]⟩ (mkInstr c "op" []) = .ok st1
          ∧ st1 = ⟨[], 3, [0, 1, 2]⟩
          ∧ st1.idxStack.length = (⟨[], 3, [0, 1, 2]⟩ : TransState).idxStack.length) :=
  c30_numeric_stack_effect ⟨[], 3, [0, 1, 2]⟩ "op" [] (by decide)

/-! ### Lemmas on the slot invariant -/

theorem isDecl_of_head (c : Char) (r : List Char) (s : String) (h : s.data = c :: r)
    (hc : c ≠ 'd') : isDecl s = false := by
  unfold isDecl
  rw [h]
  have h0 : "dynamic stack".data = 'd' :: "ynamic stack".data := rfl
  rw [h0]
  simp only [List.isPrefixOf, Bool.and_eq_false_imp, beq_iff_eq]
  intro h1
  exact absurd h1.symm hc

theorem isDecl_local (t : String) : isDecl ("local" ++ t) = false :=
  isDecl_of_head 'l' ("ocal".data ++ t.data) _ (by rw [String.data_append]; rfl) (by decide)

theorem isDecl_global (t : String) : isDecl ("global" ++ t) = false :=
  isDecl_of_head 'g' ("lobal".data ++ t.data) _ (by rw [String.data_append]; rfl) (by decide)

theorem isDecl_comment (t : String) : isDecl ("// " ++ t) = false :=
  isDecl_of_head '/' ("/ ".data ++ t.data) _ (by rw [String.data_append]; rfl) (by decide)

theorem isDecl_assert : isDecl assertStmt = false := by decide

theorem isDecl_render (d : Nat × String) : isDecl (renderDecl d) = true := by
  unfold isDecl renderDecl
  rw [String.data_append]
  exact List.isPrefixOf_iff_prefix.2 (List.prefix_append _ _)

theorem filter_snoc_decl (body : List String) (d : Nat × String) :
    (body ++ [renderDecl d]).filter isDecl = body.filter isDecl ++ [renderDecl d] := by
  rw [List.filter_append]
  simp [isDecl_render]

theorem filter_snoc_other (body : List String) (s : String) (h : isDecl s = false) :
    (body ++ [s]).filter isDecl = body.filter isDecl := by
  rw [List.filter_append]
  simp [h]

theorem pairwise_snoc (s : List Nat) (n : Nat) (hp : s.Pairwise (· < ·))
    (hb : ∀ x ∈ s, x < n) : (s ++ [n]).Pairwise (· < ·) := by
  rw [List.pairwise_append]
  refine ⟨hp, List.pairwise_singleton _ _, ?_⟩
  intro a ha b hb1
  rw [List.mem_singleton] at hb1
  subst hb1
  exact hb a ha

/-- A state that only emitted a statement that is no declaration keeps the
invariant. -/
theorem Fresh.emit_other {st : TransState} (h : Fresh st) (s : String) (hs : isDecl s = false) :
    Fresh (emit st s) := by
  obtain ⟨h1, h2, decls, h3, h4, h5⟩ := h
  refine ⟨h1, h2, decls, ?_, h4, h5⟩
  show (st.body ++ [s]).filter isDecl = _
  rw [filter_snoc_other _ _ hs, h3]

/-- Removing slots from the top keeps the invariant. -/
theorem Fresh.popK {st st1 : TransState} {k : Nat} (h : Fresh st) (hp : popK k st = .ok st1) :
    Fresh st1 ∧ st1.newIdx = st.newIdx := by
  obtain ⟨e1, e2, e3⟩ := popK_depth hp
  obtain ⟨h1, h2, decls, h3, h4, h5⟩ := h
  refine ⟨⟨?_, ?_, decls, ?_, h4, ?_⟩, e3⟩
  · rw [e1]
    exact h1.sublist (List.take_sublist _ _)
  · intro n hn
    rw [e1] at hn
    rw [e3]
    exact h2 n (List.mem_of_mem_take hn)
  · rw [e2, h3]
  · rw [e3]
    exact h5

/-- Allocating a slot and pushing it, with or without its declaration, keeps
the invariant. -/
theorem Fresh.alloc {st : TransState} (h : Fresh st) :
    Fresh { st with newIdx := st.newIdx + 1, idxStack := st.idxStack ++ [st.newIdx] }
      ∧ ∀ rest : String,
        Fresh { body := st.body ++ [renderDecl (st.newIdx, rest)], newIdx := st.newIdx + 1,
                idxStack := st.idxStack ++ [st.newIdx] } := by
  obtain ⟨h1, h2, decls, h3, h4, h5⟩ := h
  have hstack : (st.idxStack ++ [st.newIdx]).Pairwise (· < ·) := pairwise_snoc _ _ h1 h2
  have hbound : ∀ n ∈ st.idxStack ++ [st.newIdx], n < st.newIdx + 1 := by
    intro n hn
    rcases List.mem_append.1 hn with hn | hn
    · exact Nat.lt_succ_of_lt (h2 n hn)
    · rw [List.mem_singleton] at hn
      omega
  refine ⟨⟨hstack, hbound, decls, h3, h4, fun d hd => Nat.lt_succ_of_lt (h5 d hd)⟩, ?_⟩
  intro rest
  refine ⟨hstack, hbound, decls ++ [(st.newIdx, rest)], ?_, ?_, ?_⟩
  · show (st.body ++ [renderDecl (st.newIdx, rest)]).filter isDecl = _
    rw [filter_snoc_decl, h3, List.map_append]
    rfl
  · rw [List.map_append]
    refine pairwise_snoc _ _ h4 ?_
    intro x hx
    obtain ⟨d, hd, rfl⟩ := List.mem_map.1 hx
    exact h5 d hd
  · intro d hd
    rcases List.mem_append.1 hd with hd | hd
    · exact Nat.lt_succ_of_lt (h5 d hd)
    · rw [List.mem_singleton] at hd
      subst hd
      exact Nat.lt_succ_self _

/-- One iteration keeps the slot invariant and does not decrease the
counter. -/
theorem step_fresh {st st1 : TransState} {i : Instr} (hf : Fresh st) (h : step st i = .ok st1) :
    Fresh st1 ∧ st.newIdx ≤ st1.newIdx := by
  unfold step at h
  cases hc : caseOf i.Op.Code with
  | pop k =>
    rw [hc] at h
    obtain ⟨g1, g2⟩ := hf.popK h
    exact ⟨g1, by rw [g2]⟩
  | skip =>
    rw [hc] at h
    simp only [Except.ok.injEq] at h
    subst h
    exact ⟨hf, Nat.le_refl _⟩
  | currentMemory =>
    rw [hc] at h
    simp only [nextIdx, push, Except.ok.injEq] at h
    subst h
    exact ⟨hf.alloc.1, Nat.le_succ _⟩
  | assertFalse =>
    rw [hc] at h
    simp only [Except.ok.injEq] at h
    subst h
    exact ⟨hf.emit_other _ isDecl_assert, Nat.le_refl _⟩
  | passthrough =>
    rw [hc] at h
    simp only [Except.ok.injEq] at h
    subst h
    exact ⟨hf.emit_other _ (isDecl_comment _), Nat.le_refl _⟩
  | floatConst =>
    rw [hc] at h
    simp only [nextIdx, emit, push, Except.ok.injEq] at h
    subst h
    refine ⟨?_, Nat.le_succ _⟩
    have := hf.alloc.2 " = 0 /* TODO */;"
    simpa only [renderDecl, String.append_assoc] using this
  | getLocal =>
    rw [hc] at h
    simp only [nextIdx, emit, push] at h
    cases h2 : imm0 i <;> rw [h2] at h <;> simp only [Except.ok.injEq, reduceCtorEq] at h
    subst h
    rename_i v
    refine ⟨?_, Nat.le_succ _⟩
    have := hf.alloc.2 (" = local" ++ fmtD v ++ ";")
    simpa only [renderDecl, String.append_assoc] using this
  | getGlobal =>
    rw [hc] at h
    simp only [nextIdx, emit, push] at h
    cases h2 : imm0 i <;> rw [h2] at h <;> simp only [Except.ok.injEq, reduceCtorEq] at h
    subst h
    rename_i v
    refine ⟨?_, Nat.le_succ _⟩
    have := hf.alloc.2 (" = global" ++ fmtD v ++ ";")
    simpa only [renderDecl, String.append_assoc] using this
  | intConst =>
    rw [hc] at h
    simp only [nextIdx, emit, push] at h
    cases h2 : imm0 i <;> rw [h2] at h <;> simp only [Except.ok.injEq, reduceCtorEq] at h
    subst h
    rename_i v
    refine ⟨?_, Nat.le_succ _⟩
    have := hf.alloc.2 (" = " ++ fmtD v ++ ";")
    simpa only [renderDecl, String.append_assoc] using this
  | teeLocal =>
    rw [hc] at h
    simp only at h
    cases h1 : topOf st.idxStack <;> cases h2 : imm0 i <;> rw [h1, h2] at h <;>
      simp only [Except.ok.injEq, reduceCtorEq] at h
    subst h
    refine ⟨hf.emit_other _ ?_, Nat.le_refl _⟩
    simp only [String.append_assoc]
    exact isDecl_local _
  | setLocal =>
    rw [hc] at h
    simp only at h
    cases h1 : topOf st.idxStack <;> cases h2 : imm0 i <;> rw [h1, h2] at h <;>
      simp only [Except.ok.injEq, reduceCtorEq] at h
    rename_i idx v
    have hf1 : Fresh (emit st ("local" ++ fmtD v ++ " = stack" ++ fmtD idx ++ ";")) :=
      hf.emit_other _ (by
        simp only [String.append_assoc]
        exact isDecl_local _)
    obtain ⟨g1, g2⟩ := hf1.popK h
    exact ⟨g1, by rw [g2]; exact Nat.le_refl _⟩
  | setGlobal =>
    rw [hc] at h
    simp only at h
    cases h1 : topOf st.idxStack <;> cases h2 : imm0 i <;> rw [h1, h2] at h <;>
      simp only [Except.ok.injEq, reduceCtorEq] at h
    rename_i idx v
    have hf1 : Fresh (emit st ("global" ++ fmtD v ++ " = stack" ++ fmtD idx ++ ";")) :=
      hf.emit_other _ (by
        simp only [String.append_assoc]
        exact isDecl_global _)
    obtain ⟨g1, g2⟩ := hf1.popK h
    exact ⟨g1, by rw [g2]; exact Nat.le_refl _⟩

theorem run_fresh {instrs : List Instr} {st st1 : TransState} (hf : Fresh st)
    (h : run st instrs = .ok st1) : Fresh st1 ∧ st.newIdx ≤ st1.newIdx := by
  induction instrs generalizing st with
  | nil =>
    simp only [run, Except.ok.injEq] at h
    subst h
    exact ⟨hf, Nat.le_refl _⟩
  | cons i rest ih =>
    simp only [run] at h
    cases hs : step st i with
    | error e => rw [hs] at h; simp at h
    | ok st2 =>
      rw [hs] at h
      obtain ⟨g1, g2⟩ := step_fresh hf hs
      obtain ⟨g3, g4⟩ := ih g1 h
      exact ⟨g3, Nat.le_trans g2 g4⟩

theorem run_append_ok {pre suf : List Instr} {st st1 : TransState}
    (h : run st (pre ++ suf) = .ok st1) :
    ∃ stp, run st pre = .ok stp ∧ run stp suf = .ok st1 := by
  induction pre generalizing st with
  | nil => exact ⟨st, rfl, h⟩
  | cons i rest ih =>
    simp only [List.cons_append, run] at h ⊢
    cases hs : step st i with
    | error e => rw [hs] at h; simp at h
    | ok st2 =>
      rw [hs] at h
      exact ih h

theorem fresh_init : Fresh TransState.init :=
  ⟨List.Pairwise.nil, by simp [TransState.init], [], rfl, List.Pairwise.nil, by simp⟩

theorem unhandledOps_case : ∀ c ∈ unhandledOps, caseOf c = .passthrough := by decide

/-- The function returns no error value: when it returns, the second component
is `nil`. -/
theorem instrsToCSharp_err_nil (instrs : List Instr) (sig : FunctionSig) (body : List String)
    (err : Option String) (h : instrsToCSharp instrs sig = .ok (body, err)) : err = none := by
  unfold instrsToCSharp at h
  cases hr : run TransState.init instrs with
  | error e => rw [hr] at h; simp at h
  | ok st =>
    rw [hr] at h
    unfold finish at h
    simp only at h
    split at h
    · simp only [Except.ok.injEq, Prod.mk.injEq] at h
      exact h.2.symm
    · split at h
      · simp only [Except.ok.injEq, Prod.mk.injEq] at h
        exact h.2.symm
      · split at h
        · simp only [Except.ok.injEq, Prod.mk.injEq] at h
          exact h.2.symm
        · simp at h
    · simp only [Except.ok.injEq, Prod.mk.injEq] at h
      exact h.2.symm

/-! ### Claims on stack shaping, memory size, unhandled opcodes and slots -/

/-- C31: `drop` on a live stack with the slot `t` on top of `s1` leaves the
live stack `s1` and changes neither the statements nor the counter; `select`
on a live stack with the three slots `a`, `b`, `c` on top of `s2` leaves
`s2` and `a`, a stack whose depth is smaller by exactly two, and changes
nothing else. -/
theorem c31_drop_select (st1 st2 : TransState) (s1 s2 : List Nat) (t a b c : Nat)
    (text : String) (imms : List Int)
    (h1 : st1.idxStack = s1 ++ [t]) (h2 : st2.idxStack = s2 ++ [a, b, c]) :
    step st1 (mkInstr .Drop text imms)
        = .ok { body := st1.body, newIdx := st1.newIdx, idxStack := s1 }
      ∧ step st2 (mkInstr .Select text imms)
        = .ok { body := st2.body, newIdx := st2.newIdx, idxStack := s2 ++ [a] }
      ∧ (s2 ++ [a]).length + 2 = st2.idxStack.length := by
  have c1 : caseOf (mkInstr .Drop text imms).Op.Code = .pop 1 := rfl
  have c2 : caseOf (mkInstr .Select text imms).Op.Code = .pop 2 := rfl
  refine ⟨?_, ?_, ?_⟩
  · rw [step_of_pop st1 _ 1 c1]
    exact popK_one st1 s1 t h1
  · rw [step_of_pop st2 _ 2 c2]
    exact popK_two st2 (s2 ++ [a]) b c (by rw [h2]; simp)
  · rw [h2]
    simp

theorem c31_drop_select_witness :
    step ⟨["dynamic stack0 = 7;"], 1, [] ++ [0]⟩ (mkInstr .Drop "drop" [])
        = .ok { body := (⟨["dynamic stack0 = 7;"], 1, [] ++ [0]⟩ : TransState).body,
                newIdx := (⟨["dynamic stack0 = 7;"], 1, [] ++ [0]⟩ : TransState).newIdx,
                idxStack := [] }
      ∧ step ⟨[], 4, [0] ++ [1, 2, 3]⟩ (mkInstr .Select "drop" [])
        = .ok { body := (⟨[], 4, [0] ++ [1, 2, 3]⟩ : TransState).body,
                newIdx := (⟨[], 4, [0] ++ [1, 2, 3]⟩ : TransState).newIdx,
                idxStack := [0] ++ [1] }
      ∧ ([0] ++ [1]).length + 2 = (⟨[], 4, [0] ++ [1, 2, 3]⟩ : TransState).idxStack.length :=
  c31_drop_select ⟨["dynamic stack0 = 7;"], 1, [] ++ [0]⟩ ⟨[], 4, [0] ++ [1, 2, 3]⟩ [] [0] 0 1 2 3
    "drop" [] rfl rfl

/-- C32, failing input: `current_memory` pushes the fresh slot 0 and emits no
statement, so for a function `() -> i32` with the body `current_memory` the
translation is the single statement `return stack0;` and `stack0` is declared
nowhere.  The cases of `f32.const` and `i32.const` emit a declaration of the
slot they push.  `grow_memory` changes nothing. -/
theorem c32_current_memory_declares_nothing :
    step TransState.init (mkInstr .CurrentMemory "current_memory" [0]) = .ok ⟨[], 1, [0]⟩
      ∧ instrsToCSharp [mkInstr .CurrentMemory "current_memory" [0]] ⟨[], [.I32]⟩
        = .ok (["return stack0;"], none)
      ∧ step TransState.init (mkInstr .F32Const "f32.const" [0])
        = .ok ⟨["dynamic stack0 = 0 /* TODO */;"], 1, [0]⟩
      ∧ step TransState.init (mkInstr .I32Const "i32.const" [5])
        = .ok ⟨["dynamic stack0 = 5;"], 1, [0]⟩
      ∧ step ⟨[], 1, [0]⟩ (mkInstr .GrowMemory "grow_memory" [0]) = .ok ⟨[], 1, [0]⟩ := by
  refine ⟨rfl, rfl, rfl, rfl, rfl⟩

/-- C33: for every instruction whose opcode has no case in the switch, the
iteration appends the one statement `// <op>`, changes neither the live stack
nor the counter, and the loop goes on with the next instruction; among these
opcodes are `br`, `br_if`, `br_table`, `return`, `call`, `call_indirect`, the
conversions and every byte that is no named opcode.  Whenever the function
returns, the error it returns is `nil`. -/
theorem c33_unhandled_opcodes (st : TransState) (instr : Instr) (rest : List Instr)
    (h : caseOf instr.Op.Code = .passthrough) :
    step st instr
        = .ok { body := st.body ++ ["// " ++ instr.Op.text], newIdx := st.newIdx,
                idxStack := st.idxStack }
      ∧ run st (instr :: rest)
        = run { body := st.body ++ ["// " ++ instr.Op.text], newIdx := st.newIdx,
                idxStack := st.idxStack } rest
      ∧ (∀ c ∈ unhandledOps, caseOf c = .passthrough)
      ∧ (∀ code, caseOf (.other code) = .passthrough)
      ∧ ∀ instrs sig body err, instrsToCSharp instrs sig = .ok (body, err) → err = none := by
  have hstep : step st instr
      = .ok { body := st.body ++ ["// " ++ instr.Op.text], newIdx := st.newIdx,
              idxStack := st.idxStack } := by
    unfold step
    rw [h]
    rfl
  refine ⟨hstep, ?_, unhandledOps_case, fun _ => rfl, instrsToCSharp_err_nil⟩
  rw [run, hstep]

theorem c33_unhandled_opcodes_witness :
    step ⟨[], 1, [0]⟩ (mkInstr .Call "call" [3])
        = .ok { body := (⟨[], 1, [0]⟩ : TransState).body
                  ++ ["// " ++ (mkInstr .Call "call" [3]).Op.text],
                newIdx := (⟨[], 1, [0]⟩ : TransState).newIdx,
                idxStack := (⟨[], 1, [0]⟩ : TransState).idxStack }
      ∧ run ⟨[], 1, [0]⟩ (mkInstr .Call "call" [3] :: [mkInstr .Drop "drop" []])
        = run { body := (⟨[], 1, [0]⟩ : TransState).body
                  ++ ["// " ++ (mkInstr .Call "call" [3]).Op.text],
                newIdx := (⟨[], 1, [0]⟩ : TransState).newIdx,
                idxStack := (⟨[], 1, [0]⟩ : TransState).idxStack } [mkInstr .Drop "drop" []]
      ∧ (∀ c ∈ unhandledOps, caseOf c = .passthrough)
      ∧ (∀ code, caseOf (.other code) = .passthrough)
      ∧ ∀ instrs sig body err, instrsToCSharp instrs sig = .ok (body, err) → err = none :=
  c33_unhandled_opcodes ⟨[], 1, [0]⟩ (mkInstr .Call "call" [3]) [mkInstr .Drop "drop" []] rfl

/-- C35: when the translation of an instruction list does not fail, then
after every prefix of the list the counter is at most the counter at the end,
the live stack increases strictly from bottom to top and every live slot is
below the counter; and the declarations `dynamic stackN ...;` among the
statements emitted are, in order, the declarations of slots `N` that increase
strictly, so they are pairwise distinct, and are below the counter. -/
theorem c35_slot_freshness (instrs : List Instr) (st : TransState)
    (h : run TransState.init instrs = .ok st) :
    (∀ pre suf, instrs = pre ++ suf →
        ∃ stp, run TransState.init pre = .ok stp ∧ stp.newIdx ≤ st.newIdx
          ∧ stp.idxStack.Pairwise (· < ·) ∧ ∀ n ∈ stp.idxStack, n < stp.newIdx)
      ∧ ∃ decls : List (Nat × String),
          st.body.filter isDecl = decls.map renderDecl
            ∧ (decls.map Prod.fst).Pairwise (· < ·)
            ∧ (decls.map Prod.fst).Nodup
            ∧ ∀ d ∈ decls, d.1 < st.newIdx := by
  constructor
  · intro pre suf hsplit
    subst hsplit
    obtain ⟨stp, hp, hs⟩ := run_append_ok h
    obtain ⟨f1, _⟩ := run_fresh fresh_init hp
    obtain ⟨_, hmono⟩ := run_fresh f1 hs
    exact ⟨stp, hp, hmono, f1.1, f1.2.1⟩
  · obtain ⟨⟨_, _, decls, h3, h4, h5⟩, _⟩ := run_fresh fresh_init h
    exact ⟨decls, h3, h4, h4.imp (fun hlt => Nat.ne_of_lt hlt), h5⟩

theorem c35_slot_freshness_witness :
    (∀ pre suf, addBody "get_local" "get_local" "i32.add" "end" = pre ++ suf →
        ∃ stp, run TransState.init pre = .ok stp
          ∧ stp.newIdx ≤ (⟨["dynamic stack0 = local0;", "dynamic stack1 = local1;"], 2, [0]⟩
              : TransState).newIdx
          ∧ stp.idxStack.Pairwise (· < ·) ∧ ∀ n ∈ stp.idxStack, n < stp.newIdx)
      ∧ ∃ decls : List (Nat × String),
          (⟨["dynamic stack0 = local0;", "dynamic stack1 = local1;"], 2, [0]⟩
              : TransState).body.filter isDecl = decls.map renderDecl
            ∧ (decls.map Prod.fst).Pairwise (· < ·)
            ∧ (decls.map Prod.fst).Nodup
            ∧ ∀ d ∈ decls,
              d.1 < (⟨["dynamic stack0 = local0;", "dynamic stack1 = local1;"], 2, [0]⟩
                : TransState).newIdx :=
  c35_slot_freshness (addBody "get_local" "get_local" "i32.add" "end")
    ⟨["dynamic stack0 = local0;", "dynamic stack1 = local1;"], 2, [0]⟩ rfl

/-! ### Claims on the writer, the memory search, dictionaries and grouping -/

namespace JS

theorem writerLoop_lines : ∀ (fuel : Nat) (out buf : List Nat), buf.length < fuel →
    ∃ (lines : List (List Nat)) (rest : List Nat), writerLoop fuel out buf = some (out ++ (lines.map (· ++ [10])).flatten, rest)
      ∧ 10 ∉ rest ∧ (∀ l ∈ lines, 10 ∉ l) ∧ (lines.map (· ++ [10])).flatten ++ rest = buf := by
  intro fuel
  induction fuel with
  | zero => intro out buf h; omega
  | succ fuel ih =>
    intro out buf h
    unfold writerLoop
    have hs := List.span_eq_take_drop (fun c : Nat => c != 10) buf
    have hsplit := List.takeWhile_append_dropWhile (fun c : Nat => c != 10) buf
    have htake : 10 ∉ List.takeWhile (fun c : Nat => c != 10) buf := by
      intro hmem
      have := List.mem_takeWhile_imp hmem
      simp at this
    have hhead : ∀ hne : List.dropWhile (fun c : Nat => c != 10) buf ≠ [],
        (List.dropWhile (fun c : Nat => c != 10) buf).head hne = 10 := by
      intro hne
      have := List.head_dropWhile_not (fun c : Nat => c != 10) buf hne
      simpa using this
    have hle := (List.dropWhile_suffix (fun c : Nat => c != 10) (l := buf)).length_le
    generalize List.takeWhile (fun c : Nat => c != 10) buf = tw at hs hsplit htake
    generalize List.dropWhile (fun c : Nat => c != 10) buf = dw at hs hsplit hhead hle
    rw [hs]
    rcases dw with _ | ⟨c, rest⟩
    · refine ⟨[], buf, by simp, ?_, by simp, by simp⟩
      rw [List.append_nil] at hsplit
      rw [← hsplit]
      exact htake
    · simp only
      have hc : c = 10 := hhead (by simp)
      subst hc
      simp only [List.length_cons] at hle
      obtain ⟨lines, r, h1, h2, h3, h4⟩ := ih (out ++ tw ++ [10]) rest (by omega)
      refine ⟨tw :: lines, r, ?_, h2, ?_, ?_⟩
      · rw [h1]
        simp [List.append_assoc]
      · intro l hl
        rcases List.mem_cons.1 hl with rfl | hl
        · exact htake
        · exact h3 l hl
      · rw [← hsplit, ← h4]
        simp [List.append_assoc]

end JS

/-- C36: for every writer (its buffer holding no newline byte or not) and
every byte sequence `bs`, `Write(bs)` ends; the bytes it adds to the stream
are lines without a newline byte, each followed by one newline byte; the
buffer it leaves holds no newline byte; and the added bytes followed by the
new buffer are the old buffer followed by `bs`. -/
theorem c36_writer_line_buffering (out buf bs : List Nat) :
    ∃ (lines : List (List Nat)) (rest : List Nat),
      JS.Writer.Write out buf bs = some (out ++ (lines.map (· ++ [10])).flatten, rest)
        ∧ 10 ∉ rest ∧ (∀ l ∈ lines, 10 ∉ l)
        ∧ (lines.map (· ++ [10])).flatten ++ rest = buf ++ bs :=
  JS.writerLoop_lines _ out (buf ++ bs) (Nat.lt_succ_self _)

theorem memchrFrom_found (bytes : Nat → Nat) (ch : Nat) : ∀ (n a i : Nat), i < n →
    bytes (a + i) = ch → (∀ j, j < i → bytes (a + j) ≠ ch) →
    memchrFrom bytes ch a n = some (a + i) := by
  intro n
  induction n with
  | zero => intro a i h; omega
  | succ n ih =>
    intro a i hi hb hfirst
    unfold memchrFrom
    cases i with
    | zero =>
      rw [Nat.add_zero] at hb
      rw [if_pos hb, Nat.add_zero]
    | succ i =>
      have h0 : bytes a ≠ ch := by
        have := hfirst 0 (Nat.succ_pos _)
        rwa [Nat.add_zero] at this
      rw [if_neg h0]
      have := ih (a + 1) i (by omega) (by rw [← hb]; congr 1; omega) (by
        intro j hj
        have := hfirst (j + 1) (by omega)
        rwa [show a + (j + 1) = a + 1 + j by omega] at this)
      rw [this]
      congr 1
      omega

theorem memchrFrom_none (bytes : Nat → Nat) (ch : Nat) : ∀ (n a : Nat),
    (∀ j, j < n → bytes (a + j) ≠ ch) → memchrFrom bytes ch a n = none := by
  intro n
  induction n with
  | zero => intro a _; rfl
  | succ n ih =>
    intro a h
    unfold memchrFrom
    have h0 : bytes a ≠ ch := by
      have := h 0 (Nat.succ_pos _)
      rwa [Nat.add_zero] at this
    rw [if_neg h0]
    apply ih
    intro j hj
    have := h (j + 1) (by omega)
    rwa [show a + (j + 1) = a + 1 + j by omega] at this

theorem toSizeT_small (n : Nat) (h : n < 2 ^ 64) : toSizeT (n : Int) = n := by
  unfold toSizeT
  omega

/-- C37: for a range `[ptr, ptr + count)` inside the memory, `Memchr` returns
the address, counted from the start of the memory, of the first byte of the
range that equals `ch` taken as an unsigned byte, and 0 when no byte of the
range equals it.  The result 0 is returned both for a byte found at address 0
and for a byte not found. -/
theorem c37_memchr (m : Mem) (ptr count : Nat) (ch : Int)
    (hin : ptr + count ≤ kMaxMemorySize) :
    (∀ i, i < count → m.bytes_ (ptr + i) = (ch % 256).toNat →
        (∀ j, j < i → m.bytes_ (ptr + j) ≠ (ch % 256).toNat) →
        m.Memchr ptr ch count = some ((ptr + i : Nat) : Int))
      ∧ ((∀ j, j < count → m.bytes_ (ptr + j) ≠ (ch % 256).toNat) →
        m.Memchr ptr ch count = some 0)
      ∧ Mem.sampleA.Memchr 0 65 10 = some 0 ∧ (Mem.ofPages 1).Memchr 0 65 10 = some 0
      ∧ Mem.sampleA.Memchr 3 65 10 = some 5 := by
  have hk : kMaxMemorySize = 2 ^ 31 := by decide
  have hc : toSizeT (count : Int) = count := toSizeT_small count (by omega)
  have hcond : (0 : Int) ≤ (ptr : Int) ∧ (ptr : Int) + (toSizeT (count : Int) : Nat)
      ≤ (kMaxMemorySize : Nat) := by
    rw [hc]
    constructor
    · omega
    · exact_mod_cast hin
  refine ⟨?_, ?_, by decide, by decide, by decide⟩
  · intro i hi hb hfirst
    unfold Mem.Memchr
    rw [if_pos hcond, hc, Int.toNat_ofNat, memchrFrom_found m.bytes_ _ count ptr i hi hb hfirst]
    simp only
    rw [toInt32_small (ptr + i) (by omega)]
  · intro hnone
    unfold Mem.Memchr
    rw [if_pos hcond, hc, Int.toNat_ofNat, memchrFrom_none m.bytes_ _ count ptr hnone]

theorem c37_memchr_witness :
    (∀ i, i < 10 → Mem.sampleA.bytes_ (3 + i) = ((65 : Int) % 256).toNat →
        (∀ j, j < i → Mem.sampleA.bytes_ (3 + j) ≠ ((65 : Int) % 256).toNat) →
        Mem.sampleA.Memchr (3 : Nat) 65 (10 : Nat) = some ((3 + i : Nat) : Int))
      ∧ ((∀ j, j < 10 → Mem.sampleA.bytes_ (3 + j) ≠ ((65 : Int) % 256).toNat) →
        Mem.sampleA.Memchr (3 : Nat) 65 (10 : Nat) = some 0)
      ∧ Mem.sampleA.Memchr 0 65 10 = some 0 ∧ (Mem.ofPages 1).Memchr 0 65 10 = some 0
      ∧ Mem.sampleA.Memchr 3 65 10 = some 5 :=
  c37_memchr Mem.sampleA 3 10 65 (by decide)

namespace JS

theorem dictGet_nil (key : String) : dictGet [] key = Value.undefined := rfl

theorem dictGet_cons (k : String) (v : Value) (rest : List (String × Value)) (key : String) :
    dictGet ((k, v) :: rest) key = if k = key then v else dictGet rest key := by
  unfold dictGet
  by_cases h : k = key
  · simp [List.find?, h]
  · have hb : (k == key) = false := by simp [h]
    simp [List.find?, hb, h]

theorem dictGet_dictSet_self (dict : List (String × Value)) (key : String) (object : Value) :
    dictGet (dictSet dict key object) key = object := by
  induction dict with
  | nil => simp [dictSet, dictGet_cons]
  | cons kv rest ih =>
    obtain ⟨k, v⟩ := kv
    unfold dictSet
    by_cases h1 : key = k
    · rw [if_pos h1, dictGet_cons, if_pos rfl]
    · rw [if_neg h1]
      by_cases h2 : key < k
      · rw [if_pos h2, dictGet_cons, if_pos rfl]
      · rw [if_neg h2, dictGet_cons, if_neg (fun h => h1 h.symm), ih]

theorem dictGet_dictSet_other (dict : List (String × Value)) (key key1 : String)
    (object : Value) (hne : key ≠ key1) :
    dictGet (dictSet dict key object) key1 = dictGet dict key1 := by
  induction dict with
  | nil => simp [dictSet, dictGet_cons, hne]
  | cons kv rest ih =>
    obtain ⟨k, v⟩ := kv
    unfold dictSet
    by_cases h1 : key = k
    · subst h1
      rw [if_pos rfl, dictGet_cons, dictGet_cons, if_neg hne, if_neg hne]
    · rw [if_neg h1]
      by_cases h2 : key < k
      · rw [if_pos h2, dictGet_cons, if_neg hne]
      · rw [if_neg h2, dictGet_cons, dictGet_cons, ih]

theorem dictGet_of_absent (dict : List (String × Value)) (key : String)
    (h : ∀ kv ∈ dict, kv.1 ≠ key) : dictGet dict key = Value.undefined := by
  induction dict with
  | nil => rfl
  | cons kv rest ih =>
    obtain ⟨k, v⟩ := kv
    rw [dictGet_cons, if_neg (h (k, v) (List.mem_cons_self _ _))]
    exact ih (fun kv hkv => h kv (List.mem_cons_of_mem _ hkv))

theorem dictGet_dictErase_self (dict : List (String × Value)) (key : String) :
    dictGet (dictErase dict key) key = Value.undefined := by
  apply dictGet_of_absent
  intro kv hkv
  unfold dictErase at hkv
  simpa using (List.mem_filter.1 hkv).2

theorem dictGet_dictErase_other (dict : List (String × Value)) (key key1 : String)
    (hne : key ≠ key1) : dictGet (dictErase dict key) key1 = dictGet dict key1 := by
  induction dict with
  | nil => rfl
  | cons kv rest ih =>
    obtain ⟨k, v⟩ := kv
    unfold dictErase at ih ⊢
    by_cases h1 : k = key
    · rw [List.filter_cons_of_neg (by simp [h1]), ih, dictGet_cons, if_neg (by rw [h1]; exact hne)]
    · rw [List.filter_cons_of_pos (by simp [h1]), dictGet_cons, dictGet_cons, ih]

theorem heap_set_get (heap : List Object) (o : Nat) (old new : Object)
    (h : heap[o]? = some old) : (heap.set o new)[o]? = some new := by
  have hlt : o < heap.length := by
    by_contra hcon
    rw [List.getElem?_eq_none (by omega)] at h
    simp at h
  rw [List.getElem?_set_self hlt]

end JS

/-- C38: on a `DictionaryValues` object, for keys `k ≠ k1` and every value
`v`: `Set(k, v)` returns and `Get(k)` afterwards is `v`; `Delete(k)` returns
and `Get(k)` afterwards is `Value{}`; both leave `Get(k1)` as it was; `Get`
of a key that the dictionary does not hold is `Value{}`.  No `Get` faults or
changes anything. -/
theorem c38_dictionary_finite_map (env : JS.Env) (w : JS.World) (o : Nat)
    (dict : List (String × JS.Value)) (k k1 : String) (v : JS.Value)
    (ho : w.heap[o]? = some (.DictionaryValues dict)) (hk : k ≠ k1) :
    (∃ w1, JS.Object.Set env o k v w = (.ok (), w1)
        ∧ JS.Object.Get env o k w1 = (.ok v, w1)
        ∧ JS.Object.Get env o k1 w1 = (.ok (JS.dictGet dict k1), w1))
      ∧ (∃ w2, JS.Object.Delete env o k w = (.ok (), w2)
        ∧ JS.Object.Get env o k w2 = (.ok JS.Value.undefined, w2)
        ∧ JS.Object.Get env o k1 w2 = (.ok (JS.dictGet dict k1), w2))
      ∧ JS.Object.Get env o k1 w = (.ok (JS.dictGet dict k1), w)
      ∧ ((∀ kv ∈ dict, kv.1 ≠ k) → JS.Object.Get env o k w = (.ok JS.Value.undefined, w)) := by
  refine ⟨⟨{ w with heap := w.heap.set o (.DictionaryValues (JS.dictSet dict k v)) }, ?_, ?_, ?_⟩,
    ⟨{ w with heap := w.heap.set o (.DictionaryValues (JS.dictErase dict k)) }, ?_, ?_, ?_⟩,
    ?_, ?_⟩
  · simp only [JS.Object.Set, ho, JS.store]
  · simp only [JS.Object.Get, JS.heap_set_get w.heap o _ _ ho, JS.dictGet_dictSet_self]
  · simp only [JS.Object.Get, JS.heap_set_get w.heap o _ _ ho,
      JS.dictGet_dictSet_other dict k k1 v hk]
  · simp only [JS.Object.Delete, ho, JS.store]
  · simp only [JS.Object.Get, JS.heap_set_get w.heap o _ _ ho, JS.dictGet_dictErase_self]
  · simp only [JS.Object.Get, JS.heap_set_get w.heap o _ _ ho,
      JS.dictGet_dictErase_other dict k k1 hk]
  · simp only [JS.Object.Get, ho]
  · intro h
    simp only [JS.Object.Get, ho, JS.dictGet_of_absent dict k h]

theorem c38_dictionary_finite_map_witness :
    (∃ w1, JS.Object.Set JS.Env.plain 0 "a" (JS.Value.ofNat 4) JS.World.withHandler = (.ok (), w1)
        ∧ JS.Object.Get JS.Env.plain 0 "a" w1 = (.ok (JS.Value.ofNat 4), w1)
        ∧ JS.Object.Get JS.Env.plain 0 "_panic" w1
          = (.ok (JS.dictGet [("_panic", JS.Value.ofObject (some 1))] "_panic"), w1))
      ∧ (∃ w2, JS.Object.Delete JS.Env.plain 0 "a" JS.World.withHandler = (.ok (), w2)
        ∧ JS.Object.Get JS.Env.plain 0 "a" w2 = (.ok JS.Value.undefined, w2)
        ∧ JS.Object.Get JS.Env.plain 0 "_panic" w2
          = (.ok (JS.dictGet [("_panic", JS.Value.ofObject (some 1))] "_panic"), w2))
      ∧ JS.Object.Get JS.Env.plain 0 "_panic" JS.World.withHandler
        = (.ok (JS.dictGet [("_panic", JS.Value.ofObject (some 1))] "_panic"),
          JS.World.withHandler)
      ∧ ((∀ kv ∈ [("_panic", JS.Value.ofObject (some 1))], kv.1 ≠ "a") →
        JS.Object.Get JS.Env.plain 0 "a" JS.World.withHandler
          = (.ok JS.Value.undefined, JS.World.withHandler)) :=
  c38_dictionary_finite_map JS.Env.plain JS.World.withHandler 0
    [("_panic", JS.Value.ofObject (some 1))] "a" "_panic" (JS.Value.ofNat 4) rfl (by decide)

/-- For every value with the tag `Object` and a null `object_value_`, `IsBytes`
and `ToBytes` call `ToBytes()` through the null pointer: both are undefined,
and `ToBytes` calls `panic` before neither. -/
theorem bytes_of_null_object (env : JS.Env) (w : JS.World) (v : JS.Value)
    (ht : v.type_ = .Object) (ho : v.object_value_ = none) :
    JS.Value.IsBytes v w = (.undefined, w) ∧ JS.Value.ToBytes env v w = (.undefined, w) := by
  constructor
  · simp [JS.Value.IsBytes, ht, ho, JS.Host.stop]
  · simp [JS.Value.ToBytes, ht, ho, JS.Host.stop, bind, JS.Host.bind, pure, JS.Host.pure]

/-- C39, failing input: the value built from the empty vector has the tag
`Object`, an array payload and a null `object_value_`.  `IsBytes` evaluates
`object_value_->ToBytes()` on it and `ToBytes` does the same after its test of
the tag: both calls go through the null pointer, so neither has a defined
result, and no call of `panic` is recorded.  `IsObject`, `ToObject` and
`ToArrayBuffer` test `object_value_` first. -/
theorem c39_bytes_of_vector_deref_null :
    ((JS.Value.ofArray 0).type_ = .Object ∧ (JS.Value.ofArray 0).array_value_ = some 0
        ∧ (JS.Value.ofArray 0).object_value_ = none)
      ∧ JS.Value.IsBytes (JS.Value.ofArray 0) { JS.World.sample with arrays := [[]] }
        = (.undefined, { JS.World.sample with arrays := [[]] })
      ∧ JS.Value.ToBytes JS.Env.plain (JS.Value.ofArray 0) { JS.World.sample with arrays := [[]] }
        = (.undefined, { JS.World.sample with arrays := [[]] })
      ∧ (JS.Value.ofArray 0).IsObject = false
      ∧ (JS.Value.ToObject JS.Env.plain (JS.Value.ofArray 0)
          { JS.World.sample with arrays := [[]] }).2.trace
        = [JS.Event.panic "Value::ToObject: object_value_ must not be null"]
      ∧ (JS.Value.ToArrayBuffer JS.Env.plain (JS.Value.ofArray 0)
          { JS.World.sample with arrays := [[]] }).2.trace
        = [JS.Event.panic "Value::ToArrayBuffer: object_value_ must not be null"] := by
  refine ⟨⟨rfl, rfl, rfl⟩, ?_, ?_, rfl, by decide!, by decide!⟩
  · exact (bytes_of_null_object JS.Env.plain _ (JS.Value.ofArray 0) rfl rfl).1
  · exact (bytes_of_null_object JS.Env.plain _ (JS.Value.ofArray 0) rfl rfl).2

theorem groupLoop_ok : ∀ (l : List wasmFunc) (groups : Nat → List wasmFunc),
    (∀ f ∈ l, f.Name ≠ []) →
    groupLoop groups l
      = .ok (fun g => groups g ++ l.filter (fun f => f.Name.head? = some g)) := by
  intro l
  induction l with
  | nil =>
    intro groups _
    simp [groupLoop]
  | cons f rest ih =>
    intro groups h
    have hf := h f (List.mem_cons_self _ _)
    rcases hn : f.Name with _ | ⟨g0, tl⟩
    · exact absurd hn hf
    · unfold groupLoop
      simp only [hn]
      rw [ih _ (fun f1 h1 => h f1 (List.mem_cons_of_mem _ h1))]
      refine congrArg Except.ok (funext fun g => ?_)
      by_cases hg : g = g0
      · subst hg
        rw [Function.update_same, List.filter_cons_of_pos (by simp [hn]), List.append_assoc]
        rfl
      · rw [Function.update_noteq hg, List.filter_cons_of_neg (by
          simp only [hn, List.head?_cons, Option.some.injEq, decide_eq_true_eq]
          exact fun h1 => hg h1.symm)]

theorem groupLoop_error : ∀ (l : List wasmFunc) (groups : Nat → List wasmFunc),
    (∃ f ∈ l, f.Name = []) → groupLoop groups l = .error .indexRange := by
  intro l
  induction l with
  | nil =>
    intro groups h
    obtain ⟨f, hf, _⟩ := h
    simp at hf
  | cons f rest ih =>
    intro groups h
    unfold groupLoop
    rcases hn : f.Name with _ | ⟨g0, tl⟩
    · rfl
    · simp only
      apply ih
      obtain ⟨f1, hf1, he⟩ := h
      rcases List.mem_cons.1 hf1 with rfl | hmem
      · rw [hn] at he
        simp at he
      · exact ⟨f1, hmem, he⟩

/-- C40: let `sort.Slice` return a permutation of the functions that is in
non-decreasing order of name.  When every name is non-empty, `writeInst`
builds groups such that the group of the byte `g` is the list of the sorted
functions whose name starts with `g`: a function is in the group of `g`
exactly when it is a function of the input and `g` is the first byte of its
name; it occurs there as often as in the input and in no other group; and
every group is in non-decreasing order of name.  When some name is empty, the
index expression `n[0]` is out of range and `writeInst` panics. -/
theorem c40_function_groups (sortSlice : List wasmFunc → List wasmFunc)
    (funcs : List wasmFunc) (hperm : (sortSlice funcs).Perm funcs)
    (hsorted : (sortSlice funcs).Pairwise (fun a b => ¬ b.Name < a.Name)) :
    ((∀ f ∈ funcs, f.Name ≠ []) →
        ∃ groups, writeInstGroups sortSlice funcs = .ok groups
          ∧ (∀ g, groups g = (sortSlice funcs).filter (fun f => f.Name.head? = some g))
          ∧ (∀ f g, f ∈ groups g ↔ f ∈ funcs ∧ f.Name.head? = some g)
          ∧ (∀ f g, (groups g).count f = if f.Name.head? = some g then funcs.count f else 0)
          ∧ ∀ g, (groups g).Pairwise (fun a b => ¬ b.Name < a.Name))
      ∧ ((∃ f ∈ funcs, f.Name = []) → writeInstGroups sortSlice funcs = .error .indexRange) := by
  constructor
  · intro hne
    have hne1 : ∀ f ∈ sortSlice funcs, f.Name ≠ [] := fun f hf => hne f (hperm.mem_iff.1 hf)
    refine ⟨fun g => (sortSlice funcs).filter (fun f => f.Name.head? = some g), ?_,
      fun _ => rfl, ?_, ?_, ?_⟩
    · unfold writeInstGroups
      rw [groupLoop_ok _ _ hne1]
      simp
    · intro f g
      simp only [List.mem_filter, decide_eq_true_eq, hperm.mem_iff]
    · intro f g
      by_cases hfg : f.Name.head? = some g
      · rw [if_pos hfg, List.count_filter (by simpa using hfg), hperm.count_eq]
      · rw [if_neg hfg, List.count_eq_zero]
        intro hmem
        exact hfg (by simpa using (List.mem_filter.1 hmem).2)
    · intro g
      exact hsorted.sublist (List.filter_sublist _)
  · intro hex
    obtain ⟨f, hf, he⟩ := hex
    exact groupLoop_error _ _ ⟨f, hperm.mem_iff.2 hf, he⟩

theorem c40_function_groups_witness :
    ((∀ f ∈ sampleFuncs, f.Name ≠ []) →
        ∃ groups, writeInstGroups sortByName sampleFuncs = .ok groups
          ∧ (∀ g, groups g = (sortByName sampleFuncs).filter (fun f => f.Name.head? = some g))
          ∧ (∀ f g, f ∈ groups g ↔ f ∈ sampleFuncs ∧ f.Name.head? = some g)
          ∧ (∀ f g, (groups g).count f
              = if f.Name.head? = some g then sampleFuncs.count f else 0)
          ∧ ∀ g, (groups g).Pairwise (fun a b => ¬ b.Name < a.Name))
      ∧ ((∃ f ∈ sampleFuncs, f.Name = []) →
          writeInstGroups sortByName sampleFuncs = .error .indexRange) :=
  c40_function_groups sortByName sampleFuncs (by decide) (by decide)
end Go2Cpp
